import Mathlib

/-!
# GGL math core: `Matrix44`, `LinearSolve` and `Quaternion`

A shallow embedding of `matrix44.h` and `Quaternion.h` in exact arithmetic.
In the first part the scalar template parameter `T` / `S` is instantiated with
`ℚ`; a division whose divisor is zero has no exact value (IEEE arithmetic
would produce an infinity or a NaN there), so the one routine of this part
that can divide by zero, `LinearSolve.Solve`, returns an `Option`.  The second
part embeds the routines that need square roots and trigonometric functions,
with the scalar type left open.

The 16-element buffer `_a` of `Matrix44` is addressed only through
`ElementAt (row, col) = _a[row * 4 + col]`; a matrix is therefore embedded as
a function of `(row, col)`, which is Mathlib's `Matrix (Fin 4) (Fin 4) ℚ`.
-/

namespace GGL

/-! ## Vector primitives -/

/-- `Point3<T>`: three scalars. -/
abbrev Point3 := Fin 3 → ℚ

/-- `Point4<T>`: four scalars. -/
abbrev Point4 := Fin 4 → ℚ

/-- Modelled from the spec: `Point3::operator*(Point3)` of `point3.h`, the dot
product of the vector primitives. -/
def Point3.dot (a b : Point3) : ℚ := a 0 * b 0 + a 1 * b 1 + a 2 * b 2

/-- Modelled from the spec: `Point3::operator^` of `point3.h`, the cross
product of the vector primitives. -/
def Point3.cross (a b : Point3) : Point3 :=
  ![a 1 * b 2 - a 2 * b 1, a 2 * b 0 - a 0 * b 2, a 0 * b 1 - a 1 * b 0]

/-- Modelled from the spec: `Point3::operator*=(T)` of `point3.h`, the
componentwise scaling of a vector. -/
def Point3.scale (a : Point3) (s : ℚ) : Point3 := ![a 0 * s, a 1 * s, a 2 * s]

/-- Modelled from the spec: `Point3::operator+` of `point3.h`, the
componentwise sum. -/
def Point3.add (a b : Point3) : Point3 := ![a 0 + b 0, a 1 + b 1, a 2 + b 2]

/-! ## Index ranges of the counted loops -/

/-- The indices `lo, lo+1, …, hi-1` (those below 4), in increasing order:
the iteration space of `for (i = lo; i < hi; i++)`. -/
def idx (lo hi : Nat) : List (Fin 4) :=
  (List.finRange 4).filter (fun i => decide (lo ≤ i.val) && decide (i.val < hi))

/-! ## Matrix44 -/

/-- `Matrix44<T>`, read through `ElementAt (row, col)`. -/
abbrev Matrix44 := Matrix (Fin 4) (Fin 4) ℚ

namespace Matrix44

/-- `ElementAt (row, col)` as an rvalue. -/
def ElementAt (m : Matrix44) (row col : Fin 4) : ℚ := m row col

/-- The assignment `ElementAt (row, col) = v`. -/
def set (m : Matrix44) (row col : Fin 4) (v : ℚ) : Matrix44 :=
  fun r c => if r = row ∧ c = col then v else m r c

/-- `SetZero`: every entry becomes 0. -/
def SetZero (_m : Matrix44) : Matrix44 := fun _ _ => 0

/-- `SetDiagonal (k)`: zero the matrix, then write `k, k, k, 1` on the diagonal. -/
def SetDiagonal (m : Matrix44) (k : ℚ) : Matrix44 :=
  ((((SetZero m).set 0 0 k).set 1 1 k).set 2 2 k).set 3 3 1

/-- `SetIdentity`. -/
def SetIdentity (m : Matrix44) : Matrix44 := SetDiagonal m 1

/-- The identity matrix, built by `SetIdentity`. -/
def Identity : Matrix44 := SetIdentity (fun _ _ => 0)

/-- `operator*(const Matrix44 &)`: entry `(i, j)` accumulates
`ElementAt (i, k) * m.ElementAt (k, j)` for `k = 0..3`, starting from 0. -/
def mul (a m : Matrix44) : Matrix44 :=
  fun i j => (idx 0 4).foldl (fun t k => t + a.ElementAt i k * m.ElementAt k j) 0

/-- `operator*(const Point4 &)`: entry `i` accumulates
`ElementAt (i, k) * v[k]` for `k = 0..3`, starting from 0. -/
def mulPoint4 (a : Matrix44) (v : Point4) : Point4 :=
  fun i => (idx 0 4).foldl (fun t k => t + a.ElementAt i k * v k) 0

end Matrix44

/-! ## LinearSolve -/

/-- The pivot substitute `#define TINY 1e-100`. -/
def TINY : ℚ := 1 / 10 ^ 100

/-- `LinearSolve<T>`: the matrix it derives from, the row permutation `index`
and the permutation sign `d`. -/
structure LinearSolve where
  /-- The `Matrix44` base object, overwritten by its LU factors. -/
  a : Matrix44
  /-- Holds the row permutation. -/
  index : Fin 4 → Fin 4
  /-- Holds the sign of the row permutation. -/
  d : ℚ

/-- The local state of `Decompose`: the object under construction together
with the locals `scaling` and `imax`. -/
structure DecompState where
  /-- The matrix being factored in place. -/
  a : Matrix44
  /-- The member `index`. -/
  index : Fin 4 → Fin 4
  /-- The member `d`. -/
  d : ℚ
  /-- The local `scaling[4]`. -/
  scaling : Fin 4 → ℚ
  /-- The local `imax`. -/
  imax : Fin 4

namespace LinearSolve

/-- The inner loop of the row scan: the largest `Abs (ElementAt (i, j))` of
row `i`, starting from `largest = 0`. -/
def rowLargest (a : Matrix44) (i : Fin 4) : ℚ :=
  (idx 0 4).foldl (fun largest j =>
    let t := |a.ElementAt i j|
    if t > largest then t else largest) 0

/-- The row scan of `Decompose`: `scaling[i] = 1 / largest` row by row;
`none` is the early `return false` at the first row whose largest magnitude
is 0. -/
def scanRows (a : Matrix44) (scaling : Fin 4 → ℚ) : Option (Fin 4 → ℚ) :=
  (idx 0 4).foldlM (fun scaling i =>
    let largest := rowLargest a i
    if largest = 0 then none else some (Function.update scaling i (1 / largest))) scaling

/-- The accumulation `sum = ElementAt (i, j); for k < n: sum -= ElementAt (i, k) * ElementAt (k, j)`. -/
def innerSum (a : Matrix44) (i j : Fin 4) (n : Nat) : ℚ :=
  (idx 0 n).foldl (fun sum k => sum - a.ElementAt i k * a.ElementAt k j) (a.ElementAt i j)

/-- The first loop of column `j`: for `i < j`, entry `(i, j)` is replaced by
its `innerSum` over `k < i`. -/
def upperLoop (a : Matrix44) (j : Fin 4) : Matrix44 :=
  (idx 0 j).foldl (fun a i => a.set i j (innerSum a i j i)) a

/-- The body of the second loop of column `j`, on the state
`(matrix, largest, imax)`: entry `(i, j)` is replaced by its `innerSum` over
`k < j`, and when `t = scaling[i] * Abs (sum)` is `>= largest` both
`largest` and `imax` are updated. -/
def lowerStep (scaling : Fin 4 → ℚ) (j : Fin 4) (s : Matrix44 × ℚ × Fin 4) (i : Fin 4) :
    Matrix44 × ℚ × Fin 4 :=
  let sum := innerSum s.1 i j j
  let a := s.1.set i j sum
  let t := scaling i * |sum|
  (a, if t ≥ s.2.1 then t else s.2.1, if t ≥ s.2.1 then i else s.2.2)

/-- The second loop of column `j`: `largest = 0`, then `lowerStep` for
`i = j..3` (the last of equal candidates wins).  Returns the matrix and
`imax`. -/
def lowerLoop (a : Matrix44) (scaling : Fin 4 → ℚ) (imax : Fin 4) (j : Fin 4) :
    Matrix44 × Fin 4 :=
  let r := (idx j 4).foldl (lowerStep scaling j) (a, 0, imax)
  (r.1, r.2.2)

/-- The row interchange: rows `imax` and `j` are exchanged entry by entry. -/
def swapRows (a : Matrix44) (imax j : Fin 4) : Matrix44 :=
  (idx 0 4).foldl (fun a k =>
    let dum := a.ElementAt imax k
    let a := a.set imax k (a.ElementAt j k)
    a.set j k dum) a

/-- The final loop of column `j`: for `i > j`, entry `(i, j)` is multiplied by
`dum = 1 / ElementAt (j, j)`. -/
def scaleColumn (a : Matrix44) (j : Fin 4) : Matrix44 :=
  let dum := 1 / a.ElementAt j j
  (idx (j.val + 1) 4).foldl (fun a i => a.set i j (a.ElementAt i j * dum)) a

/-- One iteration of the column loop of `Decompose`. -/
def decomposeColumn (s : DecompState) (j : Fin 4) : DecompState :=
  let a := upperLoop s.a j
  let r := lowerLoop a s.scaling s.imax j
  let a := r.1
  let imax := r.2
  let s : DecompState :=
    if j ≠ imax then
      { s with a := swapRows a imax j, d := -s.d,
               scaling := Function.update s.scaling imax (s.scaling j), imax := imax }
    else { s with a := a, imax := imax }
  let s := { s with index := Function.update s.index j imax }
  let s := if s.a.ElementAt j j = 0 then { s with a := s.a.set j j TINY } else s
  if j ≠ 3 then { s with a := scaleColumn s.a j } else s

/-- `Decompose`: `d = 1`, the row scan, then the column loop.  The Boolean is
the return value.  The locals `scaling` and `imax` are indeterminate in the
source until first written; they start here at 0. -/
def Decompose (ls : LinearSolve) : Bool × LinearSolve :=
  let ls := { ls with d := 1 }
  match scanRows ls.a (fun _ => 0) with
  | none => (false, ls)
  | some scaling =>
    let s := (idx 0 4).foldl decomposeColumn
      { a := ls.a, index := ls.index, d := ls.d, scaling := scaling, imax := 0 }
    (true, { a := s.a, index := s.index, d := s.d })

/-- The constructor `LinearSolve (m)`: copy `m`, run `Decompose`, and on
failure reset `index` to the identity and the matrix to zero.  The members
`index` and `d` are indeterminate in the source before `Decompose`; they
start here at 0. -/
def construct (m : Matrix44) : LinearSolve :=
  let r := Decompose { a := m, index := fun _ => 0, d := 0 }
  if !r.1 then
    let ls := (idx 0 4).foldl (fun (ls : LinearSolve) i =>
      { ls with index := Function.update ls.index i i }) r.2
    { ls with a := Matrix44.SetZero ls.a }
  else r.2

/-- `LinearSolve::Determinant`: `det = d`, then `det *= ElementAt (j, j)` for
`j = 0..3`. -/
def Determinant (ls : LinearSolve) : ℚ :=
  (idx 0 4).foldl (fun det j => det * ls.a.ElementAt j j) ls.d

/-- The body of the first loop of `Solve`, on the pair `(x, first)`;
`first = none` stands for `first == -1`. -/
def forwardStep (ls : LinearSolve) (s : Point4 × Option (Fin 4)) (i : Fin 4) :
    Point4 × Option (Fin 4) :=
  let x := s.1
  let ip := ls.index i
  let sum := x ip
  let x := Function.update x ip (x i)
  match s.2 with
  | some first =>
    let sum := (idx first i).foldl (fun sum j => sum - ls.a.ElementAt i j * x j) sum
    (Function.update x i sum, some first)
  | none =>
    let first := if sum ≠ 0 then some i else none
    (Function.update x i sum, first)

/-- The first loop of `Solve` (permutation and forward substitution). -/
def forwardLoop (ls : LinearSolve) (x : Point4) : Point4 × Option (Fin 4) :=
  (idx 0 4).foldl (forwardStep ls) (x, none)

/-- The body of the second loop of `Solve`; `none` when the divisor
`ElementAt (i, i)` is zero. -/
def backStep (ls : LinearSolve) (x : Point4) (i : Fin 4) : Option Point4 :=
  let sum := (idx (i.val + 1) 4).foldl (fun sum j => sum - ls.a.ElementAt i j * x j) (x i)
  if ls.a.ElementAt i i = 0 then none
  else some (Function.update x i (sum / ls.a.ElementAt i i))

/-- The second loop of `Solve` (back substitution), `i = 3, 2, 1, 0`. -/
def backLoop (ls : LinearSolve) (x : Point4) : Option Point4 :=
  (idx 0 4).reverse.foldlM (backStep ls) x

/-- `LinearSolve::Solve (b)`. -/
def Solve (ls : LinearSolve) (b : Point4) : Option Point4 :=
  backLoop ls (forwardLoop ls b).1

end LinearSolve

namespace Matrix44

/-- `Matrix44::Determinant`: build a `LinearSolve` and ask for its determinant. -/
def Determinant (m : Matrix44) : ℚ := (LinearSolve.construct m).Determinant

/-- The column loop shared by `Invert` and `Inverse`: column `j` of the result
is `solve.Solve (e_j)`; the result is written into `res`. -/
def invertColumns (solve : LinearSolve) (res : Matrix44) : Option Matrix44 :=
  (idx 0 4).foldlM (fun (res : Matrix44) j => do
    let col : Point4 := Function.update (fun _ => 0) j 1
    let col ← solve.Solve col
    pure ((idx 0 4).foldl (fun (res : Matrix44) i => res.set i j (col i)) res)) res

/-- The free function `Invert (m)`: the columns are written back into `m`. -/
def Invert (m : Matrix44) : Option Matrix44 := invertColumns (LinearSolve.construct m) m

/-- The free function `Inverse (m)`: the columns are written into a fresh
matrix `res` (indeterminate in the source before it is filled; zero here). -/
def Inverse (m : Matrix44) : Option Matrix44 :=
  invertColumns (LinearSolve.construct m) (fun _ _ => 0)

end Matrix44

/-! ## Quaternion -/

/-- `Quaternion<S>`: a `Point4` holding `(w, x, y, z)` in `V(0..3)`. -/
abbrev Quaternion := Point4

namespace Quaternion

/-- `Quaternion::operator*(const Quaternion &)`, the vector-algebra form. -/
def mul (p q : Quaternion) : Quaternion :=
  let t1 : Point3 := ![p 1, p 2, p 3]
  let t2 : Point3 := ![q 1, q 2, q 3]
  let d := Point3.dot t2 t1
  let t3 := Point3.cross t1 t2
  let t1 := Point3.scale t1 (q 0)
  let t2 := Point3.scale t2 (p 0)
  let tf := Point3.add (Point3.add t1 t2) t3
  ![p 0 * q 0 - d, tf 0, tf 1, tf 2]

/-- `Quaternion::operator*=(const Quaternion &)`, the expanded scalar form:
`ww`, `xx`, `yy` are computed, stored into `V(0)`, `V(1)`, `V(2)`, and `V(3)`
is then assigned from the current components. -/
def mulAssign (a q : Quaternion) : Quaternion :=
  let ww := a 0 * q 0 - a 1 * q 1 - a 2 * q 2 - a 3 * q 3
  let xx := a 0 * q 1 + a 1 * q 0 + a 2 * q 3 - a 3 * q 2
  let yy := a 0 * q 2 - a 1 * q 3 + a 2 * q 0 + a 3 * q 1
  let a := Function.update a 0 ww
  let a := Function.update a 1 xx
  let a := Function.update a 2 yy
  Function.update a 3 (a 0 * q 3 + a 1 * q 2 - a 2 * q 1 + a 3 * q 0)

/-- The squared norm `w² + x² + y² + z²`. -/
def normSq (q : Quaternion) : ℚ := q 0 * q 0 + q 1 * q 1 + q 2 * q 2 + q 3 * q 3

end Quaternion

/-! ## The pivot substitute as a value of the scalar type

`Decompose` stores `(T)TINY`, the constant `1e-100` converted to the scalar
type `T`.  At `T = double` the converted value is a non-zero number; at
`T = float` (the typedef `Matrix44f`) the conversion underflows to 0.  The
column loop, `Decompose` and the constructor are embedded here once more with
the converted value `tiny` left open; at `tiny = TINY` they are the routines
above. -/

namespace LinearSolve

/-- One iteration of the column loop of `Decompose`, `tiny` being the value
of `(T)TINY`. -/
def decomposeColumnWith (tiny : ℚ) (s : DecompState) (j : Fin 4) : DecompState :=
  let a := upperLoop s.a j
  let r := lowerLoop a s.scaling s.imax j
  let a := r.1
  let imax := r.2
  let s : DecompState :=
    if j ≠ imax then
      { s with a := swapRows a imax j, d := -s.d,
               scaling := Function.update s.scaling imax (s.scaling j), imax := imax }
    else { s with a := a, imax := imax }
  let s := { s with index := Function.update s.index j imax }
  let s := if s.a.ElementAt j j = 0 then { s with a := s.a.set j j tiny } else s
  if j ≠ 3 then { s with a := scaleColumn s.a j } else s

/-- `Decompose`, `tiny` being the value of `(T)TINY`. -/
def DecomposeWith (tiny : ℚ) (ls : LinearSolve) : Bool × LinearSolve :=
  let ls := { ls with d := 1 }
  match scanRows ls.a (fun _ => 0) with
  | none => (false, ls)
  | some scaling =>
    let s := (idx 0 4).foldl (decomposeColumnWith tiny)
      { a := ls.a, index := ls.index, d := ls.d, scaling := scaling, imax := 0 }
    (true, { a := s.a, index := s.index, d := s.d })

/-- The constructor `LinearSolve (m)`, `tiny` being the value of `(T)TINY`. -/
def constructWith (tiny : ℚ) (m : Matrix44) : LinearSolve :=
  let r := DecomposeWith tiny { a := m, index := fun _ => 0, d := 0 }
  if !r.1 then
    let ls := (idx 0 4).foldl (fun (ls : LinearSolve) i =>
      { ls with index := Function.update ls.index i i }) r.2
    { ls with a := Matrix44.SetZero ls.a }
  else r.2

end LinearSolve

/-! ## The templates at an arbitrary scalar type

The rotation, interpolation and affine-decomposition routines call the
scalar functions of `base.h` / `<cmath>` (square root, sine, cosine and their
inverses), whose exact values are real numbers.  For them the templates are
embedded with the parameter `S` / `T` left open: `S` is any linearly ordered
field, and the scalar functions are a parameter of type `MathOps S`;
`realMath` supplies them in exact real arithmetic.  A division whose divisor
is not guarded by the source and may be zero makes the routine return `none`.
-/

/-- The scalar functions of `base.h` and `<cmath>` used by the templates
(`Math::Sqrt`, `Math::Sin`, `Math::Cos`, `Math::Asin`, `Math::Acos`, `atan2`,
`Math::ToDeg`, `Math::ToRad`) and the constant `M_PI`; they are not part of
the sources and are taken as a parameter. -/
structure MathOps (S : Type) where
  /-- `Math::Sqrt` / `sqrt`. -/
  Sqrt : S → S
  /-- `Math::Sin` / `sin`. -/
  Sin : S → S
  /-- `Math::Cos` / `cos`. -/
  Cos : S → S
  /-- `Math::Asin` / `asin`. -/
  Asin : S → S
  /-- `Math::Acos` / `acos`. -/
  Acos : S → S
  /-- `atan2 (y, x)`. -/
  Atan2 : S → S → S
  /-- `Math::ToDeg`. -/
  ToDeg : S → S
  /-- `Math::ToRad`. -/
  ToRad : S → S
  /-- The constant `M_PI`. -/
  PI : S

/-- Modelled from the spec: the scalar functions in exact real arithmetic;
`atan2 (y, x)` is the argument of `x + y i` in `(-π, π]` (0 at the origin),
and degrees are radians times `180 / π`. -/
noncomputable def realMath : MathOps ℝ where
  Sqrt := Real.sqrt
  Sin := Real.sin
  Cos := Real.cos
  Asin := Real.arcsin
  Acos := Real.arccos
  Atan2 := fun y x => Complex.arg ⟨x, y⟩
  ToDeg := fun a => a * 180 / Real.pi
  ToRad := fun a => a * Real.pi / 180
  PI := Real.pi

/-- Modelled from the spec: the scalar functions of `realMath`, except that
`acos (-1)` is the value `acos (-1.0)` has in IEEE double precision: the
double nearest to π (`M_PI`, `884279719003555 / 2 ^ 48`), which lies below π,
so that its sine is not zero. -/
noncomputable def doubleMath : MathOps ℝ :=
  { realMath with
    Acos := fun v => if v = -1 then 884279719003555 / 281474976710656 else Real.arccos v }

/-- The quotient `a / b` of an unguarded division: `none` when `b` is zero. -/
def sdiv {S : Type} [LinearOrderedField S] (a b : S) : Option S :=
  if b = 0 then none else some (a / b)

/-- `Point3<T>` at scalar type `S`. -/
abbrev Point3T (S : Type) := Fin 3 → S

/-- `Point4<T>` at scalar type `S`. -/
abbrev Point4T (S : Type) := Fin 4 → S

namespace Point3T

variable {S : Type} [LinearOrderedField S]

/-- Modelled from the spec: `Point3::operator*(Point3)` of `point3.h`, the dot
product. -/
def dot (a b : Point3T S) : S := a 0 * b 0 + a 1 * b 1 + a 2 * b 2

/-- Modelled from the spec: `Point3::operator^` of `point3.h`, the cross
product. -/
def cross (a b : Point3T S) : Point3T S :=
  ![a 1 * b 2 - a 2 * b 1, a 2 * b 0 - a 0 * b 2, a 0 * b 1 - a 1 * b 0]

/-- Modelled from the spec: `Point3::operator*(T)` of `point3.h`, the
componentwise scaling. -/
def scale (a : Point3T S) (s : S) : Point3T S := ![a 0 * s, a 1 * s, a 2 * s]

/-- Modelled from the spec: `Point3::operator+` of `point3.h`. -/
def add (a b : Point3T S) : Point3T S := ![a 0 + b 0, a 1 + b 1, a 2 + b 2]

/-- Modelled from the spec: `Point3::operator-` of `point3.h`. -/
def sub (a b : Point3T S) : Point3T S := ![a 0 - b 0, a 1 - b 1, a 2 - b 2]

/-- Modelled from the spec: `Point3::operator/(T)` of `point3.h` with a
divisor known to be non-zero. -/
def divScalar (a : Point3T S) (s : S) : Point3T S := ![a 0 / s, a 1 / s, a 2 / s]

/-- Modelled from the spec: `Point3::operator/(T)` of `point3.h`; `none` when
the divisor is zero. -/
def div (a : Point3T S) (s : S) : Option (Point3T S) :=
  if s = 0 then none else some (divScalar a s)

/-- Modelled from the spec: `Norm` of `point3.h`, the Euclidean length. -/
def Norm (ops : MathOps S) (a : Point3T S) : S := ops.Sqrt (dot a a)

/-- Modelled from the spec: `Point3::Normalize` of `point3.h`, the division
by the Euclidean length. -/
def Normalize (ops : MathOps S) (a : Point3T S) : Option (Point3T S) :=
  div a (Norm ops a)

end Point3T

namespace Point4T

variable {S : Type} [LinearOrderedField S]

/-- Modelled from the spec: `Point4::SquaredNorm` of `point4.h`. -/
def SquaredNorm (a : Point4T S) : S := a 0 * a 0 + a 1 * a 1 + a 2 * a 2 + a 3 * a 3

/-- Modelled from the spec: `Point4::Norm` of `point4.h`, the Euclidean length. -/
def Norm (ops : MathOps S) (a : Point4T S) : S := ops.Sqrt (SquaredNorm a)

/-- Modelled from the spec: `Point4::Normalize` of `point4.h`, the division
by the Euclidean length; `none` when the length is zero. -/
def Normalize (ops : MathOps S) (a : Point4T S) : Option (Point4T S) :=
  if Norm ops a = 0 then none
  else some ![a 0 / Norm ops a, a 1 / Norm ops a, a 2 / Norm ops a, a 3 / Norm ops a]

end Point4T

/-- `Matrix44<T>` at scalar type `S`, read through `ElementAt (row, col)`. -/
abbrev Matrix44T (S : Type) := Matrix (Fin 4) (Fin 4) S

namespace Matrix44T

variable {S : Type} [LinearOrderedField S]

/-- `ElementAt (row, col)` as an rvalue. -/
def ElementAt (m : Matrix44T S) (row col : Fin 4) : S := m row col

/-- The assignment `ElementAt (row, col) = v`. -/
def set (m : Matrix44T S) (row col : Fin 4) (v : S) : Matrix44T S :=
  fun r c => if r = row ∧ c = col then v else m r c

/-- `V ()[k]`: element `k` of the buffer `_a`, which `ElementAt` addresses
as `_a[row * 4 + col]`. -/
def V (m : Matrix44T S) (k : Fin 16) : S :=
  m.ElementAt ⟨k.val / 4, by omega⟩ ⟨k.val % 4, by omega⟩

/-- `SetZero`: every entry becomes 0. -/
def SetZero (_m : Matrix44T S) : Matrix44T S := fun _ _ => 0

/-- `SetDiagonal (k)`: zero the matrix, then write `k, k, k, 1` on the diagonal. -/
def SetDiagonal (m : Matrix44T S) (k : S) : Matrix44T S :=
  ((((SetZero m).set 0 0 k).set 1 1 k).set 2 2 k).set 3 3 1

/-- `SetIdentity`. -/
def SetIdentity (m : Matrix44T S) : Matrix44T S := SetDiagonal m 1

/-- `SetScale (sx, sy, sz)`. -/
def SetScale (m : Matrix44T S) (sx sy sz : S) : Matrix44T S :=
  ((((SetZero m).set 0 0 sx).set 1 1 sy).set 2 2 sz).set 3 3 1

/-- `SetTranslate (tx, ty, tz)`. -/
def SetTranslate (m : Matrix44T S) (tx ty tz : S) : Matrix44T S :=
  (((SetIdentity m).set 0 3 tx).set 1 3 ty).set 2 3 tz

/-- `SetRotate (AngleRad, axis)`: all sixteen entries are assigned; `none`
when the axis cannot be normalised. -/
def SetRotate (ops : MathOps S) (_m : Matrix44T S) (AngleRad : S) (axis : Point3T S) :
    Option (Matrix44T S) := do
  let c := ops.Cos AngleRad
  let s := ops.Sin AngleRad
  let q := 1 - c
  let t ← Point3T.Normalize ops axis
  pure !![t 0 * t 0 * q + c, t 0 * t 1 * q - t 2 * s, t 0 * t 2 * q + t 1 * s, 0;
          t 1 * t 0 * q + t 2 * s, t 1 * t 1 * q + c, t 1 * t 2 * q - t 0 * s, 0;
          t 2 * t 0 * q - t 1 * s, t 2 * t 1 * q + t 0 * s, t 2 * t 2 * q + c, 0;
          0, 0, 0, 1]

/-- `SetShearXY (sh)`. -/
def SetShearXY (m : Matrix44T S) (sh : S) : Matrix44T S := (SetIdentity m).set 0 1 sh

/-- `SetShearXZ (sh)`. -/
def SetShearXZ (m : Matrix44T S) (sh : S) : Matrix44T S := (SetIdentity m).set 0 2 sh

/-- `SetShearYZ (sh)`. -/
def SetShearYZ (m : Matrix44T S) (sh : S) : Matrix44T S := (SetIdentity m).set 1 2 sh

/-- `operator*(const Matrix44 &)`: entry `(i, j)` accumulates
`ElementAt (i, k) * m.ElementAt (k, j)` for `k = 0..3`, starting from 0. -/
def mul (a m : Matrix44T S) : Matrix44T S :=
  fun i j => (idx 0 4).foldl (fun t k => t + a.ElementAt i k * m.ElementAt k j) 0

/-- `operator*=(const T k)`: each of the sixteen elements is multiplied by `k`. -/
def scaleAssign (m : Matrix44T S) (k : S) : Matrix44T S := fun r c => m r c * k

/-- `GetColumn3 (i)`: the first three entries of column `i`. -/
def GetColumn3 (m : Matrix44T S) (i : Fin 4) : Point3T S :=
  ![m.ElementAt 0 i, m.ElementAt 1 i, m.ElementAt 2 i]

/-- `operator*(const Matrix44 &, const Point3 &)`: the point is extended by
`w = 1`, and the result is divided by its fourth coordinate when that is not 0. -/
def mulPoint3 (m : Matrix44T S) (p : Point3T S) : Point3T S :=
  let s : Point3T S :=
    ![m.ElementAt 0 0 * p 0 + m.ElementAt 0 1 * p 1 + m.ElementAt 0 2 * p 2 + m.ElementAt 0 3,
      m.ElementAt 1 0 * p 0 + m.ElementAt 1 1 * p 1 + m.ElementAt 1 2 * p 2 + m.ElementAt 1 3,
      m.ElementAt 2 0 * p 0 + m.ElementAt 2 1 * p 1 + m.ElementAt 2 2 * p 2 + m.ElementAt 2 3]
  let w := m.ElementAt 3 0 * p 0 + m.ElementAt 3 1 * p 1 + m.ElementAt 3 2 * p 2 + m.ElementAt 3 3
  if w ≠ 0 then Point3T.divScalar s w else s

end Matrix44T

/-- `Quaternion<S>` at scalar type `S`: a `Point4` holding `(w, x, y, z)` in
`V(0..3)`. -/
abbrev QuaternionT (S : Type) := Point4T S

namespace QuaternionT

variable {S : Type} [LinearOrderedField S]

/-- `Quaternion::operator*(const S &)`. -/
def scale (q : QuaternionT S) (s : S) : QuaternionT S := ![q 0 * s, q 1 * s, q 2 * s, q 3 * s]

/-- `Quaternion::operator*(const Quaternion &)`, the vector-algebra form. -/
def mul (p q : QuaternionT S) : QuaternionT S :=
  let t1 : Point3T S := ![p 1, p 2, p 3]
  let t2 : Point3T S := ![q 1, q 2, q 3]
  let d := Point3T.dot t2 t1
  let t3 := Point3T.cross t1 t2
  let t1 := Point3T.scale t1 (q 0)
  let t2 := Point3T.scale t2 (p 0)
  let tf := Point3T.add (Point3T.add t1 t2) t3
  ![p 0 * q 0 - d, tf 0, tf 1, tf 2]

/-- `Quaternion::Invert`: `V(1)`, `V(2)` and `V(3)` are multiplied by `-1`. -/
def Invert (q : QuaternionT S) : QuaternionT S := ![q 0, q 1 * -1, q 2 * -1, q 3 * -1]

/-- The free function `Inverse (m)`: a copy of `m`, inverted. -/
def Inverse (m : QuaternionT S) : QuaternionT S := Invert m

/-- `Quaternion::FromAxis (phi, a)`, also the constructor
`Quaternion (phi, a)`; `none` when the axis cannot be normalised. -/
def FromAxis (ops : MathOps S) (phi : S) (a : Point3T S) : Option (QuaternionT S) := do
  let b ← Point3T.Normalize ops a
  let s := ops.Sin (phi / 2)
  pure ![ops.Cos (phi / 2), b 0 * s, b 1 * s, b 2 * s]

/-- `Quaternion::Rotate (p)`. -/
def Rotate (q : QuaternionT S) (p : Point3T S) : Point3T S :=
  let co := Invert q
  let tmp : QuaternionT S := ![0, p 0, p 1, p 2]
  let tmp := mul (mul q tmp) co
  ![tmp 1, tmp 2, tmp 3]

/-- `Quaternion::ToMatrix (Matrix44 &)`: all sixteen entries are assigned. -/
def ToMatrix (q : QuaternionT S) : Matrix44T S :=
  let q00 := q 1 * q 1
  let q01 := q 1 * q 2
  let q02 := q 1 * q 3
  let q03 := q 1 * q 0
  let q11 := q 2 * q 2
  let q12 := q 2 * q 3
  let q13 := q 2 * q 0
  let q22 := q 3 * q 3
  let q23 := q 3 * q 0
  !![1 - (q11 + q22) * 2, (q01 - q23) * 2, (q02 + q13) * 2, 0;
     (q01 + q23) * 2, 1 - (q22 + q00) * 2, (q12 - q03) * 2, 0;
     (q02 - q13) * 2, (q12 + q03) * 2, 1 - (q11 + q00) * 2, 0;
     0, 0, 0, 1]

/-- `Quaternion::FromMatrix (m)`: all four components are assigned on every
branch; `none` when a divisor is zero. -/
def FromMatrix (ops : MathOps S) (m : Matrix44T S) : Option (QuaternionT S) :=
  let t := m.V 0 + m.V 5 + m.V 10 + 1
  if t > 0 then do
    let Sc ← sdiv (1 / 2) (ops.Sqrt t)
    let v0 ← sdiv (1 / 4) Sc
    pure ![v0, (m.V 9 - m.V 6) * Sc, (m.V 2 - m.V 8) * Sc, (m.V 4 - m.V 1) * Sc]
  else if m.V 0 > m.V 5 ∧ m.V 0 > m.V 10 then do
    let Sc := ops.Sqrt (1 + m.V 0 - m.V 5 - m.V 10) * 2
    let v1 ← sdiv (1 / 2) Sc
    let v2 ← sdiv (m.V 1 + m.V 4) Sc
    let v3 ← sdiv (m.V 2 + m.V 8) Sc
    let v0 ← sdiv (m.V 6 + m.V 9) Sc
    pure ![v0, v1, v2, v3]
  else if m.V 5 > m.V 10 then do
    let Sc := ops.Sqrt (1 + m.V 5 - m.V 0 - m.V 10) * 2
    let v1 ← sdiv (m.V 1 + m.V 4) Sc
    let v2 ← sdiv (1 / 2) Sc
    let v3 ← sdiv (m.V 6 + m.V 9) Sc
    let v0 ← sdiv (m.V 2 + m.V 8) Sc
    pure ![v0, v1, v2, v3]
  else do
    let Sc := ops.Sqrt (1 + m.V 10 - m.V 0 - m.V 5) * 2
    let v1 ← sdiv (m.V 2 + m.V 8) Sc
    let v2 ← sdiv (m.V 6 + m.V 9) Sc
    let v3 ← sdiv (1 / 2) Sc
    let v0 ← sdiv (m.V 1 + m.V 4) Sc
    pure ![v0, v1, v2, v3]

/-- The free function `Interpolate (a, b, t)`; `none` when a divisor is zero. -/
def Interpolate (ops : MathOps S) (a b : QuaternionT S) (t : S) : Option (QuaternionT S) := do
  let v := a 0 * b 0 + a 1 * b 1 + a 2 * b 2 + a 3 * b 3
  let phi := ops.Acos v
  let ab ← (if phi > 1 / 100 then do
      let wa ← sdiv (ops.Sin (phi * (1 - t))) (ops.Sin phi)
      let wb ← sdiv (ops.Sin (phi * t)) (ops.Sin phi)
      pure (scale a wa, scale b wb)
    else pure (a, b) : Option (QuaternionT S × QuaternionT S))
  let a := ab.1
  let b := ab.2
  let c : QuaternionT S := ![a 0 + b 0, a 1 + b 1, a 2 + b 2, a 3 + b 3]
  let c : QuaternionT S :=
    if v < -999 / 1000 then
      let d := t * (1 - t)
      if c 0 = 0 then Function.update c 0 (c 0 + d) else Function.update c 1 (c 1 + d)
    else c
  Point4T.Normalize ops c

end QuaternionT

/-! ### LinearSolve at an arbitrary scalar type -/

/-- The pivot substitute `#define TINY 1e-100`. -/
def LinearSolveT.TINY {S : Type} [LinearOrderedField S] : S := 1 / 10 ^ 100

/-- `LinearSolve<T>`: the matrix it derives from, the row permutation `index`
and the permutation sign `d`. -/
structure LinearSolveT (S : Type) where
  /-- The `Matrix44` base object, overwritten by its LU factors. -/
  a : Matrix44T S
  /-- Holds the row permutation. -/
  index : Fin 4 → Fin 4
  /-- Holds the sign of the row permutation. -/
  d : S

/-- The local state of `Decompose`: the object under construction together
with the locals `scaling` and `imax`. -/
structure DecompStateT (S : Type) where
  /-- The matrix being factored in place. -/
  a : Matrix44T S
  /-- The member `index`. -/
  index : Fin 4 → Fin 4
  /-- The member `d`. -/
  d : S
  /-- The local `scaling[4]`. -/
  scaling : Fin 4 → S
  /-- The local `imax`. -/
  imax : Fin 4

namespace LinearSolveT

variable {S : Type} [LinearOrderedField S]

/-- The inner loop of the row scan: the largest `Abs (ElementAt (i, j))` of
row `i`, starting from `largest = 0`. -/
def rowLargest (a : Matrix44T S) (i : Fin 4) : S :=
  (idx 0 4).foldl (fun largest j =>
    let t := |a.ElementAt i j|
    if t > largest then t else largest) 0

/-- The row scan of `Decompose`: `scaling[i] = 1 / largest` row by row;
`none` is the early `return false` at the first row whose largest magnitude
is 0. -/
def scanRows (a : Matrix44T S) (scaling : Fin 4 → S) : Option (Fin 4 → S) :=
  (idx 0 4).foldlM (fun scaling i =>
    let largest := rowLargest a i
    if largest = 0 then none else some (Function.update scaling i (1 / largest))) scaling

/-- The accumulation `sum = ElementAt (i, j); for k < n: sum -= ElementAt (i, k) * ElementAt (k, j)`. -/
def innerSum (a : Matrix44T S) (i j : Fin 4) (n : Nat) : S :=
  (idx 0 n).foldl (fun sum k => sum - a.ElementAt i k * a.ElementAt k j) (a.ElementAt i j)

/-- The first loop of column `j`: for `i < j`, entry `(i, j)` is replaced by
its `innerSum` over `k < i`. -/
def upperLoop (a : Matrix44T S) (j : Fin 4) : Matrix44T S :=
  (idx 0 j).foldl (fun a i => a.set i j (innerSum a i j i)) a

/-- The body of the second loop of column `j`, on the state
`(matrix, largest, imax)`: entry `(i, j)` is replaced by its `innerSum` over
`k < j`, and when `t = scaling[i] * Abs (sum)` is `>= largest` both
`largest` and `imax` are updated. -/
def lowerStep (scaling : Fin 4 → S) (j : Fin 4) (s : Matrix44T S × S × Fin 4) (i : Fin 4) :
    Matrix44T S × S × Fin 4 :=
  let sum := innerSum s.1 i j j
  let a := s.1.set i j sum
  let t := scaling i * |sum|
  (a, if t ≥ s.2.1 then t else s.2.1, if t ≥ s.2.1 then i else s.2.2)

/-- The second loop of column `j`: `largest = 0`, then `lowerStep` for
`i = j..3` (the last of equal candidates wins).  Returns the matrix and
`imax`. -/
def lowerLoop (a : Matrix44T S) (scaling : Fin 4 → S) (imax : Fin 4) (j : Fin 4) :
    Matrix44T S × Fin 4 :=
  let r := (idx j 4).foldl (lowerStep scaling j) (a, 0, imax)
  (r.1, r.2.2)

/-- The row interchange: rows `imax` and `j` are exchanged entry by entry. -/
def swapRows (a : Matrix44T S) (imax j : Fin 4) : Matrix44T S :=
  (idx 0 4).foldl (fun a k =>
    let dum := a.ElementAt imax k
    let a := a.set imax k (a.ElementAt j k)
    a.set j k dum) a

/-- The final loop of column `j`: for `i > j`, entry `(i, j)` is multiplied by
`dum = 1 / ElementAt (j, j)`. -/
def scaleColumn (a : Matrix44T S) (j : Fin 4) : Matrix44T S :=
  let dum := 1 / a.ElementAt j j
  (idx (j.val + 1) 4).foldl (fun a i => a.set i j (a.ElementAt i j * dum)) a

/-- One iteration of the column loop of `Decompose`. -/
def decomposeColumn (s : DecompStateT S) (j : Fin 4) : DecompStateT S :=
  let a := upperLoop s.a j
  let r := lowerLoop a s.scaling s.imax j
  let a := r.1
  let imax := r.2
  let s : DecompStateT S :=
    if j ≠ imax then
      { s with a := swapRows a imax j, d := -s.d,
               scaling := Function.update s.scaling imax (s.scaling j), imax := imax }
    else { s with a := a, imax := imax }
  let s := { s with index := Function.update s.index j imax }
  let s := if s.a.ElementAt j j = 0 then { s with a := s.a.set j j LinearSolveT.TINY } else s
  if j ≠ 3 then { s with a := scaleColumn s.a j } else s

/-- `Decompose`: `d = 1`, the row scan, then the column loop.  The Boolean is
the return value.  The locals `scaling` and `imax` are indeterminate in the
source until first written; they start here at 0. -/
def Decompose (ls : LinearSolveT S) : Bool × LinearSolveT S :=
  let ls := { ls with d := 1 }
  match scanRows ls.a (fun _ => 0) with
  | none => (false, ls)
  | some scaling =>
    let s := (idx 0 4).foldl decomposeColumn
      { a := ls.a, index := ls.index, d := ls.d, scaling := scaling, imax := 0 }
    (true, { a := s.a, index := s.index, d := s.d })

/-- The constructor `LinearSolve (m)`: copy `m`, run `Decompose`, and on
failure reset `index` to the identity and the matrix to zero.  The members
`index` and `d` are indeterminate in the source before `Decompose`; they
start here at 0. -/
def construct (m : Matrix44T S) : LinearSolveT S :=
  let r := Decompose { a := m, index := fun _ => 0, d := 0 }
  if !r.1 then
    let ls := (idx 0 4).foldl (fun (ls : LinearSolveT S) i =>
      { ls with index := Function.update ls.index i i }) r.2
    { ls with a := Matrix44T.SetZero ls.a }
  else r.2

/-- `LinearSolve::Determinant`: `det = d`, then `det *= ElementAt (j, j)` for
`j = 0..3`. -/
def Determinant (ls : LinearSolveT S) : S :=
  (idx 0 4).foldl (fun det j => det * ls.a.ElementAt j j) ls.d

end LinearSolveT

namespace Matrix44T

variable {S : Type} [LinearOrderedField S]

/-- `Matrix44::Determinant`: build a `LinearSolve` and ask for its determinant. -/
def Determinant (m : Matrix44T S) : S := (LinearSolveT.construct m).Determinant

/-- The return value of the free function `Decompose` together with the
final values of its five reference parameters. -/
structure DecomposeResult (S : Type) where
  /-- The Boolean returned. -/
  ret : Bool
  /-- The matrix `M` on return. -/
  M : Matrix44T S
  /-- The output `ScaleV` on return. -/
  ScaleV : Point3T S
  /-- The output `ShearV` on return. -/
  ShearV : Point3T S
  /-- The output `RotV` on return. -/
  RotV : Point3T S
  /-- The output `TranV` on return. -/
  TranV : Point3T S

/-- The loop `for i < 3, for j < 3: M[i][j] = R[j][i]`: the vectors `R[0]`,
`R[1]`, `R[2]` become the first three entries of columns 0, 1, 2. -/
def writeColumns (M : Matrix44T S) (R0 R1 R2 : Point3T S) : Matrix44T S :=
  fun i j =>
    if h : i.val < 3 ∧ j.val < 3 then (![R0, R1, R2] ⟨j.val, h.2⟩) ⟨i.val, h.1⟩ else M i j

/-- The Euler-angle extraction that closes `Decompose`: `(alpha, beta, gamma)`
read off the rotation matrix left in `M`. -/
def eulerAngles (ops : MathOps S) (M : Matrix44T S) : S × S × S :=
  let beta := ops.Asin (M 0 2)
  let cosbeta := ops.Cos beta
  if |cosbeta| > 1 / 10 ^ 5 then
    let alpha := ops.Asin (-(M 1 2) / cosbeta)
    let alpha := if M 2 2 / cosbeta < 0 then ops.PI - alpha else alpha
    let gamma := ops.Asin (-(M 0 1) / cosbeta)
    let gamma := if M 0 0 / cosbeta < 0 then ops.PI - gamma else gamma
    (alpha, beta, gamma)
  else
    let alpha := ops.Asin (-(M 1 0))
    let alpha := if M 1 1 < 0 then ops.PI - alpha else alpha
    (alpha, beta, 0)

/-- The second step of `Decompose` ("Recover Scale and Shearing interleaved"):
the Gram-Schmidt pass over the first three columns of `M`, up to and
including the loop that writes `R[0]`, `R[1]`, `R[2]` back into `M`.  Returns
`M`, `ScaleV` and `ShearV`; `none` when a divisor is zero. -/
def recoverScaleShear (ops : MathOps S) (M : Matrix44T S) (ScaleV ShearV : Point3T S) :
    Option (Matrix44T S × Point3T S × Point3T S) := do
  let ScaleV := Function.update ScaleV 0 (Point3T.Norm ops (M.GetColumn3 0))
  let R0 ← Point3T.Normalize ops (M.GetColumn3 0)
  let ShearV := Function.update ShearV 0 (Point3T.dot R0 (M.GetColumn3 1))
  let R1 := Point3T.sub (M.GetColumn3 1) (Point3T.scale R0 (ShearV 0))
  let ScaleV := Function.update ScaleV 1 (Point3T.Norm ops R1)
  let R1 ← Point3T.div R1 (ScaleV 1)
  let sh ← sdiv (ShearV 0) (ScaleV 1)
  let ShearV := Function.update ShearV 0 sh
  let ShearV := Function.update ShearV 1 (Point3T.dot R0 (M.GetColumn3 2))
  let R2 := Point3T.sub (M.GetColumn3 2) (Point3T.scale R0 (ShearV 1))
  let R2 := Point3T.sub R2 (Point3T.scale R1 (Point3T.dot R2 R1))
  let ScaleV := Function.update ScaleV 2 (Point3T.Norm ops R2)
  let sh ← sdiv (ShearV 1) (ScaleV 2)
  let ShearV := Function.update ShearV 1 sh
  let R2 ← Point3T.div R2 (ScaleV 2)
  let ShearV := Function.update ShearV 2 (Point3T.dot R1 (M.GetColumn3 2))
  let sh ← sdiv (ShearV 2) (ScaleV 2)
  let ShearV := Function.update ShearV 2 sh
  pure (writeColumns M R0 R1 R2, ScaleV, ShearV)

/-- The free function `Decompose (M, ScaleV, ShearV, RotV, TranV)` for affine
matrices.  The arguments are the values of the five reference parameters at
the call; the result holds the return value and their values on return, and
is `none` when an unguarded division has a zero divisor.  The `assert`
statements are not modelled. -/
def Decompose (ops : MathOps S) (M : Matrix44T S) (ScaleV ShearV RotV TranV : Point3T S) :
    Option (DecomposeResult S) :=
  if ¬ (M 3 0 = 0 ∧ M 3 1 = 0 ∧ M 3 2 = 0 ∧ M 3 3 = 1) then
    some ⟨false, M, ScaleV, ShearV, RotV, TranV⟩
  else if |M.Determinant| < 1 / 10 ^ 10 then
    some ⟨false, M, ScaleV, ShearV, RotV, TranV⟩
  else do
    let TranV := M.GetColumn3 3
    let r ← recoverScaleShear ops M ScaleV ShearV
    let M := r.1
    let ScaleV := r.2.1
    let ShearV := r.2.2
    let det := M.Determinant
    if |det| < 1 / 10 ^ 10 then
      pure ⟨false, M, ScaleV, ShearV, RotV, TranV⟩
    else
      let ScaleV := if det < 0 then Point3T.scale ScaleV (-1) else ScaleV
      let M := if det < 0 then M.scaleAssign (-1) else M
      let abg := eulerAngles ops M
      let RotV : Point3T S := ![ops.ToDeg abg.1, ops.ToDeg abg.2.1, ops.ToDeg abg.2.2]
      pure ⟨true, M, ScaleV, ShearV, RotV, TranV⟩

end Matrix44T

namespace Matrix44T

variable {S : Type} [LinearOrderedField S]

/-- `operator*(const Matrix44Diag &)`: starting from a copy of the matrix,
entry `(i, j)` is multiplied by `m[i]`, each entry once. -/
def mulDiag (a : Matrix44T S) (m : Point4T S) : Matrix44T S :=
  fun i j => a.ElementAt i j * m i

/-- `ToEulerAngles (alpha, beta, gamma)`: the values left in the three
reference parameters. -/
def ToEulerAngles (ops : MathOps S) (m : Matrix44T S) : S × S × S :=
  let alpha := ops.Atan2 (m.ElementAt 1 2) (m.ElementAt 2 2)
  let beta := ops.Asin (-(m.ElementAt 0 2))
  let gamma := ops.Atan2 (m.ElementAt 0 1) (m.ElementAt 1 1)
  (alpha, beta, gamma)

/-- `FromEulerAngles (alpha, beta, gamma)`: the matrix is zeroed and ten
entries are assigned. -/
def FromEulerAngles (ops : MathOps S) (m : Matrix44T S) (alpha beta gamma : S) : Matrix44T S :=
  let m := SetZero m
  let cosalpha := ops.Cos alpha
  let cosbeta := ops.Cos beta
  let cosgamma := ops.Cos gamma
  let sinalpha := ops.Sin alpha
  let sinbeta := ops.Sin beta
  let singamma := ops.Sin gamma
  let m := m.set 0 0 (cosbeta * cosgamma)
  let m := m.set 1 0 (-cosalpha * singamma + sinalpha * sinbeta * cosgamma)
  let m := m.set 2 0 (sinalpha * singamma + cosalpha * sinbeta * cosgamma)
  let m := m.set 0 1 (cosbeta * singamma)
  let m := m.set 1 1 (cosalpha * cosgamma + sinalpha * sinbeta * singamma)
  let m := m.set 2 1 (-sinalpha * cosgamma + cosalpha * sinbeta * singamma)
  let m := m.set 0 2 (-sinbeta)
  let m := m.set 1 2 (sinalpha * cosbeta)
  let m := m.set 2 2 (cosalpha * cosbeta)
  m.set 3 3 1

end Matrix44T

/-! ## Auxiliary definitions for the proofs -/

open LinearSolve Matrix44

/-- Pivot bookkeeping of `lowerStep` alone, with the scaled magnitudes `T`
given up front. -/
def pivotPure (T : Fin 4 → ℚ) (s : ℚ × Fin 4) (i : Fin 4) : ℚ × Fin 4 :=
  (if T i ≥ s.1 then T i else s.1, if T i ≥ s.1 then i else s.2)

/-- The unit lower-triangular factor stored below the diagonal of `M`. -/
def Lmat (M : Matrix44) : Matrix44 :=
  fun i k => if k < i then M i k else if k = i then 1 else 0

/-- The upper-triangular factor stored above the diagonal of `M`, with
diagonal `g`. -/
def Umat (M : Matrix44) (g : Fin 4 → ℚ) : Matrix44 :=
  fun k c => if k < c then M k c else if k = c then g k else 0

/-- The loop invariant of the column loop of `Decompose` before column `n`:
`A'` is the row-permuted input, `M` the matrix in place and `g` the pivots
as computed (before any `TINY` substitution). -/
def LUInv (n : Nat) (A' M : Matrix44) (g : Fin 4 → ℚ) : Prop :=
  (∀ i c : Fin 4, c.val < n → A' i c = (Lmat M * Umat M g) i c) ∧
  (∀ i c : Fin 4, n ≤ c.val → M i c = A' i c) ∧
  (∀ k : Fin 4, k.val < n → M k k = if g k = 0 then TINY else g k)

/-- The pivot row `imax` chosen in column `j`. -/
def pivotRow (s : DecompState) (j : Fin 4) : Fin 4 :=
  (lowerLoop (upperLoop s.a j) s.scaling s.imax j).2

/-- The matrix of `decomposeColumn s j` after the two accumulation loops and
the row interchange. -/
def pivoted (s : DecompState) (j : Fin 4) : Matrix44 :=
  fun r c => (lowerLoop (upperLoop s.a j) s.scaling s.imax j).1 (Equiv.swap j (pivotRow s j) r) c

/-- The row permutation recorded in `index`: the interchanges of rows `j` and
`index[j]`, applied for `j = 0, 1, 2, 3` in this order. -/
def permOf (index : Fin 4 → Fin 4) : Equiv.Perm (Fin 4) :=
  Equiv.swap 0 (index 0) * Equiv.swap 1 (index 1) * Equiv.swap 2 (index 2) *
    Equiv.swap 3 (index 3)

/-- The body of the first loop of `Solve` without the `first` shortcut: the
accumulation always starts at column 0. -/
def plainStep (ls : LinearSolve) (x : Point4) (i : Fin 4) : Point4 :=
  Function.update (Function.update x (ls.index i) (x i)) i
    ((idx 0 i).foldl (fun sum j =>
      sum - ls.a.ElementAt i j * Function.update x (ls.index i) (x i) j) (x (ls.index i)))

/-- The state of the first loop of `Solve` before row `n`: every entry that
the `first` shortcut skips is zero. -/
def ZeroPrefix (n : Nat) (s : Point4 × Option (Fin 4)) : Prop :=
  (s.2 = none → ∀ k : Fin 4, k.val < n → s.1 k = 0) ∧
  (∀ f, s.2 = some f → f.val < n ∧ ∀ k : Fin 4, k < f → s.1 k = 0)

/-- Forward substitution in row `i` alone (no interchange): `x[i]` becomes
`x[i]` minus the sum of `ElementAt (i, j) * x[j]` over `j < i`. -/
def substStep (a : Matrix44) (x : Point4) (i : Fin 4) : Point4 :=
  Function.update x i ((idx 0 i).foldl (fun sum j => sum - a.ElementAt i j * x j) (x i))

/-- The body of the second loop of `Solve` when the divisor is not zero. -/
def backSubst (a : Matrix44) (x : Point4) (i : Fin 4) : Point4 :=
  Function.update x i
    ((idx (i.val + 1) 4).foldl (fun sum j => sum - a.ElementAt i j * x j) (x i) / a.ElementAt i i)

/-- A non-singular sample matrix (determinant `-117`). -/
def sampleRegular : Matrix44 := !![2, 1, 0, 3; 4, 1, 1, 0; 0, 5, 1, 1; 1, 0, 2, 1]

/-- A non-singular sample matrix (determinant `1`). -/
def sampleUnit : Matrix44 := !![1, 0, 0, 0; 0, 1, 0, 0; 0, 0, 1, 0; 0, 0, 1, 1]

/-- A singular sample matrix with an all-zero row. -/
def sampleZeroRow : Matrix44 := !![1, 0, 0, 0; 0, 1, 0, 0; 0, 0, 1, 0; 0, 0, 0, 0]

/-- A singular sample matrix without an all-zero row. -/
def sampleSingular : Matrix44 := !![1, 0, 0, 0; 0, 1, 0, 0; 0, 0, 1, 0; 0, 0, 1, 0]

/-- The all-zero matrix. -/
def sampleZero : Matrix44 := fun _ _ => 0

/-- The correction `Interpolate` applies to the sum `c` when `v < -0.999`
("almost opposite"): `d = t * (1 - t)` is added to `V(0)` when that is 0 and
to `V(1)` otherwise. -/
def antipodalFix {S : Type} [LinearOrderedField S] (v t : S) (c : QuaternionT S) :
    QuaternionT S :=
  if v < -999 / 1000 then
    let d := t * (1 - t)
    if c 0 = 0 then Function.update c 0 (c 0 + d) else Function.update c 1 (c 1 + d)
  else c

/-- The scalar product `v` of `a` and `b` that `Interpolate` computes first. -/
def dot4 {S : Type} [LinearOrderedField S] (a b : QuaternionT S) : S :=
  a 0 * b 0 + a 1 * b 1 + a 2 * b 2 + a 3 * b 3

/-- The componentwise sum `c` that `Interpolate` forms. -/
def sum4 {S : Type} [LinearOrderedField S] (a b : QuaternionT S) : QuaternionT S :=
  ![a 0 + b 0, a 1 + b 1, a 2 + b 2, a 3 + b 3]

/-- Pivot bookkeeping of `LinearSolveT.lowerStep` alone, with the scaled magnitudes `T`
given up front. -/
def pivotPureT {S : Type} [LinearOrderedField S] (T : Fin 4 → S) (s : S × Fin 4) (i : Fin 4) : S × Fin 4 :=
  (if T i ≥ s.1 then T i else s.1, if T i ≥ s.1 then i else s.2)

/-- The unit lower-triangular factor stored below the diagonal of `M`. -/
def LmatT {S : Type} [LinearOrderedField S] (M : Matrix44T S) : Matrix44T S :=
  fun i k => if k < i then M i k else if k = i then 1 else 0

/-- The upper-triangular factor stored above the diagonal of `M`, with
diagonal `g`. -/
def UmatT {S : Type} [LinearOrderedField S] (M : Matrix44T S) (g : Fin 4 → S) : Matrix44T S :=
  fun k c => if k < c then M k c else if k = c then g k else 0

/-- The loop invariant of the column loop of `LinearSolveT.Decompose` before column `n`:
`A'` is the row-permuted input, `M` the matrix in place and `g` the pivots
as computed (before any `TINY` substitution). -/
def LUInvT {S : Type} [LinearOrderedField S] (n : Nat) (A' M : Matrix44T S) (g : Fin 4 → S) : Prop :=
  (∀ i c : Fin 4, c.val < n → A' i c = (LmatT M * UmatT M g) i c) ∧
  (∀ i c : Fin 4, n ≤ c.val → M i c = A' i c) ∧
  (∀ k : Fin 4, k.val < n → M k k = if g k = 0 then LinearSolveT.TINY else g k)

/-- The pivot row `imax` chosen in column `j`. -/
def pivotRowT {S : Type} [LinearOrderedField S] (s : DecompStateT S) (j : Fin 4) : Fin 4 :=
  (LinearSolveT.lowerLoop (LinearSolveT.upperLoop s.a j) s.scaling s.imax j).2

/-- The matrix of `LinearSolveT.decomposeColumn s j` after the two accumulation loops and
the row interchange. -/
def pivotedT {S : Type} [LinearOrderedField S] (s : DecompStateT S) (j : Fin 4) : Matrix44T S :=
  fun r c => (LinearSolveT.lowerLoop (LinearSolveT.upperLoop s.a j) s.scaling s.imax j).1 (Equiv.swap j (pivotRowT s j) r) c

theorem idx_0_0 : idx 0 0 = [] := by decide
theorem idx_0_1 : idx 0 1 = [0] := by decide
theorem idx_0_2 : idx 0 2 = [0, 1] := by decide
theorem idx_0_3 : idx 0 3 = [0, 1, 2] := by decide
theorem idx_0_4 : idx 0 4 = [0, 1, 2, 3] := by decide
theorem idx_1_4 : idx 1 4 = [1, 2, 3] := by decide
theorem idx_2_4 : idx 2 4 = [2, 3] := by decide
theorem idx_3_4 : idx 3 4 = [3] := by decide
theorem idx_4_4 : idx 4 4 = [] := by decide

theorem mem_idx {lo hi : Nat} {i : Fin 4} : i ∈ idx lo hi ↔ lo ≤ i.val ∧ i.val < hi := by
  simp [idx, List.mem_filter]

theorem idx_nodup (lo hi : Nat) : (idx lo hi).Nodup :=
  (List.nodup_finRange 4).filter _

theorem innerSum_set_of_ne (a : Matrix44) (i i' j : Fin 4) (v : ℚ) (hne : i' ≠ i) (hj : j ≤ i') :
    innerSum (a.set i' j v) i j j = innerSum a i j j := by
  fin_cases j <;> fin_cases i' <;> fin_cases i <;>
    first
    | (exfalso; revert hj; decide)
    | (exfalso; revert hne; decide)
    | simp [innerSum, idx_0_0, idx_0_1, idx_0_2, idx_0_3, Matrix44.set, Matrix44.ElementAt]

theorem lowerStep_fold_fst (sc : Fin 4 → ℚ) (j : Fin 4) :
    ∀ (l : List (Fin 4)) (s : Matrix44 × ℚ × Fin 4),
      (l.foldl (lowerStep sc j) s).1 = l.foldl (fun a i => a.set i j (innerSum a i j j)) s.1 := by
  intro l
  induction l with
  | nil => intro s; rfl
  | cons i l ih => intro s; simp only [List.foldl_cons]; rw [ih]; rfl

theorem lowerStep_fold_snd (a : Matrix44) (sc : Fin 4 → ℚ) (j : Fin 4) :
    ∀ (l : List (Fin 4)) (s : Matrix44 × ℚ × Fin 4), l.Nodup → (∀ i ∈ l, j ≤ i) →
      (∀ i ∈ l, innerSum s.1 i j j = innerSum a i j j) →
      (l.foldl (lowerStep sc j) s).2 =
        l.foldl (pivotPure (fun i => sc i * |innerSum a i j j|)) s.2 := by
  intro l
  induction l with
  | nil => intro s _ _ _; rfl
  | cons i l ih =>
    intro s hnd hge hs
    simp only [List.foldl_cons]
    have hi := hs i (List.mem_cons_self _ _)
    rw [ih (lowerStep sc j s i) (List.nodup_cons.mp hnd).2
      (fun k hk => hge k (List.mem_cons_of_mem _ hk))]
    · simp only [lowerStep, pivotPure, hi]
    · intro k hk
      have hne : i ≠ k := fun h => (List.nodup_cons.mp hnd).1 (h ▸ hk)
      simp only [lowerStep]
      rw [innerSum_set_of_ne _ _ _ _ _ hne (hge i (List.mem_cons_self _ _))]
      exact hs k (List.mem_cons_of_mem _ hk)

theorem pivotPure_fold (T : Fin 4 → ℚ) :
    ∀ (l : List (Fin 4)) (s : ℚ × Fin 4),
      s.1 ≤ (l.foldl (pivotPure T) s).1 ∧
      (∀ i ∈ l, T i ≤ (l.foldl (pivotPure T) s).1) ∧
      (l.foldl (pivotPure T) s = s ∨
        ((l.foldl (pivotPure T) s).2 ∈ l ∧
          (l.foldl (pivotPure T) s).1 = T (l.foldl (pivotPure T) s).2)) := by
  intro l
  induction l with
  | nil => intro s; simp
  | cons i l ih =>
    intro s
    simp only [List.foldl_cons]
    obtain ⟨h1, h2, h3⟩ := ih (pivotPure T s i)
    have hs1 : s.1 ≤ (pivotPure T s i).1 := by
      simp only [pivotPure]; split_ifs with h
      · exact h
      · exact le_refl _
    have hs2 : T i ≤ (pivotPure T s i).1 := by
      simp only [pivotPure]; split_ifs with h
      · exact le_refl _
      · exact le_of_lt (not_le.mp h)
    refine ⟨le_trans hs1 h1, ?_, ?_⟩
    · intro k hk
      rcases List.mem_cons.mp hk with rfl | hk
      · exact le_trans hs2 h1
      · exact h2 k hk
    · rcases h3 with h3 | ⟨h3, h4⟩
      · rw [h3]
        by_cases h : T i ≥ s.1
        · right
          simp [pivotPure, h]
        · left
          simp [pivotPure, h]
      · right
        exact ⟨List.mem_cons_of_mem _ h3, h4⟩

theorem scaled_zero {c s : ℚ} (hc : 0 < c) (h : c * |s| ≤ 0) : s = 0 := by
  have h1 : |s| ≤ 0 := by
    by_contra hn
    push_neg at hn
    have := mul_pos hc hn
    linarith
  exact abs_nonpos_iff.mp h1

theorem lowerLoop_fst (a : Matrix44) (sc : Fin 4 → ℚ) (im j r c : Fin 4) :
    (lowerLoop a sc im j).1 r c = if c = j ∧ j ≤ r then innerSum a r j j else a r c := by
  simp only [lowerLoop, lowerStep_fold_fst]
  fin_cases j <;> fin_cases r <;> fin_cases c <;>
    simp [innerSum, idx_0_0, idx_0_1, idx_0_2, idx_0_3, idx_0_4, idx_1_4, idx_2_4, idx_3_4,
      Matrix44.set, Matrix44.ElementAt]

/-- The pivot row chosen by `lowerLoop` lies at or below the diagonal and
carries the largest scaled magnitude of the column. -/
theorem lowerLoop_snd (a : Matrix44) (sc : Fin 4 → ℚ) (im j : Fin 4) (hsc : ∀ i, 0 < sc i) :
    j ≤ (lowerLoop a sc im j).2 ∧
    ∀ r, j ≤ r → sc r * |innerSum a r j j| ≤
      sc (lowerLoop a sc im j).2 * |innerSum a (lowerLoop a sc im j).2 j j| := by
  have hfold := lowerStep_fold_snd a sc j (idx j 4) (a, 0, im) (idx_nodup _ _)
    (fun i hi => Fin.le_def.mpr (mem_idx.mp hi).1) (fun i _ => rfl)
  have hT : ∀ i, 0 ≤ sc i * |innerSum a i j j| := fun i =>
    mul_nonneg (hsc i).le (abs_nonneg _)
  have hcons : idx j 4 = j :: idx (j.val + 1) 4 := by
    fin_cases j <;> decide
  simp only [lowerLoop]
  rw [hfold]
  rw [hcons] at *
  simp only [List.foldl_cons]
  have hstep : pivotPure (fun i => sc i * |innerSum a i j j|) ((0 : ℚ), im) j =
      (sc j * |innerSum a j j j|, j) := by
    simp [pivotPure, hT j]
  rw [hstep]
  obtain ⟨h1, h2, h3⟩ := pivotPure_fold (fun i => sc i * |innerSum a i j j|)
    (idx (j.val + 1) 4) (sc j * |innerSum a j j j|, j)
  rcases h3 with h3 | ⟨h3, h4⟩
  · rw [h3] at h2 ⊢
    refine ⟨le_refl _, ?_⟩
    intro r hr
    rcases eq_or_lt_of_le hr with rfl | hlt
    · exact le_refl _
    · exact h2 r (mem_idx.mpr ⟨hlt, r.isLt⟩)
  · refine ⟨?_, ?_⟩
    · have := (mem_idx.mp h3).1
      exact Fin.le_def.mpr (by omega)
    · intro r hr
      rw [← h4]
      rcases eq_or_lt_of_le hr with rfl | hlt
      · exact h1
      · exact h2 r (mem_idx.mpr ⟨hlt, r.isLt⟩)

theorem swapRows_apply (a : Matrix44) (p q r c : Fin 4) :
    swapRows a p q r c = a (Equiv.swap q p r) c := by
  simp only [swapRows, idx_0_4, List.foldl, Matrix44.set, Matrix44.ElementAt]
  fin_cases c <;> simp [Equiv.swap_apply_def] <;> split_ifs <;> simp_all

theorem upperLoop_apply (a : Matrix44) (j r c : Fin 4) :
    upperLoop a j r c =
      if c = j ∧ r < j then
        (if r = 0 then a 0 j
         else if r = 1 then a 1 j - a 1 0 * a 0 j
         else a 2 j - a 2 0 * a 0 j - a 2 1 * (a 1 j - a 1 0 * a 0 j))
      else a r c := by
  fin_cases j <;> fin_cases r <;> fin_cases c <;>
    simp [upperLoop, innerSum, idx_0_0, idx_0_1, idx_0_2, idx_0_3, Matrix44.set, Matrix44.ElementAt]

theorem scaleColumn_apply (a : Matrix44) (j r c : Fin 4) :
    scaleColumn a j r c = if c = j ∧ j < r then a r j * (1 / a j j) else a r c := by
  fin_cases j <;> fin_cases r <;> fin_cases c <;>
    simp [scaleColumn, idx_1_4, idx_2_4, idx_3_4, idx_4_4, Matrix44.set, Matrix44.ElementAt]

theorem scaleColumn_three (a : Matrix44) : scaleColumn a 3 = a := by
  simp [scaleColumn, show ((3 : Fin 4).val + 1) = 4 from rfl, idx_4_4]

theorem decomposeColumn_eq (s : DecompState) (j : Fin 4) :
    decomposeColumn s j =
      { a := scaleColumn (if pivoted s j j j = 0 then (pivoted s j).set j j TINY else pivoted s j) j,
        index := Function.update s.index j (pivotRow s j),
        d := if j = pivotRow s j then s.d else -s.d,
        scaling := if j = pivotRow s j then s.scaling
          else Function.update s.scaling (pivotRow s j) (s.scaling j),
        imax := pivotRow s j } := by
  have hsw : ∀ (a2 : Matrix44) (im : Fin 4), swapRows a2 im j = fun r c => a2 (Equiv.swap j im r) c := by
    intro a2 im
    funext r c
    rw [swapRows_apply]
  unfold pivoted pivotRow decomposeColumn
  dsimp only
  generalize lowerLoop (upperLoop s.a j) s.scaling s.imax j = r
  obtain ⟨a2, im⟩ := r
  dsimp only
  by_cases h1 : j = im
  · subst h1
    by_cases h3 : j = 3
    · subst h3
      by_cases h2 : a2 3 3 = 0 <;>
        simp [h2, Matrix44.ElementAt, scaleColumn_three]
    · by_cases h2 : a2 j j = 0 <;>
        simp [h2, h3, Matrix44.ElementAt]
  · by_cases h3 : j = 3
    · subst h3
      by_cases h2 : a2 im 3 = 0 <;>
        simp [h1, h2, hsw, Matrix44.ElementAt, scaleColumn_three]
    · by_cases h2 : a2 im j = 0 <;>
        simp [h1, h2, h3, hsw, Matrix44.ElementAt]

theorem decomposeColumn_index (s : DecompState) (j : Fin 4) :
    (decomposeColumn s j).index = Function.update s.index j (pivotRow s j) := by
  rw [decomposeColumn_eq]

theorem decomposeColumn_d (s : DecompState) (j : Fin 4) :
    (decomposeColumn s j).d = if j = pivotRow s j then s.d else -s.d := by
  rw [decomposeColumn_eq]

theorem decomposeColumn_scaling (s : DecompState) (j : Fin 4) (hsc : ∀ i, 0 < s.scaling i) :
    ∀ i, 0 < (decomposeColumn s j).scaling i := by
  intro i
  rw [decomposeColumn_eq]
  simp only
  split_ifs
  · exact hsc i
  · simp only [Function.update_apply]
    split_ifs <;> exact hsc _

theorem pivoted_apply (s : DecompState) (j r c : Fin 4) :
    pivoted s j r c =
      if c = j ∧ j ≤ Equiv.swap j (pivotRow s j) r then
        innerSum (upperLoop s.a j) (Equiv.swap j (pivotRow s j) r) j j
      else upperLoop s.a j (Equiv.swap j (pivotRow s j) r) c := by
  simp only [pivoted, lowerLoop_fst]

theorem pivotRow_spec (s : DecompState) (j : Fin 4) (hsc : ∀ i, 0 < s.scaling i) :
    j ≤ pivotRow s j ∧
    (innerSum (upperLoop s.a j) (pivotRow s j) j j = 0 →
      ∀ r, j ≤ r → innerSum (upperLoop s.a j) r j j = 0) := by
  obtain ⟨hge, hmax⟩ := lowerLoop_snd (upperLoop s.a j) s.scaling s.imax j hsc
  refine ⟨hge, ?_⟩
  intro h0 r hr
  have := hmax r hr
  rw [show (lowerLoop (upperLoop s.a j) s.scaling s.imax j).2 = pivotRow s j from rfl, h0] at this
  simp only [abs_zero, mul_zero] at this
  exact scaled_zero (hsc r) this

theorem decomposeColumn_a (s : DecompState) (j r c : Fin 4) :
    (decomposeColumn s j).a r c =
      if c = j ∧ r = j then (if pivoted s j j j = 0 then TINY else pivoted s j j j)
      else if c = j ∧ j < r then
        pivoted s j r j * (1 / (if pivoted s j j j = 0 then TINY else pivoted s j j j))
      else pivoted s j r c := by
  rw [decomposeColumn_eq]
  simp only [scaleColumn_apply]
  by_cases h0 : pivoted s j j j = 0
  · simp only [h0, if_true, Matrix44.set]
    by_cases hc : c = j
    · subst hc
      by_cases hr : r = c
      · subst hr; simp
      · by_cases hlt : c < r <;> simp [hr, hlt]
    · simp [hc]
  · simp only [h0, if_false]
    by_cases hc : c = j
    · subst hc
      by_cases hr : r = c
      · subst hr; simp
      · by_cases hlt : c < r <;> simp [hr, hlt]
    · simp [hc]

theorem val_three : ((3 : Fin 4) : ℕ) = 3 := rfl

theorem stage_inv_right (s : DecompState) (j : Fin 4) (A' : Matrix44)
    (h2 : ∀ i c : Fin 4, j.val ≤ c.val → s.a i c = A' i c) (i c : Fin 4) (hc : j.val + 1 ≤ c.val) :
    (decomposeColumn s j).a i c = A' (Equiv.swap j (pivotRow s j) i) c := by
  have hcj : c ≠ j := by
    intro h; subst h; omega
  simp only [decomposeColumn_a, pivoted_apply, upperLoop_apply, hcj, false_and, if_false]
  refine h2 _ c ?_
  omega

theorem stage_inv_diag (s : DecompState) (j : Fin 4) (g : Fin 4 → ℚ) (hge : j ≤ pivotRow s j)
    (h3 : ∀ k : Fin 4, k.val < j.val → s.a k k = if g k = 0 then TINY else g k)
    (k : Fin 4) (hk : k.val < j.val + 1) :
    (decomposeColumn s j).a k k =
      if Function.update g j (innerSum (upperLoop s.a j) (pivotRow s j) j j) k = 0 then TINY
      else Function.update g j (innerSum (upperLoop s.a j) (pivotRow s j) j j) k := by
  by_cases hkj : k = j
  · subst hkj
    rw [decomposeColumn_a, pivoted_apply]
    simp [hge]
  · have hlt : k.val < j.val := by
      have : k.val ≠ j.val := fun h => hkj (Fin.ext h)
      omega
    have hkim : k ≠ pivotRow s j := by
      intro h
      have := Fin.le_def.mp hge
      rw [← h] at this
      omega
    simp only [decomposeColumn_a, pivoted_apply, upperLoop_apply, hkj, false_and, and_false,
      if_false, Function.update_noteq hkj, Equiv.swap_apply_of_ne_of_ne hkj hkim, ne_eq,
      not_false_eq_true]
    exact h3 k hlt

theorem swap_of_lt {j im r : Fin 4} (hge : j ≤ im) (hr : r < j) : Equiv.swap j im r = r :=
  Equiv.swap_apply_of_ne_of_ne (ne_of_lt hr) (ne_of_lt (lt_of_lt_of_le hr hge))

theorem swap_of_ge {j im r : Fin 4} (hge : j ≤ im) (hr : j ≤ r) : j ≤ Equiv.swap j im r := by
  rw [Equiv.swap_apply_def]
  split_ifs
  · exact hge
  · exact le_refl j
  · exact hr

/-- Entries of the matrix after column `j` outside column `j`: the row
interchange only. -/
theorem decomposeColumn_a_of_ne (s : DecompState) (j r c : Fin 4) (hc : c ≠ j) :
    (decomposeColumn s j).a r c = s.a (Equiv.swap j (pivotRow s j) r) c := by
  simp only [decomposeColumn_a, pivoted_apply, upperLoop_apply]
  simp [hc]

/-- Entries of column `j` above the diagonal after column `j`. -/
theorem decomposeColumn_a_upper (s : DecompState) (j r : Fin 4)
    (hge : j ≤ pivotRow s j) (hr : r < j) :
    (decomposeColumn s j).a r j = upperLoop s.a j r j := by
  simp only [decomposeColumn_a, pivoted_apply, swap_of_lt hge hr]
  simp [ne_of_lt hr, not_lt.2 hr.le, not_le.2 hr]

/-- At a row `x` at or below the diagonal the accumulation of column `j`
reads row `x` of the matrix itself and the finished upper entries of the
column. -/
theorem innerSum_upperLoop_of_ge (a : Matrix44) (j x : Fin 4) (hx : j ≤ x) :
    innerSum (upperLoop a j) x j j =
      (idx 0 j).foldl (fun sum k => sum - a x k * upperLoop a j k j) (a x j) := by
  unfold innerSum
  have h0 : (upperLoop a j).ElementAt x j = a x j := by
    rw [Matrix44.ElementAt, upperLoop_apply, if_neg]
    exact fun h => absurd h.2 (not_lt.2 hx)
  rw [h0]
  refine List.foldl_ext _ _ _ (fun sum k hk => ?_)
  have hkj : k < j := Fin.lt_def.2 (mem_idx.1 hk).2
  have h1 : (upperLoop a j).ElementAt x k = a x k := by
    rw [Matrix44.ElementAt, upperLoop_apply, if_neg]
    exact fun h => absurd h.1 (ne_of_lt hkj)
  rw [h1]
  rfl

/-- Entries of column `j` below the diagonal after column `j`. -/
theorem decomposeColumn_a_lower (s : DecompState) (j r : Fin 4)
    (hge : j ≤ pivotRow s j) (hr : j < r) :
    (decomposeColumn s j).a r j =
      innerSum (upperLoop s.a j) (Equiv.swap j (pivotRow s j) r) j j *
        (1 / (if innerSum (upperLoop s.a j) (pivotRow s j) j j = 0
              then TINY
              else innerSum (upperLoop s.a j) (pivotRow s j) j j)) := by
  simp only [decomposeColumn_a, pivoted_apply, Equiv.swap_apply_left]
  simp [ne_of_gt hr, hr, swap_of_ge hge hr.le, hge]

/-- The columns before `j`: the factorisation of the row-interchanged input
is the row-interchanged factorisation. -/
theorem stage_inv_left_lt (s : DecompState) (j : Fin 4) (A' : Matrix44) (g : Fin 4 → ℚ)
    (x : ℚ) (hge : j ≤ pivotRow s j)
    (h1 : ∀ i c : Fin 4, c.val < j.val → A' i c = (Lmat s.a * Umat s.a g) i c) (i c : Fin 4)
    (hc : c < j) :
    A' (Equiv.swap j (pivotRow s j) i) c =
      (Lmat (decomposeColumn s j).a *
        Umat (decomposeColumn s j).a (Function.update g j x)) i c := by
  rw [h1 _ _ hc, Matrix.mul_apply, Matrix.mul_apply]
  refine Finset.sum_congr rfl (fun k _ => ?_)
  have hcj : c ≠ j := ne_of_lt hc
  have hU : Umat (decomposeColumn s j).a (Function.update g j x) k c
      = Umat s.a g k c := by
    unfold Umat
    by_cases hk : k < c
    · rw [if_pos hk, if_pos hk, decomposeColumn_a_of_ne _ _ _ _ hcj,
        swap_of_lt hge (lt_trans hk hc)]
    · rw [if_neg hk, if_neg hk]
      by_cases hkc : k = c
      · rw [if_pos hkc, if_pos hkc, Function.update_noteq (by rw [hkc]; exact hcj)]
      · rw [if_neg hkc, if_neg hkc]
  rw [hU]
  by_cases hk : c < k
  · have h0 : Umat s.a g k c = 0 := by
      unfold Umat
      rw [if_neg (not_lt.2 hk.le), if_neg (ne_of_gt hk)]
    rw [h0, mul_zero, mul_zero]
  · have hkj : k < j := lt_of_le_of_lt (not_lt.1 hk) hc
    congr 1
    unfold Lmat
    by_cases hi : i < j
    · rw [swap_of_lt hge hi]
      by_cases hki : k < i
      · rw [if_pos hki, if_pos hki, decomposeColumn_a_of_ne _ _ _ _ (ne_of_lt hkj),
          swap_of_lt hge hi]
      · rw [if_neg hki, if_neg hki]
    · have hji : j ≤ i := not_lt.1 hi
      have hki : k < i := lt_of_lt_of_le hkj hji
      have hks : k < Equiv.swap j (pivotRow s j) i := lt_of_lt_of_le hkj (swap_of_ge hge hji)
      rw [if_pos hki, if_pos hks, decomposeColumn_a_of_ne _ _ _ _ (ne_of_lt hkj)]

set_option maxHeartbeats 2000000 in
/-- Column `j` itself. -/
theorem stage_inv_left_eq (s : DecompState) (j : Fin 4) (A' : Matrix44) (g : Fin 4 → ℚ)
    (hsc : ∀ i, 0 < s.scaling i)
    (h2 : ∀ i c : Fin 4, j.val ≤ c.val → s.a i c = A' i c) (i : Fin 4) :
    A' (Equiv.swap j (pivotRow s j) i) j =
      (Lmat (decomposeColumn s j).a *
        Umat (decomposeColumn s j).a
          (Function.update g j
            (innerSum (upperLoop s.a j) (pivotRow s j) j j))) i j := by
  obtain ⟨hge, hzero⟩ := pivotRow_spec s j hsc
  have hp : ∀ r, j ≤ r →
      innerSum (upperLoop s.a j) (Equiv.swap j (pivotRow s j) r) j j *
        (1 / (if innerSum (upperLoop s.a j) (pivotRow s j) j j = 0
              then TINY
              else innerSum (upperLoop s.a j) (pivotRow s j) j j)) *
        innerSum (upperLoop s.a j) (pivotRow s j) j j
      = innerSum (upperLoop s.a j)
          (Equiv.swap j (pivotRow s j) r) j j := by
    intro r hr
    by_cases hp0 : innerSum (upperLoop s.a j) (pivotRow s j) j j = 0
    · rw [hzero hp0 _ (swap_of_ge hge hr)]; simp
    · rw [if_neg hp0]; field_simp
  have e1 := decomposeColumn_a_of_ne s j
  have e3 := fun r => decomposeColumn_a_lower s j r hge
  have e4 := fun r => decomposeColumn_a_upper s j r hge
  have hfix : ∀ r, r < j → Equiv.swap j (pivotRow s j) r = r := fun r hr => swap_of_lt hge hr
  have hjim : Equiv.swap j (pivotRow s j) j = pivotRow s j := Equiv.swap_apply_left _ _
  have hwim := innerSum_upperLoop_of_ge s.a j (pivotRow s j) hge
  have hw : ∀ r, j ≤ r →
      innerSum (upperLoop s.a j) (Equiv.swap j (pivotRow s j) r) j j =
        (idx 0 j).foldl (fun sum k => sum - s.a (Equiv.swap j (pivotRow s j) r) k *
          upperLoop s.a j k j) (s.a (Equiv.swap j (pivotRow s j) r) j) :=
    fun r hr => innerSum_upperLoop_of_ge s.a j _ (swap_of_ge hge hr)
  have e3w : ∀ r, j < r → (decomposeColumn s j).a r j =
      (idx 0 j).foldl (fun sum k => sum - s.a (Equiv.swap j (pivotRow s j) r) k *
          upperLoop s.a j k j) (s.a (Equiv.swap j (pivotRow s j) r) j) *
        (1 / (if (idx 0 j).foldl (fun sum k => sum - s.a (pivotRow s j) k *
                upperLoop s.a j k j) (s.a (pivotRow s j) j) = 0
              then TINY
              else (idx 0 j).foldl (fun sum k => sum - s.a (pivotRow s j) k *
                upperLoop s.a j k j) (s.a (pivotRow s j) j))) := by
    intro r hr
    rw [e3 r hr, hw r hr.le, hwim]
  have hpw : ∀ r, j ≤ r →
      (idx 0 j).foldl (fun sum k => sum - s.a (Equiv.swap j (pivotRow s j) r) k *
          upperLoop s.a j k j) (s.a (Equiv.swap j (pivotRow s j) r) j) *
        (1 / (if (idx 0 j).foldl (fun sum k => sum - s.a (pivotRow s j) k *
                upperLoop s.a j k j) (s.a (pivotRow s j) j) = 0
              then TINY
              else (idx 0 j).foldl (fun sum k => sum - s.a (pivotRow s j) k *
                upperLoop s.a j k j) (s.a (pivotRow s j) j))) *
        (idx 0 j).foldl (fun sum k => sum - s.a (pivotRow s j) k *
                upperLoop s.a j k j) (s.a (pivotRow s j) j)
      = (idx 0 j).foldl (fun sum k => sum - s.a (Equiv.swap j (pivotRow s j) r) k *
          upperLoop s.a j k j) (s.a (Equiv.swap j (pivotRow s j) r) j) := by
    intro r hr
    have := hp r hr
    rw [hw r hr, hwim] at this
    exact this
  rw [← h2 _ _ (le_refl _), hwim]
  rw [Matrix.mul_apply, Fin.sum_univ_four]
  unfold Lmat Umat
  clear hp hzero h2 e3 hw hwim
  generalize (decomposeColumn s j).a = M' at *
  generalize pivotRow s j = im at *
  generalize hρ : (Equiv.swap j im : Fin 4 → Fin 4) = ρ at *
  have hp0 := hpw 0
  have hp1 := hpw 1
  have hp2 := hpw 2
  have hp3 := hpw 3
  clear hpw hρ
  fin_cases j <;> beta_reduce at * <;> simp only [Fin.reduceFinMk] at * <;>
  fin_cases i <;> beta_reduce at * <;> simp only [Fin.reduceFinMk] at * <;>
  simp [e1, e3w, e4, hfix, hjim, idx_0_0, idx_0_1, idx_0_2, idx_0_3,
    upperLoop_apply, val_three] at hp0 hp1 hp2 hp3 ⊢ <;>
  first
  | ring1
  | linear_combination (-1 : ℚ) * hp0
  | linear_combination (-1 : ℚ) * hp1
  | linear_combination (-1 : ℚ) * hp2
  | linear_combination (-1 : ℚ) * hp3

theorem stage_inv_left (s : DecompState) (j : Fin 4) (A' : Matrix44) (g : Fin 4 → ℚ)
    (hsc : ∀ i, 0 < s.scaling i) (hinv : LUInv j.val A' s.a g) (i c : Fin 4)
    (hc : c.val < j.val + 1) :
    A' (Equiv.swap j (pivotRow s j) i) c =
      (Lmat (decomposeColumn s j).a *
        Umat (decomposeColumn s j).a
          (Function.update g j (innerSum (upperLoop s.a j) (pivotRow s j) j j))) i c := by
  obtain ⟨hge, _⟩ := pivotRow_spec s j hsc
  obtain ⟨h1, h2, _⟩ := hinv
  by_cases hcj : c = j
  · subst hcj
    exact stage_inv_left_eq s c A' g hsc h2 i
  · have hlt : c < j := by
      have : c.val ≠ j.val := fun h => hcj (Fin.ext h)
      exact Fin.lt_def.2 (by omega)
    exact stage_inv_left_lt s j A' g _ hge h1 i c hlt

theorem stage_inv (s : DecompState) (j : Fin 4) (A' : Matrix44) (g : Fin 4 → ℚ)
    (hsc : ∀ i, 0 < s.scaling i) (hinv : LUInv j.val A' s.a g) :
    LUInv (j.val + 1) (fun r c => A' (Equiv.swap j (pivotRow s j) r) c) (decomposeColumn s j).a
      (Function.update g j (innerSum (upperLoop s.a j) (pivotRow s j) j j)) :=
  ⟨fun i c hc => stage_inv_left s j A' g hsc hinv i c hc,
   fun i c hc => stage_inv_right s j A' hinv.2.1 i c hc,
   fun k hk => stage_inv_diag s j g (pivotRow_spec s j hsc).1 hinv.2.2 k hk⟩

theorem rowLargest_spec (a : Matrix44) (i : Fin 4) :
    0 ≤ rowLargest a i ∧ ∀ j, |a i j| ≤ rowLargest a i := by
  have h0 := abs_nonneg (a i 0)
  have h1 := abs_nonneg (a i 1)
  have h2 := abs_nonneg (a i 2)
  have h3 := abs_nonneg (a i 3)
  simp only [rowLargest, idx_0_4, List.foldl, Matrix44.ElementAt]
  refine ⟨?_, ?_⟩
  · split_ifs <;> linarith
  · intro j
    fin_cases j <;> simp only [Fin.reduceFinMk] <;> split_ifs <;> linarith

theorem rowLargest_eq_zero (a : Matrix44) (i : Fin 4) (h : rowLargest a i = 0) (j : Fin 4) :
    a i j = 0 := by
  have := (rowLargest_spec a i).2 j
  rw [h] at this
  exact abs_nonpos_iff.mp this

theorem scanRows_eq (a : Matrix44) (sc0 : Fin 4 → ℚ) :
    scanRows a sc0 =
      if rowLargest a 0 = 0 ∨ rowLargest a 1 = 0 ∨ rowLargest a 2 = 0 ∨ rowLargest a 3 = 0
      then none else some (fun i => 1 / rowLargest a i) := by
  have hfun : Function.update (Function.update (Function.update (Function.update sc0
      0 (1 / rowLargest a 0)) 1 (1 / rowLargest a 1)) 2 (1 / rowLargest a 2))
      3 (1 / rowLargest a 3) = fun i => 1 / rowLargest a i := by
    funext i
    fin_cases i <;> simp [Function.update]
  by_cases h0 : rowLargest a 0 = 0
  · simp [scanRows, idx_0_4, List.foldlM, h0]
  · by_cases h1 : rowLargest a 1 = 0
    · simp [scanRows, idx_0_4, List.foldlM, h0, h1]
    · by_cases h2 : rowLargest a 2 = 0
      · simp [scanRows, idx_0_4, List.foldlM, h0, h1, h2]
      · by_cases h3 : rowLargest a 3 = 0
        · simp [scanRows, idx_0_4, List.foldlM, h0, h1, h2, h3]
        · simp only [scanRows, idx_0_4, List.foldlM, Fin.zero_eta, Fin.mk_one, Fin.reduceFinMk,
            h0, h1, h2, h3, if_false, or_self, Option.some_bind, Option.pure_def,
            Option.bind_eq_bind]
          rw [hfun]

theorem scanRows_of_det_ne_zero (a : Matrix44) (sc0 : Fin 4 → ℚ) (h : a.det ≠ 0) :
    scanRows a sc0 = some (fun i => 1 / rowLargest a i) ∧ ∀ i, 0 < 1 / rowLargest a i := by
  have hne : ∀ i, rowLargest a i ≠ 0 := by
    intro i h0
    exact h (Matrix.det_eq_zero_of_row_eq_zero i (rowLargest_eq_zero a i h0))
  refine ⟨?_, ?_⟩
  · rw [scanRows_eq]
    simp [hne]
  · intro i
    have := (rowLargest_spec a i).1
    have := lt_of_le_of_ne this (Ne.symm (hne i))
    positivity

theorem scanRows_zero_row (a : Matrix44) (sc0 : Fin 4 → ℚ) (i : Fin 4) (h : ∀ j, a i j = 0) :
    scanRows a sc0 = none := by
  have hz : rowLargest a i = 0 := by
    simp [rowLargest, idx_0_4, Matrix44.ElementAt, h]
  rw [scanRows_eq]
  fin_cases i <;> simp_all

theorem LUInv_init (A : Matrix44) (g : Fin 4 → ℚ) : LUInv 0 A A g :=
  ⟨fun _ _ h => absurd h (Nat.not_lt_zero _), fun _ _ _ => rfl, fun _ h => absurd h (Nat.not_lt_zero _)⟩

theorem stage_inv_ex (s : DecompState) (j : Fin 4) (A' : Matrix44)
    (hsc : ∀ i, 0 < s.scaling i) (hinv : ∃ g, LUInv j.val A' s.a g) :
    ∃ g, LUInv (j.val + 1) (fun r c => A' (Equiv.swap j (pivotRow s j) r) c)
      (decomposeColumn s j).a g := by
  obtain ⟨g, hg⟩ := hinv
  exact ⟨_, stage_inv s j A' g hsc hg⟩

/-- What the column loop of `Decompose` establishes, whatever the pivots:
the row-permuted input is the product of the unit lower-triangular and the
upper-triangular factor, the latter with the pivots as computed (`g`), the
stored diagonal being `g` with zeros replaced by `TINY`. -/
theorem columnLoop_spec (s0 : DecompState) (hsc0 : ∀ i, 0 < s0.scaling i) (hd0 : s0.d = 1) :
    ∃ g : Fin 4 → ℚ,
      (∀ i c, s0.a (permOf ((idx 0 4).foldl decomposeColumn s0).index i) c =
        (Lmat ((idx 0 4).foldl decomposeColumn s0).a *
          Umat ((idx 0 4).foldl decomposeColumn s0).a g) i c) ∧
      (∀ k, ((idx 0 4).foldl decomposeColumn s0).a k k = if g k = 0 then TINY else g k) ∧
      ((idx 0 4).foldl decomposeColumn s0).d =
        ((Equiv.Perm.sign (permOf ((idx 0 4).foldl decomposeColumn s0).index) : ℤ) : ℚ) ∧
      (∀ i, i ≤ ((idx 0 4).foldl decomposeColumn s0).index i) := by
  have hfold : (idx 0 4).foldl decomposeColumn s0 =
      decomposeColumn (decomposeColumn (decomposeColumn (decomposeColumn s0 0) 1) 2) 3 := by
    rw [idx_0_4]; rfl
  rw [hfold]
  generalize ha0 : s0.a = A
  generalize hs1 : decomposeColumn s0 0 = s1
  generalize hs2 : decomposeColumn s1 1 = s2
  generalize hs3 : decomposeColumn s2 2 = s3
  generalize hs4 : decomposeColumn s3 3 = s4
  have hsc1 : ∀ i, 0 < s1.scaling i := by rw [← hs1]; exact decomposeColumn_scaling s0 0 hsc0
  have hsc2 : ∀ i, 0 < s2.scaling i := by rw [← hs2]; exact decomposeColumn_scaling s1 1 hsc1
  have hsc3 : ∀ i, 0 < s3.scaling i := by rw [← hs3]; exact decomposeColumn_scaling s2 2 hsc2
  have I0 : ∃ g, LUInv (0 : Fin 4).val A s0.a g := by
    rw [ha0]; exact ⟨fun _ => 0, LUInv_init A _⟩
  clear ha0
  have I1 := stage_inv_ex s0 0 A hsc0 I0
  rw [hs1] at I1
  have I2 := stage_inv_ex s1 1 _ hsc1 I1
  rw [hs2] at I2
  have I3 := stage_inv_ex s2 2 _ hsc2 I2
  rw [hs3] at I3
  have I4 := stage_inv_ex s3 3 _ hsc3 I3
  rw [hs4] at I4
  obtain ⟨g, I4⟩ := I4
  have hx1 := decomposeColumn_index s0 0
  have hx2 := decomposeColumn_index s1 1
  have hx3 := decomposeColumn_index s2 2
  have hx4 := decomposeColumn_index s3 3
  have hd1 := decomposeColumn_d s0 0
  have hd2 := decomposeColumn_d s1 1
  have hd3 := decomposeColumn_d s2 2
  have hd4 := decomposeColumn_d s3 3
  rw [hs1] at hx1 hd1
  rw [hs2] at hx2 hd2
  rw [hs3] at hx3 hd3
  rw [hs4] at hx4 hd4
  have hi0 : s4.index 0 = pivotRow s0 0 := by rw [hx4, hx3, hx2, hx1]; simp [Function.update]
  have hi1 : s4.index 1 = pivotRow s1 1 := by rw [hx4, hx3, hx2]; simp [Function.update]
  have hi2 : s4.index 2 = pivotRow s2 2 := by rw [hx4, hx3]; simp [Function.update]
  have hi3 : s4.index 3 = pivotRow s3 3 := by rw [hx4]; simp [Function.update]
  have hd : s4.d = (if (3 : Fin 4) = pivotRow s3 3 then 1 else -1) *
      ((if (2 : Fin 4) = pivotRow s2 2 then 1 else -1) *
        ((if (1 : Fin 4) = pivotRow s1 1 then 1 else -1) *
          (if (0 : Fin 4) = pivotRow s0 0 then 1 else -1))) := by
    rw [hd4, hd3, hd2, hd1, hd0]
    split_ifs <;> simp
  have hA : ∀ i c, A (permOf s4.index i) c = (Lmat s4.a * Umat s4.a g) i c := by
    intro i c
    rw [← I4.1 i c (by have := c.isLt; show c.val < 3 + 1; omega)]
    simp only [permOf, hi0, hi1, hi2, hi3, Equiv.Perm.mul_apply]
  have hB : ∀ k, s4.a k k = if g k = 0 then TINY else g k := fun k =>
    I4.2.2 k (by have := k.isLt; show k.val < 3 + 1; omega)
  have hC : s4.d = ((Equiv.Perm.sign (permOf s4.index) : ℤ) : ℚ) := by
    rw [hd]
    simp only [permOf, hi0, hi1, hi2, hi3, Equiv.Perm.sign_mul, Equiv.Perm.sign_swap']
    split_ifs <;> simp
  have hD : ∀ i, i ≤ s4.index i := by
    intro i
    fin_cases i
    · simp only [Fin.zero_eta, hi0]; exact (pivotRow_spec s0 0 hsc0).1
    · simp only [Fin.mk_one, hi1]; exact (pivotRow_spec s1 1 hsc1).1
    · simp only [Fin.reduceFinMk, hi2]; exact (pivotRow_spec s2 2 hsc2).1
    · simp only [Fin.reduceFinMk, hi3]; exact (pivotRow_spec s3 3 hsc3).1
  exact ⟨g, hA, hB, hC, hD⟩

theorem idx_1_1 : idx 1 1 = [] := by decide
theorem idx_1_2 : idx 1 2 = [1] := by decide
theorem idx_1_3 : idx 1 3 = [1, 2] := by decide
theorem idx_2_2 : idx 2 2 = [] := by decide
theorem idx_2_3 : idx 2 3 = [2] := by decide
theorem idx_3_3 : idx 3 3 = [] := by decide

theorem foldl_skip (c : Fin 4 → ℚ) (x : Point4) (f i : Fin 4) (hfi : f ≤ i)
    (hz : ∀ k, k < f → x k = 0) (sum : ℚ) :
    (idx f i).foldl (fun sum j => sum - c j * x j) sum =
      (idx 0 i).foldl (fun sum j => sum - c j * x j) sum := by
  have h0 := hz 0
  have h1 := hz 1
  have h2 := hz 2
  clear hz
  fin_cases f <;> fin_cases i <;>
  first
  | (exfalso; revert hfi; decide)
  | simp_all [idx_0_0, idx_0_1, idx_0_2, idx_0_3, idx_1_1, idx_1_2, idx_1_3, idx_2_2, idx_2_3,
      idx_3_3, val_three]

theorem forwardStep_plain (ls : LinearSolve) (s : Point4 × Option (Fin 4)) (i : Fin 4)
    (hidx : i ≤ ls.index i) (hz : ZeroPrefix i.val s) :
    (forwardStep ls s i).1 = plainStep ls s.1 i ∧ ZeroPrefix (i.val + 1) (forwardStep ls s i) := by
  obtain ⟨x, first⟩ := s
  have hup : ∀ k : Fin 4, k < i → Function.update x (ls.index i) (x i) k = x k := by
    intro k hk
    have : k ≠ ls.index i := fun h => absurd (h ▸ hidx) (not_le.mpr hk)
    simp [Function.update_noteq this]
  cases first with
  | none =>
    have hall : ∀ k : Fin 4, k < i → x k = 0 := fun k hk => hz.1 rfl k (Fin.lt_def.mp hk)
    have hskip := foldl_skip (fun j => ls.a.ElementAt i j) (Function.update x (ls.index i) (x i))
      i i (le_refl _) (fun k hk => by rw [hup k hk]; exact hall k hk) (x (ls.index i))
    have hnil : idx i i = [] := by fin_cases i <;> decide
    rw [hnil] at hskip
    refine ⟨?_, ?_, ?_⟩
    · simp only [forwardStep, plainStep]
      rw [← hskip]
      rfl
    · intro hnone k hk
      simp only [forwardStep] at hnone ⊢
      by_cases hs : x (ls.index i) = 0
      · by_cases hki : k = i
        · subst hki; simp [hs]
        · have hlt : k < i := by
            have : k.val ≠ i.val := fun h => hki (Fin.ext h)
            exact Fin.lt_def.mpr (by omega)
          simp only [Function.update_noteq hki, hup k hlt]
          exact hall k hlt
      · simp [hs] at hnone
    · intro f hf
      simp only [forwardStep] at hf ⊢
      by_cases hs : x (ls.index i) = 0
      · simp [hs] at hf
      · simp only [hs, ne_eq, not_false_eq_true, if_true, Option.some.injEq] at hf
        subst hf
        refine ⟨by omega, ?_⟩
        intro k hk
        simp only [Function.update_noteq (ne_of_lt hk), hup k hk]
        exact hall k hk
  | some f0 =>
    obtain ⟨hlt, hzero⟩ := hz.2 f0 rfl
    have hf0 : f0 ≤ i := Fin.le_def.mpr (by omega)
    have hskip := foldl_skip (fun j => ls.a.ElementAt i j) (Function.update x (ls.index i) (x i))
      f0 i hf0 (fun k hk => by
        rw [hup k (lt_of_lt_of_le hk hf0)]; exact hzero k hk) (x (ls.index i))
    refine ⟨?_, ?_, ?_⟩
    · simp only [forwardStep, plainStep]
      rw [← hskip]
    · intro hnone
      simp [forwardStep] at hnone
    · intro f hf
      simp only [forwardStep, Option.some.injEq] at hf ⊢
      subst hf
      refine ⟨by omega, ?_⟩
      intro k hk
      have hki : k < i := lt_of_lt_of_le hk hf0
      simp only [Function.update_noteq (ne_of_lt hki), hup k hki]
      exact hzero k hk

theorem forwardLoop_plain (ls : LinearSolve) (b : Point4) (hidx : ∀ i, i ≤ ls.index i) :
    (forwardLoop ls b).1 = plainStep ls (plainStep ls (plainStep ls (plainStep ls b 0) 1) 2) 3 := by
  have hfold : forwardLoop ls b =
      forwardStep ls (forwardStep ls (forwardStep ls (forwardStep ls (b, none) 0) 1) 2) 3 := by
    simp only [forwardLoop, idx_0_4]; rfl
  have z0 : ZeroPrefix (0 : Fin 4).val (b, none) :=
    ⟨fun _ k hk => absurd hk (Nat.not_lt_zero _), fun f hf => by simp at hf⟩
  obtain ⟨e1, z1⟩ := forwardStep_plain ls _ 0 (hidx 0) z0
  obtain ⟨e2, z2⟩ := forwardStep_plain ls _ 1 (hidx 1) z1
  obtain ⟨e3, z3⟩ := forwardStep_plain ls _ 2 (hidx 2) z2
  obtain ⟨e4, _⟩ := forwardStep_plain ls _ 3 (hidx 3) z3
  rw [hfold, e4, e3, e2, e1]

theorem mulPoint4_eq (a : Matrix44) (v : Point4) : a.mulPoint4 v = a.mulVec v := by
  funext i
  simp [Matrix44.mulPoint4, idx_0_4, Matrix44.ElementAt, Matrix.mulVec, Matrix.dotProduct,
    Fin.sum_univ_four]

theorem mul_eq (a m : Matrix44) : Matrix44.mul a m = a * m := by
  funext i j
  simp [Matrix44.mul, idx_0_4, Matrix44.ElementAt, Matrix.mul_apply, Fin.sum_univ_four]

theorem plainStep_eq (ls : LinearSolve) (x : Point4) (i : Fin 4) (hidx : i ≤ ls.index i) :
    plainStep ls x i = substStep ls.a (x ∘ Equiv.swap i (ls.index i)) i := by
  simp only [plainStep, substStep]
  generalize ls.index i = ip at *
  funext k
  fin_cases i <;> fin_cases ip <;>
  first
  | (exfalso; revert hidx; decide)
  | (fin_cases k <;>
      simp [idx_0_0, idx_0_1, idx_0_2, idx_0_3, val_three, Function.update,
        Equiv.swap_apply_def, Matrix44.ElementAt])

theorem substStep_comp_swap (a : Matrix44) (x : Point4) (i m p : Fin 4) (hi : i < m)
    (hm : m ≤ p) :
    substStep a (x ∘ Equiv.swap m p) i = substStep a x i ∘ Equiv.swap m p := by
  simp only [substStep]
  funext k
  fin_cases i <;> fin_cases m <;>
  first
  | (exfalso; revert hi; decide)
  | (fin_cases p <;>
     first
     | (exfalso; revert hm; decide)
     | (fin_cases k <;>
          simp [idx_0_0, idx_0_1, idx_0_2, idx_0_3, val_three, Function.update,
            Equiv.swap_apply_def, Matrix44.ElementAt]))

theorem substLoop_spec (a : Matrix44) (b : Point4) (i : Fin 4) :
    (Lmat a).mulVec (substStep a (substStep a (substStep a (substStep a b 0) 1) 2) 3) i = b i := by
  fin_cases i <;>
    simp [substStep, idx_0_0, idx_0_1, idx_0_2, idx_0_3, val_three, Function.update,
      Matrix44.ElementAt, Matrix.mulVec, Matrix.dotProduct, Fin.sum_univ_four, Lmat]

theorem plainLoop_eq (ls : LinearSolve) (b : Point4) (hidx : ∀ i, i ≤ ls.index i) :
    plainStep ls (plainStep ls (plainStep ls (plainStep ls b 0) 1) 2) 3 =
      substStep ls.a (substStep ls.a (substStep ls.a (substStep ls.a
        (fun i => b (permOf ls.index i)) 0) 1) 2) 3 := by
  have h1 : (0 : Fin 4) < 1 := by decide
  have h2 : (0 : Fin 4) < 2 := by decide
  have h3 : (0 : Fin 4) < 3 := by decide
  have h12 : (1 : Fin 4) < 2 := by decide
  have h13 : (1 : Fin 4) < 3 := by decide
  have h23 : (2 : Fin 4) < 3 := by decide
  rw [plainStep_eq ls _ 3 (hidx 3), plainStep_eq ls _ 2 (hidx 2), plainStep_eq ls _ 1 (hidx 1),
    plainStep_eq ls _ 0 (hidx 0)]
  rw [← substStep_comp_swap _ _ 0 1 _ h1 (hidx 1),
    ← substStep_comp_swap _ _ 1 2 _ h12 (hidx 2),
    ← substStep_comp_swap _ _ 0 2 _ h2 (hidx 2),
    ← substStep_comp_swap _ _ 2 3 _ h23 (hidx 3),
    ← substStep_comp_swap _ _ 1 3 _ h13 (hidx 3),
    ← substStep_comp_swap _ _ 0 3 _ h3 (hidx 3)]
  rfl

theorem forwardLoop_spec (ls : LinearSolve) (b : Point4) (hidx : ∀ i, i ≤ ls.index i) (i : Fin 4) :
    (Lmat ls.a).mulVec (forwardLoop ls b).1 i = b (permOf ls.index i) := by
  rw [forwardLoop_plain ls b hidx, plainLoop_eq ls b hidx]
  exact substLoop_spec ls.a (fun i => b (permOf ls.index i)) i

theorem backStep_eq (ls : LinearSolve) (x : Point4) (i : Fin 4) (h : ls.a i i ≠ 0) :
    backStep ls x i = some (backSubst ls.a x i) := by
  simp [backStep, backSubst, Matrix44.ElementAt, h]

theorem backLoop_spec (ls : LinearSolve) (y : Point4) (hdiag : ∀ i, ls.a i i ≠ 0) :
    ∃ x, backLoop ls y = some x ∧
      ∀ i, (Umat ls.a (fun k => ls.a k k)).mulVec x i = y i := by
  have h0 := hdiag 0
  have h1 := hdiag 1
  have h2 := hdiag 2
  have h3 := hdiag 3
  have hrev : (idx 0 4).reverse = [3, 2, 1, 0] := by decide
  refine ⟨backSubst ls.a (backSubst ls.a (backSubst ls.a (backSubst ls.a y 3) 2) 1) 0, ?_, ?_⟩
  · simp only [backLoop, hrev, List.foldlM]
    simp only [Fin.zero_eta, Fin.mk_one, Fin.reduceFinMk, backStep_eq ls _ _ h0,
      backStep_eq ls _ _ h1, backStep_eq ls _ _ h2, backStep_eq ls _ _ h3, Option.bind_eq_bind,
      Option.some_bind, Option.pure_def]
  · intro i
    fin_cases i <;>
      simp [backSubst, idx_1_4, idx_2_4, idx_3_4, idx_4_4, val_three, Function.update,
        Matrix.mulVec, Matrix.dotProduct, Fin.sum_univ_four, Umat, Matrix44.ElementAt] <;>
      field_simp <;> ring

theorem det_Lmat (M : Matrix44) : (Lmat M).det = 1 := by
  rw [Matrix.det_of_lowerTriangular]
  · simp [Lmat]
  · intro i j hij
    have hlt : i < j := hij
    simp [Lmat, not_lt.mpr hlt.le, (ne_of_lt hlt).symm]

theorem det_Umat (M : Matrix44) (g : Fin 4 → ℚ) : (Umat M g).det = g 0 * g 1 * g 2 * g 3 := by
  rw [Matrix.det_of_upperTriangular]
  · simp [Umat, Fin.prod_univ_four]
  · intro i j hij
    have hlt : j < i := hij
    simp [Umat, not_lt.mpr hlt.le, (ne_of_lt hlt).symm]

theorem Determinant_eq (ls : LinearSolve) :
    ls.Determinant = ls.d * ls.a 0 0 * ls.a 1 1 * ls.a 2 2 * ls.a 3 3 := by
  simp [LinearSolve.Determinant, idx_0_4, Matrix44.ElementAt]

theorem construct_of_scan (A : Matrix44) (sc : Fin 4 → ℚ)
    (h : scanRows A (fun _ => 0) = some sc) :
    construct A =
      { a := ((idx 0 4).foldl decomposeColumn
          { a := A, index := fun _ => 0, d := 1, scaling := sc, imax := 0 }).a,
        index := ((idx 0 4).foldl decomposeColumn
          { a := A, index := fun _ => 0, d := 1, scaling := sc, imax := 0 }).index,
        d := ((idx 0 4).foldl decomposeColumn
          { a := A, index := fun _ => 0, d := 1, scaling := sc, imax := 0 }).d } := by
  unfold construct Decompose
  simp only [h]
  rfl

theorem construct_of_scan_none (A : Matrix44) (h : scanRows A (fun _ => 0) = none) :
    construct A = { a := fun _ _ => 0, index := fun i => i, d := 1 } := by
  have hidx : Function.update (Function.update (Function.update (Function.update
      (fun _ => (0 : Fin 4)) 0 0) 1 1) 2 2) 3 3 = fun i => i := by
    funext i
    fin_cases i <;> simp [Function.update]
  unfold construct Decompose
  simp only [h, idx_0_4, List.foldl, Bool.not_false, if_true, Matrix44.SetZero]
  simp only [Fin.zero_eta, Fin.mk_one, Fin.reduceFinMk]
  rw [hidx]
  rfl

/-- The factorisation `Decompose` leaves behind for a non-singular input: no
pivot is zero, and the row-permuted input is the product of the stored
factors. -/
theorem construct_spec (A : Matrix44) (hdet : A.det ≠ 0) :
    (∀ i, i ≤ (construct A).index i) ∧
    (∀ k, (construct A).a k k ≠ 0) ∧
    A.submatrix (permOf (construct A).index) id =
      Lmat (construct A).a * Umat (construct A).a (fun k => (construct A).a k k) ∧
    (construct A).d = ((Equiv.Perm.sign (permOf (construct A).index) : ℤ) : ℚ) := by
  obtain ⟨hscan, hpos⟩ := scanRows_of_det_ne_zero A (fun _ => 0) hdet
  rw [construct_of_scan A _ hscan]
  obtain ⟨g, hA, hB, hC, hD⟩ := columnLoop_spec
    { a := A, index := fun _ => 0, d := 1, scaling := fun i => 1 / rowLargest A i, imax := 0 }
    hpos rfl
  generalize (idx 0 4).foldl decomposeColumn
    { a := A, index := fun _ => 0, d := 1, scaling := fun i => 1 / rowLargest A i, imax := 0 }
    = s at *
  simp only at hA ⊢
  have hmat : A.submatrix (permOf s.index) id = Lmat s.a * Umat s.a g := by
    funext i c
    exact hA i c
  have hdetg : g 0 * g 1 * g 2 * g 3 ≠ 0 := by
    have h1 := congrArg Matrix.det hmat
    rw [Matrix.det_permute, Matrix.det_mul, det_Lmat, det_Umat, one_mul] at h1
    rw [← h1]
    refine mul_ne_zero ?_ hdet
    rcases Int.units_eq_one_or (Equiv.Perm.sign (permOf s.index)) with h | h <;> simp [h]
  have hg : ∀ k, g k ≠ 0 := by
    intro k h0
    apply hdetg
    fin_cases k <;> simp_all
  have hgk : g = fun k => s.a k k := by
    funext k
    rw [hB k, if_neg (hg k)]
  refine ⟨hD, ?_, ?_, hC⟩
  · intro k
    rw [hB k, if_neg (hg k)]
    exact hg k
  · rw [← hgk]
    exact hmat

/-- For non-singular input `LinearSolve::Determinant` is the determinant. -/
theorem construct_Determinant (A : Matrix44) (hdet : A.det ≠ 0) :
    (construct A).Determinant = A.det := by
  obtain ⟨_, _, hmat, hd⟩ := construct_spec A hdet
  have h1 := congrArg Matrix.det hmat
  rw [Matrix.det_permute, Matrix.det_mul, det_Lmat, det_Umat, one_mul] at h1
  rw [Determinant_eq, hd]
  have hsq : (((Equiv.Perm.sign (permOf (construct A).index) : ℤ) : ℚ)) *
      (((Equiv.Perm.sign (permOf (construct A).index) : ℤ) : ℚ)) = 1 := by
    rcases Int.units_eq_one_or (Equiv.Perm.sign (permOf (construct A).index)) with h | h <;>
      simp [h]
  calc ((Equiv.Perm.sign (permOf (construct A).index) : ℤ) : ℚ) * (construct A).a 0 0 *
        (construct A).a 1 1 * (construct A).a 2 2 * (construct A).a 3 3
      = ((Equiv.Perm.sign (permOf (construct A).index) : ℤ) : ℚ) *
          ((construct A).a 0 0 * (construct A).a 1 1 * (construct A).a 2 2 *
            (construct A).a 3 3) := by ring
    _ = ((Equiv.Perm.sign (permOf (construct A).index) : ℤ) : ℚ) *
          (((Equiv.Perm.sign (permOf (construct A).index) : ℤ) : ℚ) * A.det) := by rw [← h1]
    _ = A.det := by rw [← mul_assoc, hsq, one_mul]

/-- For non-singular input `Solve` returns a solution of the original system. -/
theorem construct_Solve (A : Matrix44) (b : Point4) (hdet : A.det ≠ 0) :
    ∃ x, (construct A).Solve b = some x ∧ A.mulVec x = b := by
  obtain ⟨hidx, hdiag, hmat, _⟩ := construct_spec A hdet
  obtain ⟨x, hx, hU⟩ := backLoop_spec (construct A) (forwardLoop (construct A) b).1 hdiag
  refine ⟨x, hx, ?_⟩
  have hL := forwardLoop_spec (construct A) b hidx
  have hperm : ∀ i, A.mulVec x (permOf (construct A).index i) =
      b (permOf (construct A).index i) := by
    intro i
    have h1 : (A.submatrix (permOf (construct A).index) id).mulVec x i =
        A.mulVec x (permOf (construct A).index i) := by
      simp [Matrix.mulVec, Matrix.dotProduct]
    rw [← h1, hmat, ← Matrix.mulVec_mulVec]
    have h2 : (Umat (construct A).a fun k => (construct A).a k k).mulVec x =
        (forwardLoop (construct A) b).1 := funext hU
    rw [h2]
    exact hL i
  funext k
  have := hperm ((permOf (construct A).index).symm k)
  simpa using this

theorem Identity_eq_one : Matrix44.Identity = 1 := by
  funext i j
  fin_cases i <;> fin_cases j <;>
    simp [Matrix44.Identity, Matrix44.SetIdentity, Matrix44.SetDiagonal, Matrix44.SetZero,
      Matrix44.set]

theorem Determinant_of_zero_row (A : Matrix44) (i : Fin 4) (h : ∀ j, A i j = 0) :
    Matrix44.Determinant A = 0 := by
  unfold Matrix44.Determinant
  rw [Determinant_eq, construct_of_scan_none A (scanRows_zero_row A (fun _ => 0) i h)]
  simp

theorem sampleRegular_det : sampleRegular.det ≠ 0 := by
  decide!

theorem sampleUnit_det : sampleUnit.det ≠ 0 := by
  decide!

/-- C1. For every non-singular 4x4 matrix `A` (so: no all-zero row, no zero
pivot) and every 4-vector `b`, `LinearSolve (A).Solve (b)` returns a vector
`x` (no division by zero occurs) with `A * x = b` for the original matrix
`A`. -/
theorem Solve_solves_original (A : Matrix44) (b : Point4) (hdet : A.det ≠ 0) :
    ∃ x, (LinearSolve.construct A).Solve b = some x ∧ A.mulPoint4 x = b := by
  obtain ⟨x, hx, hAx⟩ := construct_Solve A b hdet
  exact ⟨x, hx, by rw [mulPoint4_eq]; exact hAx⟩

theorem Solve_solves_original_witness :
    sampleRegular.det ≠ 0 ∧
      ∃ x, (LinearSolve.construct sampleRegular).Solve ![1, 2, 3, 4] = some x ∧
        sampleRegular.mulPoint4 x = ![1, 2, 3, 4] :=
  ⟨sampleRegular_det, Solve_solves_original sampleRegular ![1, 2, 3, 4] sampleRegular_det⟩

theorem invertColumns_spec (M : Matrix44) (res : Matrix44) (hdet : M.det ≠ 0) :
    ∃ R, Matrix44.invertColumns (LinearSolve.construct M) res = some R ∧ M * R = 1 := by
  obtain ⟨x0, hx0, h0⟩ := construct_Solve M (Function.update (fun _ => 0) 0 1) hdet
  obtain ⟨x1, hx1, h1⟩ := construct_Solve M (Function.update (fun _ => 0) 1 1) hdet
  obtain ⟨x2, hx2, h2⟩ := construct_Solve M (Function.update (fun _ => 0) 2 1) hdet
  obtain ⟨x3, hx3, h3⟩ := construct_Solve M (Function.update (fun _ => 0) 3 1) hdet
  refine ⟨fun i j => if j = 0 then x0 i else if j = 1 then x1 i else if j = 2 then x2 i
    else x3 i, ?_, ?_⟩
  · simp only [Matrix44.invertColumns, idx_0_4, List.foldlM]
    simp only [Fin.zero_eta, Fin.mk_one, Fin.reduceFinMk, hx0, hx1, hx2, hx3,
      Option.bind_eq_bind, Option.some_bind, Option.pure_def, List.foldl]
    congr 1
    funext i j
    fin_cases i <;> fin_cases j <;> simp [Matrix44.set]
  · funext i j
    have e0 := congrFun h0 i
    have e1 := congrFun h1 i
    have e2 := congrFun h2 i
    have e3 := congrFun h3 i
    simp only [Matrix.mulVec, Matrix.dotProduct, Fin.sum_univ_four] at e0 e1 e2 e3
    fin_cases j <;>
      simp only [Matrix.mul_apply, Fin.sum_univ_four, Fin.zero_eta, Fin.mk_one, Fin.reduceFinMk,
        if_true, if_false, Fin.reduceEq] <;>
      first
      | (rw [e0]; fin_cases i <;> simp [Function.update])
      | (rw [e1]; fin_cases i <;> simp [Function.update])
      | (rw [e2]; fin_cases i <;> simp [Function.update])
      | (rw [e3]; fin_cases i <;> simp [Function.update])

/-- C2. For every invertible 4x4 matrix `M`, `Inverse (M)` is computed
without a division by zero and `M * Inverse (M)` is the identity matrix. -/
theorem Inverse_mul_self (M : Matrix44) (hdet : M.det ≠ 0) :
    ∃ R, Matrix44.Inverse M = some R ∧ M.mul R = Matrix44.Identity := by
  obtain ⟨R, hR, hMR⟩ := invertColumns_spec M (fun _ _ => 0) hdet
  exact ⟨R, hR, by rw [mul_eq, Identity_eq_one]; exact hMR⟩

theorem Inverse_mul_self_witness :
    sampleRegular.det ≠ 0 ∧
      ∃ R, Matrix44.Inverse sampleRegular = some R ∧
        sampleRegular.mul R = Matrix44.Identity :=
  ⟨sampleRegular_det, Inverse_mul_self sampleRegular sampleRegular_det⟩

/-- C3. For every non-singular 4x4 matrix `M` (which then has no all-zero
row), `Matrix44::Determinant ()`, the sign accumulator times the four
diagonal entries of the factored copy, is the determinant of `M`. -/
theorem Determinant_eq_det (M : Matrix44) (hdet : M.det ≠ 0) :
    Matrix44.Determinant M = M.det ∧
      Matrix44.Determinant M = (LinearSolve.construct M).d * (LinearSolve.construct M).a 0 0 *
        (LinearSolve.construct M).a 1 1 * (LinearSolve.construct M).a 2 2 *
        (LinearSolve.construct M).a 3 3 :=
  ⟨construct_Determinant M hdet, Determinant_eq _⟩

theorem Determinant_eq_det_witness :
    sampleRegular.det ≠ 0 ∧ Matrix44.Determinant sampleRegular = sampleRegular.det :=
  ⟨sampleRegular_det, (Determinant_eq_det sampleRegular sampleRegular_det).1⟩

/-- C4, as stated, fails: with `A` non-singular and `B` having an all-zero
row, `Determinant (B)` is 0 while `A * B` is singular without a zero row and
its `Determinant ()` is `-TINY`. -/
theorem Determinant_mul_counterexample :
    Matrix44.Determinant (sampleUnit.mul sampleZeroRow) = -TINY ∧
      Matrix44.Determinant sampleUnit * Matrix44.Determinant sampleZeroRow = 0 ∧
      Matrix44.Determinant (sampleUnit.mul sampleZeroRow) ≠
        Matrix44.Determinant sampleUnit * Matrix44.Determinant sampleZeroRow := by
  decide!

/-- C4, amended. For all 4x4 matrices `A` and `B` that are both
non-singular, or whose left factor `A` has an all-zero row,
`Determinant (A * B) = Determinant (A) * Determinant (B)`. -/
theorem Determinant_mul (A B : Matrix44)
    (h : (A.det ≠ 0 ∧ B.det ≠ 0) ∨ ∃ i, ∀ j, A i j = 0) :
    Matrix44.Determinant (A.mul B) = Matrix44.Determinant A * Matrix44.Determinant B := by
  rcases h with ⟨hA, hB⟩ | ⟨i, hi⟩
  · have hAB : (A.mul B).det ≠ 0 := by
      rw [mul_eq, Matrix.det_mul]
      exact mul_ne_zero hA hB
    unfold Matrix44.Determinant
    rw [construct_Determinant _ hAB, construct_Determinant _ hA, construct_Determinant _ hB,
      mul_eq, Matrix.det_mul]
  · have hrow : ∀ j, (A.mul B) i j = 0 := by
      intro j
      simp [mul_eq, Matrix.mul_apply, hi]
    rw [Determinant_of_zero_row _ i hrow, Determinant_of_zero_row _ i hi, zero_mul]

theorem Determinant_mul_witness :
    ((sampleRegular.det ≠ 0 ∧ sampleUnit.det ≠ 0) ∨ ∃ i, ∀ j, sampleRegular i j = 0) ∧
      Matrix44.Determinant (sampleRegular.mul sampleUnit) =
        Matrix44.Determinant sampleRegular * Matrix44.Determinant sampleUnit :=
  ⟨Or.inl ⟨sampleRegular_det, sampleUnit_det⟩,
    Determinant_mul sampleRegular sampleUnit (Or.inl ⟨sampleRegular_det, sampleUnit_det⟩)⟩

/-- C5. For every 4x4 matrix with an all-zero row, `Decompose` returns
`false`, the constructor leaves the all-zero matrix with the identity
permutation, and `Determinant ()` is exactly 0. -/
theorem zero_row_fallback (A : Matrix44) (i : Fin 4) (h : ∀ j, A i j = 0) :
    (LinearSolve.Decompose { a := A, index := fun _ => 0, d := 0 }).1 = false ∧
      (LinearSolve.construct A).a = (fun _ _ => 0) ∧
      (∀ k, (LinearSolve.construct A).index k = k) ∧
      (LinearSolve.construct A).Determinant = 0 ∧
      Matrix44.Determinant A = 0 := by
  have hscan := scanRows_zero_row A (fun _ => 0) i h
  have hc := construct_of_scan_none A hscan
  refine ⟨?_, ?_, ?_, ?_, ?_⟩
  · unfold LinearSolve.Decompose
    simp only [hscan]
  · rw [hc]
  · intro k; rw [hc]
  · rw [Determinant_eq, hc]; simp
  · exact Determinant_of_zero_row A i h

theorem zero_row_fallback_witness :
    (∀ j, sampleZeroRow 3 j = 0) ∧
      (LinearSolve.construct sampleZeroRow).a = (fun _ _ => 0) ∧
      Matrix44.Determinant sampleZeroRow = 0 :=
  ⟨by decide,
   (zero_row_fallback sampleZeroRow 3 (by decide)).2.1,
   (zero_row_fallback sampleZeroRow 3 (by decide)).2.2.2.2⟩

theorem Invert_sampleSingular :
    Matrix44.Invert sampleSingular =
      some !![1, 0, 0, 0; 0, 1, 0, 0; 0, 0, 0, 1; 0, 0, 1 / TINY, -1 / TINY] := by
  have h1 : (Matrix44.Invert sampleSingular).isSome = true := by decide!
  have h2 : (Matrix44.Invert sampleSingular).getD (fun _ _ => 0) =
      !![1, 0, 0, 0; 0, 1, 0, 0; 0, 0, 0, 1; 0, 0, 1 / TINY, -1 / TINY] := by decide!
  obtain ⟨R, hR⟩ := Option.isSome_iff_exists.mp h1
  rw [hR] at h2 ⊢
  rw [Option.getD_some] at h2
  rw [h2]

theorem Invert_sampleSingular_ne_zero :
    Matrix44.Invert sampleSingular ≠ some (fun _ _ => 0) := by
  rw [Invert_sampleSingular]
  intro h
  have := congrFun (congrFun (Option.some.inj h) 0) 0
  revert this
  decide!

/-- C6 fails on the code: the singular matrix `sampleSingular` has no
all-zero row, `Decompose` succeeds on it with `TINY` as last pivot, and
`Invert` returns a matrix with entries `1 / TINY`, not the zero matrix; on
the singular matrix `sampleZeroRow` the fallback state makes `Solve` divide
by zero. -/
theorem Invert_singular_not_zero :
    sampleSingular.det = 0 ∧
      Matrix44.Invert sampleSingular =
        some !![1, 0, 0, 0; 0, 1, 0, 0; 0, 0, 0, 1; 0, 0, 1 / TINY, -1 / TINY] ∧
      Matrix44.Invert sampleSingular ≠ some (fun _ _ => 0) ∧
      sampleZeroRow.det = 0 ∧
      Matrix44.Invert sampleZeroRow = none :=
  ⟨Matrix.det_zero_of_row_eq (show (2 : Fin 4) ≠ 3 by decide) (by decide),
   Invert_sampleSingular, Invert_sampleSingular_ne_zero,
   Matrix.det_eq_zero_of_row_eq_zero 3 (by decide), by decide!⟩

/-- C7 fails on the code: for the all-zero matrix the constructor falls back
to the all-zero factored matrix, and the first back-substitution step of
`Solve` divides by `ElementAt (3, 3) = 0`; `Invert` and `Inverse` have no
exact result. -/
theorem Invert_zero_divides_by_zero :
    (LinearSolve.construct sampleZero).a 3 3 = 0 ∧
      LinearSolve.backStep (LinearSolve.construct sampleZero)
        (LinearSolve.forwardLoop (LinearSolve.construct sampleZero) ![1, 0, 0, 0]).1 3 = none ∧
      (LinearSolve.construct sampleZero).Solve ![1, 0, 0, 0] = none ∧
      Matrix44.Invert sampleZero = none ∧
      Matrix44.Inverse sampleZero = none := by
  decide!

/-- C8. `Quaternion::operator*` is the Hamilton product: the scalar part is
`w1 * w2 - v1 · v2` and the vector part is `w1 * v2 + w2 * v1 + v1 × v2`. -/
theorem mul_hamilton (q1 q2 : Quaternion) :
    Quaternion.mul q1 q2 0 =
        q1 0 * q2 0 - Matrix.dotProduct ![q1 1, q1 2, q1 3] ![q2 1, q2 2, q2 3] ∧
      ![Quaternion.mul q1 q2 1, Quaternion.mul q1 q2 2, Quaternion.mul q1 q2 3] =
        q1 0 • ![q2 1, q2 2, q2 3] + q2 0 • ![q1 1, q1 2, q1 3] +
          crossProduct ![q1 1, q1 2, q1 3] ![q2 1, q2 2, q2 3] := by
  refine ⟨?_, ?_⟩
  · simp [Quaternion.mul, Point3.dot, Matrix.dotProduct, Fin.sum_univ_three]
    ring
  · funext i
    fin_cases i <;>
      simp [Quaternion.mul, Point3.cross, Point3.scale, Point3.add, crossProduct] <;> ring

/-- C9 fails on the code: `operator*=` stores `ww`, `xx`, `yy` before it
computes `V(3)` from the overwritten components, so for `a = i`, `q = j` it
leaves `(0, 0, 0, 0)` where `operator*` returns `k = (0, 0, 0, 1)`. -/
theorem mulAssign_ne_mul :
    Quaternion.mulAssign ![0, 1, 0, 0] ![0, 0, 1, 0] = ![0, 0, 0, 0] ∧
      Quaternion.mul ![0, 1, 0, 0] ![0, 0, 1, 0] = ![0, 0, 0, 1] ∧
      Quaternion.mulAssign ![0, 1, 0, 0] ![0, 0, 1, 0] ≠
        Quaternion.mul ![0, 1, 0, 0] ![0, 0, 1, 0] := by
  decide!

/-- C10. The squared norm of `q1 * q2` (`operator*`) is the product of the
squared norms; in particular the product of two unit quaternions is a unit
quaternion. -/
theorem normSq_mul (q1 q2 : Quaternion) :
    Quaternion.normSq (Quaternion.mul q1 q2) = Quaternion.normSq q1 * Quaternion.normSq q2 ∧
      (Quaternion.normSq q1 = 1 → Quaternion.normSq q2 = 1 →
        Quaternion.normSq (Quaternion.mul q1 q2) = 1) := by
  have h : Quaternion.normSq (Quaternion.mul q1 q2) =
      Quaternion.normSq q1 * Quaternion.normSq q2 := by
    simp [Quaternion.normSq, Quaternion.mul, Point3.dot, Point3.cross, Point3.scale, Point3.add]
    ring
  exact ⟨h, fun h1 h2 => by rw [h, h1, h2, one_mul]⟩

theorem normSq_mul_witness :
    Quaternion.normSq ![3 / 5, 4 / 5, 0, 0] = 1 ∧ Quaternion.normSq ![0, 0, 5 / 13, 12 / 13] = 1 ∧
      Quaternion.normSq (Quaternion.mul ![3 / 5, 4 / 5, 0, 0] ![0, 0, 5 / 13, 12 / 13]) = 1 :=
  ⟨by decide!, by decide!,
    (normSq_mul ![3 / 5, 4 / 5, 0, 0] ![0, 0, 5 / 13, 12 / 13]).2 (by decide!) (by decide!)⟩

section QuaternionAlgebra

variable {S : Type} [LinearOrderedField S]

theorem sdiv_of_ne (a b : S) (h : b ≠ 0) : sdiv a b = some (a / b) := by
  simp [sdiv, h]

theorem sdiv_zero_right (a : S) : sdiv a 0 = none := by
  simp [sdiv]

theorem QuaternionT_mul_apply (p q : QuaternionT S) :
    QuaternionT.mul p q =
      ![p 0 * q 0 - p 1 * q 1 - p 2 * q 2 - p 3 * q 3,
        p 0 * q 1 + p 1 * q 0 + p 2 * q 3 - p 3 * q 2,
        p 0 * q 2 - p 1 * q 3 + p 2 * q 0 + p 3 * q 1,
        p 0 * q 3 + p 1 * q 2 - p 2 * q 1 + p 3 * q 0] := by
  funext i
  fin_cases i <;>
    simp [QuaternionT.mul, Point3T.dot, Point3T.cross, Point3T.scale, Point3T.add] <;> ring

theorem QuaternionT_Invert_apply (q : QuaternionT S) :
    QuaternionT.Invert q = ![q 0, -q 1, -q 2, -q 3] := by
  funext i
  fin_cases i <;> simp [QuaternionT.Invert]

/-- C13: `Quaternion::Invert` keeps `w` and negates `x`, `y`, `z`; for a
unit quaternion `q`, both `q * Inverse (q)` and `Inverse (q) * q` are the
identity quaternion `(1, 0, 0, 0)`. -/
theorem Invert_is_conjugate_and_inverse (q : QuaternionT S)
    (hq : Point4T.SquaredNorm q = 1) :
    (QuaternionT.Invert q 0 = q 0 ∧ QuaternionT.Invert q 1 = -q 1 ∧
      QuaternionT.Invert q 2 = -q 2 ∧ QuaternionT.Invert q 3 = -q 3) ∧
    QuaternionT.mul q (QuaternionT.Inverse q) = ![1, 0, 0, 0] ∧
    QuaternionT.mul (QuaternionT.Inverse q) q = ![1, 0, 0, 0] := by
  unfold Point4T.SquaredNorm at hq
  refine ⟨by simp [QuaternionT_Invert_apply], ?_, ?_⟩
  · rw [QuaternionT.Inverse, QuaternionT_mul_apply, QuaternionT_Invert_apply]
    funext i
    fin_cases i <;> simp <;> first | ring1 | linear_combination hq
  · rw [QuaternionT.Inverse, QuaternionT_mul_apply, QuaternionT_Invert_apply]
    funext i
    fin_cases i <;> simp <;> first | ring1 | linear_combination hq

theorem Invert_is_conjugate_and_inverse_witness :
    Point4T.SquaredNorm (![3 / 5, 4 / 5, 0, 0] : QuaternionT ℚ) = 1 ∧
    QuaternionT.mul (![3 / 5, 4 / 5, 0, 0] : QuaternionT ℚ)
      (QuaternionT.Inverse ![3 / 5, 4 / 5, 0, 0]) = ![1, 0, 0, 0] :=
  ⟨by norm_num [Point4T.SquaredNorm],
   (Invert_is_conjugate_and_inverse ![3 / 5, 4 / 5, 0, 0]
      (by norm_num [Point4T.SquaredNorm])).2.1⟩

end QuaternionAlgebra

theorem V_0 {S : Type} [LinearOrderedField S] (m : Matrix44T S) : m.V 0 = m 0 0 := rfl
theorem V_1 {S : Type} [LinearOrderedField S] (m : Matrix44T S) : m.V 1 = m 0 1 := rfl
theorem V_2 {S : Type} [LinearOrderedField S] (m : Matrix44T S) : m.V 2 = m 0 2 := rfl
theorem V_4 {S : Type} [LinearOrderedField S] (m : Matrix44T S) : m.V 4 = m 1 0 := rfl
theorem V_5 {S : Type} [LinearOrderedField S] (m : Matrix44T S) : m.V 5 = m 1 1 := rfl
theorem V_6 {S : Type} [LinearOrderedField S] (m : Matrix44T S) : m.V 6 = m 1 2 := rfl
theorem V_8 {S : Type} [LinearOrderedField S] (m : Matrix44T S) : m.V 8 = m 2 0 := rfl
theorem V_9 {S : Type} [LinearOrderedField S] (m : Matrix44T S) : m.V 9 = m 2 1 := rfl
theorem V_10 {S : Type} [LinearOrderedField S] (m : Matrix44T S) : m.V 10 = m 2 2 := rfl

theorem sqrt_four : Real.sqrt 4 = 2 := by
  rw [show (4 : ℝ) = 2 ^ 2 by norm_num]
  exact Real.sqrt_sq (by norm_num)

/-- C11: the unit quaternion `(0, 1, 0, 0)` (a half turn about the x axis,
`w = 0`) is not recovered: `FromMatrix` of its `ToMatrix` is
`(0, 1/8, 0, 0)`, which is neither `q` nor `-q`. -/
theorem FromMatrix_ToMatrix_half_turn :
    Point4T.SquaredNorm (![0, 1, 0, 0] : QuaternionT ℝ) = 1 ∧
    QuaternionT.FromMatrix realMath (QuaternionT.ToMatrix ![0, 1, 0, 0]) =
      some ![0, 1 / 8, 0, 0] ∧
    (![0, 1 / 8, 0, 0] : QuaternionT ℝ) ≠ ![0, 1, 0, 0] ∧
    (![0, 1 / 8, 0, 0] : QuaternionT ℝ) ≠ -![0, 1, 0, 0] := by
  refine ⟨by norm_num [Point4T.SquaredNorm], ?_, ?_, ?_⟩
  · simp [QuaternionT.FromMatrix, V_0, V_1, V_2, V_4, V_5, V_6, V_8, V_9, V_10,
      QuaternionT.ToMatrix, realMath, sdiv, Matrix.vecHead, Matrix.vecTail]
    norm_num
    rw [sqrt_four]
    norm_num
  · intro h
    have := congrFun h 1
    norm_num at this
  · intro h
    have := congrFun h 1
    norm_num at this

/-! ### Exact real arithmetic -/

theorem realMath_Sqrt : realMath.Sqrt = Real.sqrt := rfl
theorem realMath_Sin : realMath.Sin = Real.sin := rfl
theorem realMath_Cos : realMath.Cos = Real.cos := rfl
theorem realMath_Asin : realMath.Asin = Real.arcsin := rfl
theorem realMath_Acos : realMath.Acos = Real.arccos := rfl
theorem realMath_PI : realMath.PI = Real.pi := rfl
theorem realMath_ToDeg (a : ℝ) : realMath.ToDeg a = a * 180 / Real.pi := rfl
theorem realMath_ToRad (a : ℝ) : realMath.ToRad a = a * Real.pi / 180 := rfl

theorem dot_self_pos (a : Point3T ℝ) (ha : a ≠ 0) : 0 < Point3T.dot a a := by
  unfold Point3T.dot
  by_contra h
  apply ha
  have h0 : a 0 = 0 := by nlinarith [mul_self_nonneg (a 0), mul_self_nonneg (a 1), mul_self_nonneg (a 2)]
  have h1 : a 1 = 0 := by nlinarith [mul_self_nonneg (a 0), mul_self_nonneg (a 1), mul_self_nonneg (a 2)]
  have h2 : a 2 = 0 := by nlinarith [mul_self_nonneg (a 0), mul_self_nonneg (a 1), mul_self_nonneg (a 2)]
  funext i
  fin_cases i <;> simp [h0, h1, h2]

/-- Normalising a non-zero real vector succeeds and yields a unit vector. -/
theorem Normalize3_real (a : Point3T ℝ) (ha : a ≠ 0) :
    ∃ b, Point3T.Normalize realMath a = some b ∧ Point3T.dot b b = 1 := by
  have hpos := dot_self_pos a ha
  have hn : 0 < Real.sqrt (Point3T.dot a a) := Real.sqrt_pos.2 hpos
  have hsq : Real.sqrt (Point3T.dot a a) * Real.sqrt (Point3T.dot a a) = Point3T.dot a a :=
    Real.mul_self_sqrt hpos.le
  refine ⟨Point3T.divScalar a (Real.sqrt (Point3T.dot a a)), ?_, ?_⟩
  · simp [Point3T.Normalize, Point3T.div, Point3T.Norm, realMath_Sqrt, hn.ne.symm]
  · generalize Real.sqrt (Point3T.dot a a) = n at hn hsq
    unfold Point3T.dot at hsq ⊢
    simp only [Point3T.divScalar, Matrix.cons_val_zero, Matrix.cons_val_one, Matrix.head_cons,
      Matrix.cons_val_two, Matrix.tail_cons]
    field_simp
    linear_combination -hsq

section RotateAlgebra

variable {S : Type} [LinearOrderedField S]

theorem Rotate_apply (q : QuaternionT S) (p : Point3T S) :
    QuaternionT.Rotate q p =
      ![(q 0 * q 0 + q 1 * q 1 - q 2 * q 2 - q 3 * q 3) * p 0
          + 2 * (q 1 * q 2 - q 0 * q 3) * p 1 + 2 * (q 1 * q 3 + q 0 * q 2) * p 2,
        2 * (q 1 * q 2 + q 0 * q 3) * p 0
          + (q 0 * q 0 - q 1 * q 1 + q 2 * q 2 - q 3 * q 3) * p 1
          + 2 * (q 2 * q 3 - q 0 * q 1) * p 2,
        2 * (q 1 * q 3 - q 0 * q 2) * p 0 + 2 * (q 2 * q 3 + q 0 * q 1) * p 1
          + (q 0 * q 0 - q 1 * q 1 - q 2 * q 2 + q 3 * q 3) * p 2] := by
  unfold QuaternionT.Rotate
  simp only [QuaternionT_mul_apply, QuaternionT_Invert_apply]
  funext i
  fin_cases i <;> simp <;> ring

theorem mulPoint3_affine (m : Matrix44T S) (p : Point3T S)
    (h0 : m 3 0 = 0) (h1 : m 3 1 = 0) (h2 : m 3 2 = 0) (h3 : m 3 3 = 1) :
    Matrix44T.mulPoint3 m p =
      ![m 0 0 * p 0 + m 0 1 * p 1 + m 0 2 * p 2 + m 0 3,
        m 1 0 * p 0 + m 1 1 * p 1 + m 1 2 * p 2 + m 1 3,
        m 2 0 * p 0 + m 2 1 * p 1 + m 2 2 * p 2 + m 2 3] := by
  unfold Matrix44T.mulPoint3
  simp only [Matrix44T.ElementAt, h0, h1, h2, h3]
  funext i
  fin_cases i <;> simp [Point3T.divScalar]

/-- The rotation of the half-angle quaternion `(ch, b * sh)` about the unit
axis `b` is the product with the axis-angle matrix for the doubled angle. -/
theorem Rotate_axis_angle (b p : Point3T S) (ch sh c s : S)
    (hb : Point3T.dot b b = 1) (hcs : ch * ch + sh * sh = 1)
    (hc : c = ch * ch - sh * sh) (hs : s = 2 * sh * ch) :
    QuaternionT.Rotate ![ch, b 0 * sh, b 1 * sh, b 2 * sh] p =
      Matrix44T.mulPoint3
        !![b 0 * b 0 * (1 - c) + c, b 0 * b 1 * (1 - c) - b 2 * s, b 0 * b 2 * (1 - c) + b 1 * s, 0;
           b 1 * b 0 * (1 - c) + b 2 * s, b 1 * b 1 * (1 - c) + c, b 1 * b 2 * (1 - c) - b 0 * s, 0;
           b 2 * b 0 * (1 - c) - b 1 * s, b 2 * b 1 * (1 - c) + b 0 * s, b 2 * b 2 * (1 - c) + c, 0;
           0, 0, 0, 1] p := by
  rw [Rotate_apply, mulPoint3_affine _ _ (by simp) (by simp) (by simp) (by simp)]
  unfold Point3T.dot at hb
  subst hc hs
  funext i
  fin_cases i
  · simp
    linear_combination (b 0 * (b 0 * p 0 + b 1 * p 1 + b 2 * p 2)) * hcs - (sh * sh * p 0) * hb
  · simp
    linear_combination (b 1 * (b 0 * p 0 + b 1 * p 1 + b 2 * p 2)) * hcs - (sh * sh * p 1) * hb
  · simp
    linear_combination (b 2 * (b 0 * p 0 + b 1 * p 1 + b 2 * p 2)) * hcs - (sh * sh * p 2) * hb

end RotateAlgebra

/-- C12: for every angle `phi`, non-zero axis `a` and point `p`, the
quaternion built by `FromAxis (phi, a)` and the matrix built by
`SetRotate (phi, a)` exist and `Rotate (p)` equals the `Point3` product
`SetRotate (phi, a) * p`; for `phi = π/2` about `(0, 0, 1)` both map
`(1, 0, 0)` to `(0, 1, 0)`. -/
theorem Rotate_eq_SetRotate (phi : ℝ) (a p : Point3T ℝ) (m0 : Matrix44T ℝ) (ha : a ≠ 0) :
    (∃ q M, QuaternionT.FromAxis realMath phi a = some q ∧
      Matrix44T.SetRotate realMath m0 phi a = some M ∧
      QuaternionT.Rotate q p = Matrix44T.mulPoint3 M p) ∧
    (∃ q M, QuaternionT.FromAxis realMath (Real.pi / 2) ![0, 0, 1] = some q ∧
      Matrix44T.SetRotate realMath m0 (Real.pi / 2) ![0, 0, 1] = some M ∧
      QuaternionT.Rotate q ![1, 0, 0] = ![0, 1, 0] ∧
      Matrix44T.mulPoint3 M ![1, 0, 0] = ![0, 1, 0]) := by
  have key : ∀ (phi : ℝ) (a p : Point3T ℝ), a ≠ 0 →
      ∃ b, Point3T.dot b b = 1 ∧ Point3T.Normalize realMath a = some b ∧
        QuaternionT.FromAxis realMath phi a =
          some ![Real.cos (phi / 2), b 0 * Real.sin (phi / 2), b 1 * Real.sin (phi / 2),
            b 2 * Real.sin (phi / 2)] ∧
        Matrix44T.SetRotate realMath m0 phi a = some
          !![b 0 * b 0 * (1 - Real.cos phi) + Real.cos phi,
              b 0 * b 1 * (1 - Real.cos phi) - b 2 * Real.sin phi,
              b 0 * b 2 * (1 - Real.cos phi) + b 1 * Real.sin phi, 0;
             b 1 * b 0 * (1 - Real.cos phi) + b 2 * Real.sin phi,
              b 1 * b 1 * (1 - Real.cos phi) + Real.cos phi,
              b 1 * b 2 * (1 - Real.cos phi) - b 0 * Real.sin phi, 0;
             b 2 * b 0 * (1 - Real.cos phi) - b 1 * Real.sin phi,
              b 2 * b 1 * (1 - Real.cos phi) + b 0 * Real.sin phi,
              b 2 * b 2 * (1 - Real.cos phi) + Real.cos phi, 0;
             0, 0, 0, 1] ∧
        QuaternionT.Rotate ![Real.cos (phi / 2), b 0 * Real.sin (phi / 2),
            b 1 * Real.sin (phi / 2), b 2 * Real.sin (phi / 2)] p =
          Matrix44T.mulPoint3
          !![b 0 * b 0 * (1 - Real.cos phi) + Real.cos phi,
              b 0 * b 1 * (1 - Real.cos phi) - b 2 * Real.sin phi,
              b 0 * b 2 * (1 - Real.cos phi) + b 1 * Real.sin phi, 0;
             b 1 * b 0 * (1 - Real.cos phi) + b 2 * Real.sin phi,
              b 1 * b 1 * (1 - Real.cos phi) + Real.cos phi,
              b 1 * b 2 * (1 - Real.cos phi) - b 0 * Real.sin phi, 0;
             b 2 * b 0 * (1 - Real.cos phi) - b 1 * Real.sin phi,
              b 2 * b 1 * (1 - Real.cos phi) + b 0 * Real.sin phi,
              b 2 * b 2 * (1 - Real.cos phi) + Real.cos phi, 0;
             0, 0, 0, 1] p := by
    intro phi a p ha
    obtain ⟨b, hb, hbb⟩ := Normalize3_real a ha
    refine ⟨b, hbb, hb, ?_, ?_, ?_⟩
    · simp [QuaternionT.FromAxis, hb, realMath_Sin, realMath_Cos]
    · simp [Matrix44T.SetRotate, hb, realMath_Sin, realMath_Cos]
    · have hcs : Real.cos (phi / 2) * Real.cos (phi / 2)
          + Real.sin (phi / 2) * Real.sin (phi / 2) = 1 := by
        have := Real.sin_sq_add_cos_sq (phi / 2)
        linear_combination this
      have hc : Real.cos phi = Real.cos (phi / 2) * Real.cos (phi / 2)
          - Real.sin (phi / 2) * Real.sin (phi / 2) := by
        have h := Real.cos_two_mul (phi / 2)
        rw [show 2 * (phi / 2) = phi by ring] at h
        linear_combination h + hcs
      have hs : Real.sin phi = 2 * Real.sin (phi / 2) * Real.cos (phi / 2) := by
        have h := Real.sin_two_mul (phi / 2)
        rw [show 2 * (phi / 2) = phi by ring] at h
        exact h
      exact Rotate_axis_angle b p _ _ _ _ hbb hcs hc hs
  constructor
  · obtain ⟨b, _, _, hq, hM, hrot⟩ := key phi a p ha
    exact ⟨_, _, hq, hM, hrot⟩
  · have hz : (![0, 0, 1] : Point3T ℝ) ≠ 0 := by
      intro h
      have := congrFun h 2
      simp at this
    obtain ⟨b, _, hb, hq, hM, hrot⟩ := key (Real.pi / 2) ![0, 0, 1] ![1, 0, 0] hz
    have hb2 : b = ![0, 0, 1] := by
      have : Point3T.Normalize realMath ![0, 0, 1] = some ![0, 0, 1] := by
        simp [Point3T.Normalize, Point3T.div, Point3T.Norm, Point3T.dot, Point3T.divScalar,
          realMath_Sqrt]
      rw [this] at hb
      exact (Option.some.inj hb).symm
    subst hb2
    refine ⟨_, _, hq, hM, ?_, ?_⟩
    · rw [hrot, mulPoint3_affine _ _ (by simp [Matrix.vecHead, Matrix.vecTail])
        (by simp [Matrix.vecHead, Matrix.vecTail]) (by simp [Matrix.vecHead, Matrix.vecTail])
        (by simp [Matrix.vecHead, Matrix.vecTail])]
      funext i
      fin_cases i <;> simp [Matrix.vecHead, Matrix.vecTail]
    · rw [mulPoint3_affine _ _ (by simp [Matrix.vecHead, Matrix.vecTail])
        (by simp [Matrix.vecHead, Matrix.vecTail]) (by simp [Matrix.vecHead, Matrix.vecTail])
        (by simp [Matrix.vecHead, Matrix.vecTail])]
      funext i
      fin_cases i <;> simp [Matrix.vecHead, Matrix.vecTail]

theorem Rotate_eq_SetRotate_witness :
    (![0, 0, 2] : Point3T ℝ) ≠ 0 ∧
    ∃ q M, QuaternionT.FromAxis realMath 1 ![0, 0, 2] = some q ∧
      Matrix44T.SetRotate realMath 0 1 ![0, 0, 2] = some M ∧
      QuaternionT.Rotate q ![1, 2, 3] = Matrix44T.mulPoint3 M ![1, 2, 3] :=
  have hz : (![0, 0, 2] : Point3T ℝ) ≠ 0 := by
    intro h
    have := congrFun h 2
    simp at this
  ⟨hz, (Rotate_eq_SetRotate 1 ![0, 0, 2] ![1, 2, 3] 0 hz).1⟩

/-! ### Interpolate -/

theorem Interpolate_eq {S : Type} [LinearOrderedField S] (ops : MathOps S)
    (a b : QuaternionT S) (t : S) :
    QuaternionT.Interpolate ops a b t =
      (if ops.Acos (dot4 a b) > 1 / 100 then
          (sdiv (ops.Sin (ops.Acos (dot4 a b) * (1 - t))) (ops.Sin (ops.Acos (dot4 a b)))).bind
            fun wa => (sdiv (ops.Sin (ops.Acos (dot4 a b) * t)) (ops.Sin (ops.Acos (dot4 a b)))).bind
              fun wb => some (QuaternionT.scale a wa, QuaternionT.scale b wb)
        else some (a, b)).bind
        fun ab => Point4T.Normalize ops (antipodalFix (dot4 a b) t (sum4 ab.1 ab.2)) := rfl

theorem antipodalFix_of_not_lt {S : Type} [LinearOrderedField S] (v t : S) (c : QuaternionT S)
    (h : ¬ v < -999 / 1000) : antipodalFix v t c = c := by
  simp [antipodalFix, h]

theorem antipodalFix_of_zero {S : Type} [LinearOrderedField S] (v t : S) (c : QuaternionT S)
    (h : t * (1 - t) = 0) : antipodalFix v t c = c := by
  unfold antipodalFix
  simp only [h, add_zero, Function.update_eq_self, ite_self]

/-- Normalising a real 4-vector whose squared length is `n * n`, `n > 0`,
divides its components by `n`. -/
theorem Normalize4_of_sq (c : Point4T ℝ) (n : ℝ) (hn : 0 < n)
    (h : Point4T.SquaredNorm c = n * n) :
    Point4T.Normalize realMath c = some ![c 0 / n, c 1 / n, c 2 / n, c 3 / n] := by
  have hs : Real.sqrt (Point4T.SquaredNorm c) = n := by
    rw [h]; exact Real.sqrt_mul_self hn.le
  simp only [Point4T.Normalize, Point4T.Norm, realMath_Sqrt, hs, hn.ne.symm, if_false]

theorem Normalize4_unit (a : QuaternionT ℝ) (ha : Point4T.SquaredNorm a = 1) :
    Point4T.Normalize realMath a = some a := by
  rw [Normalize4_of_sq a 1 one_pos (by rw [ha]; norm_num)]
  congr 1
  funext i
  fin_cases i <;> simp

theorem SquaredNorm_sum4 (a b : QuaternionT ℝ) (ha : Point4T.SquaredNorm a = 1)
    (hb : Point4T.SquaredNorm b = 1) :
    Point4T.SquaredNorm (sum4 a b) = 2 + 2 * dot4 a b := by
  unfold Point4T.SquaredNorm at ha hb ⊢
  unfold dot4 sum4
  simp only [Matrix.cons_val_zero, Matrix.cons_val_one, Matrix.head_cons,
    Matrix.cons_val_two, Matrix.cons_val_three, Matrix.tail_cons]
  linear_combination ha + hb

/-- Below the threshold `acos (v) <= 0.01` the sine weights are skipped and
`Interpolate` returns the normalised sum `a + b`, whatever `t` is. -/
theorem Interpolate_near (a b : QuaternionT ℝ) (t : ℝ)
    (h : Real.arccos (dot4 a b) ≤ 1 / 100) :
    QuaternionT.Interpolate realMath a b t = Point4T.Normalize realMath (sum4 a b) := by
  have hv : 0 ≤ dot4 a b := by
    rw [← Real.arccos_le_pi_div_two]
    have := Real.pi_gt_three
    linarith
  rw [Interpolate_eq, realMath_Acos, if_neg (not_lt.2 h)]
  simp only [Option.some_bind]
  rw [antipodalFix_of_not_lt]
  linarith

/-- C15: for every unit quaternion `a` and every `t` (in particular every
`t` in `[0, 1]`), `Interpolate (a, a, t)` returns `a`. -/
theorem Interpolate_self (a : QuaternionT ℝ) (t : ℝ) (ha : Point4T.SquaredNorm a = 1) :
    QuaternionT.Interpolate realMath a a t = some a := by
  have hv : dot4 a a = 1 := ha
  rw [Interpolate_near a a t (by rw [hv, Real.arccos_one]; norm_num)]
  rw [Normalize4_of_sq (sum4 a a) 2 (by norm_num)
    (by rw [SquaredNorm_sum4 a a ha ha, hv]; norm_num)]
  congr 1
  funext i
  fin_cases i <;> simp [sum4]

theorem Interpolate_self_witness :
    Point4T.SquaredNorm (![3 / 5, 0, 4 / 5, 0] : QuaternionT ℝ) = 1 ∧
    QuaternionT.Interpolate realMath ![3 / 5, 0, 4 / 5, 0] ![3 / 5, 0, 4 / 5, 0] (1 / 3) =
      some ![3 / 5, 0, 4 / 5, 0] :=
  ⟨by norm_num [Point4T.SquaredNorm],
   Interpolate_self ![3 / 5, 0, 4 / 5, 0] (1 / 3) (by norm_num [Point4T.SquaredNorm])⟩

theorem Normalize4_real_eq (c : Point4T ℝ) (hc : 0 < Point4T.SquaredNorm c) :
    Point4T.Normalize realMath c =
      some ![c 0 / Real.sqrt (Point4T.SquaredNorm c), c 1 / Real.sqrt (Point4T.SquaredNorm c),
        c 2 / Real.sqrt (Point4T.SquaredNorm c), c 3 / Real.sqrt (Point4T.SquaredNorm c)] := by
  have hn : 0 < Real.sqrt (Point4T.SquaredNorm c) := Real.sqrt_pos.2 hc
  simp only [Point4T.Normalize, Point4T.Norm, realMath_Sqrt, hn.ne.symm, if_false]

theorem sum4_scale_one_zero (a b : QuaternionT ℝ) :
    sum4 (QuaternionT.scale a 1) (QuaternionT.scale b 0) = a := by
  funext i
  fin_cases i <;> simp [sum4, QuaternionT.scale]

theorem sum4_scale_zero_one (a b : QuaternionT ℝ) :
    sum4 (QuaternionT.scale a 0) (QuaternionT.scale b 1) = b := by
  funext i
  fin_cases i <;> simp [sum4, QuaternionT.scale]

/-- Above the threshold, with a non-zero sine, `Interpolate` normalises the
corrected weighted sum. -/
theorem Interpolate_far (a b : QuaternionT ℝ) (t : ℝ)
    (h : 1 / 100 < Real.arccos (dot4 a b)) (hs : Real.sin (Real.arccos (dot4 a b)) ≠ 0) :
    QuaternionT.Interpolate realMath a b t =
      Point4T.Normalize realMath (antipodalFix (dot4 a b) t
        (sum4 (QuaternionT.scale a
            (Real.sin (Real.arccos (dot4 a b) * (1 - t)) / Real.sin (Real.arccos (dot4 a b))))
          (QuaternionT.scale b
            (Real.sin (Real.arccos (dot4 a b) * t) / Real.sin (Real.arccos (dot4 a b)))))) := by
  rw [Interpolate_eq, realMath_Acos, realMath_Sin, if_pos h, sdiv_of_ne _ _ hs,
    sdiv_of_ne _ _ hs]
  rfl

/-- C14 (amended): for unit quaternions `a`, `b` whose angle
`phi = acos (a·b)` satisfies `0.01 < phi < π`, `Interpolate (a, b, 0)` returns
`a` and `Interpolate (a, b, 1)` returns `b`; when `phi <= 0.01` the result is
the normalised sum `a + b` for every `t`. -/
theorem Interpolate_endpoints (a b : QuaternionT ℝ)
    (ha : Point4T.SquaredNorm a = 1) (hb : Point4T.SquaredNorm b = 1) :
    (1 / 100 < Real.arccos (dot4 a b) → Real.arccos (dot4 a b) < Real.pi →
      QuaternionT.Interpolate realMath a b 0 = some a ∧
      QuaternionT.Interpolate realMath a b 1 = some b) ∧
    (Real.arccos (dot4 a b) ≤ 1 / 100 →
      ∀ t, QuaternionT.Interpolate realMath a b t = Point4T.Normalize realMath (sum4 a b)) := by
  refine ⟨fun h1 h2 => ?_, fun h t => Interpolate_near a b t h⟩
  have hpos : 0 < Real.sin (Real.arccos (dot4 a b)) :=
    Real.sin_pos_of_pos_of_lt_pi (by linarith) h2
  constructor
  · rw [Interpolate_far a b 0 h1 hpos.ne.symm, antipodalFix_of_zero _ _ _ (by norm_num)]
    rw [sub_zero, mul_one, mul_zero, Real.sin_zero, zero_div, div_self hpos.ne.symm,
      sum4_scale_one_zero]
    exact Normalize4_unit a ha
  · rw [Interpolate_far a b 1 h1 hpos.ne.symm, antipodalFix_of_zero _ _ _ (by norm_num)]
    rw [sub_self, mul_one, mul_zero, Real.sin_zero, zero_div, div_self hpos.ne.symm,
      sum4_scale_zero_one]
    exact Normalize4_unit b hb

theorem Interpolate_endpoints_witness :
    Point4T.SquaredNorm (![1, 0, 0, 0] : QuaternionT ℝ) = 1 ∧
    Point4T.SquaredNorm (![0, 1, 0, 0] : QuaternionT ℝ) = 1 ∧
    1 / 100 < Real.arccos (dot4 (![1, 0, 0, 0] : QuaternionT ℝ) ![0, 1, 0, 0]) ∧
    Real.arccos (dot4 (![1, 0, 0, 0] : QuaternionT ℝ) ![0, 1, 0, 0]) < Real.pi ∧
    QuaternionT.Interpolate realMath ![1, 0, 0, 0] ![0, 1, 0, 0] 0 = some ![1, 0, 0, 0] ∧
    QuaternionT.Interpolate realMath ![1, 0, 0, 0] ![0, 1, 0, 0] 1 = some ![0, 1, 0, 0] := by
  have hd : dot4 (![1, 0, 0, 0] : QuaternionT ℝ) ![0, 1, 0, 0] = 0 := by simp [dot4]
  have hpi := Real.pi_gt_three
  have h1 : 1 / 100 < Real.arccos (dot4 (![1, 0, 0, 0] : QuaternionT ℝ) ![0, 1, 0, 0]) := by
    rw [hd, Real.arccos_zero]; linarith
  have h2 : Real.arccos (dot4 (![1, 0, 0, 0] : QuaternionT ℝ) ![0, 1, 0, 0]) < Real.pi := by
    rw [hd, Real.arccos_zero]; linarith
  exact ⟨by norm_num [Point4T.SquaredNorm], by norm_num [Point4T.SquaredNorm], h1, h2,
    (Interpolate_endpoints ![1, 0, 0, 0] ![0, 1, 0, 0] (by norm_num [Point4T.SquaredNorm])
      (by norm_num [Point4T.SquaredNorm])).1 h1 h2⟩

theorem cos_hundredth_le : Real.cos (1 / 100) ≤ 62499 / 62501 := by
  have h := Real.cos_bound (x := 1 / 100) (by rw [abs_of_pos] <;> norm_num)
  rw [abs_of_pos (by norm_num : (0 : ℝ) < 1 / 100)] at h
  have := (abs_le.1 h).2
  norm_num at this ⊢
  linarith

/-- C14, as stated, fails below the threshold: the unit quaternions
`a = (1, 0, 0, 0)` and `b = (62499/62501, 500/62501, 0, 0)` enclose an angle
of at most 0.01, and `Interpolate (a, b, 0)` returns a quaternion whose
`x` component is not 0, hence not `a`. -/
theorem Interpolate_zero_ne_first :
    Point4T.SquaredNorm (![1, 0, 0, 0] : QuaternionT ℝ) = 1 ∧
    Point4T.SquaredNorm (![62499 / 62501, 500 / 62501, 0, 0] : QuaternionT ℝ) = 1 ∧
    Real.arccos (dot4 (![1, 0, 0, 0] : QuaternionT ℝ) ![62499 / 62501, 500 / 62501, 0, 0])
      ≤ 1 / 100 ∧
    ∃ r, QuaternionT.Interpolate realMath ![1, 0, 0, 0] ![62499 / 62501, 500 / 62501, 0, 0] 0
        = some r ∧ r 1 ≠ 0 ∧ r ≠ ![1, 0, 0, 0] := by
  have hd : dot4 (![1, 0, 0, 0] : QuaternionT ℝ) ![62499 / 62501, 500 / 62501, 0, 0]
      = 62499 / 62501 := by simp [dot4]
  have hb : Point4T.SquaredNorm (![62499 / 62501, 500 / 62501, 0, 0] : QuaternionT ℝ) = 1 := by
    norm_num [Point4T.SquaredNorm]
  have ha : Point4T.SquaredNorm (![1, 0, 0, 0] : QuaternionT ℝ) = 1 := by
    norm_num [Point4T.SquaredNorm]
  have harc : Real.arccos (dot4 (![1, 0, 0, 0] : QuaternionT ℝ)
      ![62499 / 62501, 500 / 62501, 0, 0]) ≤ 1 / 100 := by
    rw [hd]
    have hpi := Real.pi_gt_three
    have h1 : Real.arccos (Real.cos (1 / 100)) = 1 / 100 :=
      Real.arccos_cos (by norm_num) (by linarith)
    rw [← h1]
    exact Real.strictAntiOn_arccos.antitoneOn
      ⟨Real.neg_one_le_cos _, Real.cos_le_one _⟩ ⟨by norm_num, by norm_num⟩ cos_hundredth_le
  refine ⟨ha, hb, harc, ?_⟩
  have hpos : 0 < Point4T.SquaredNorm
      (sum4 (![1, 0, 0, 0] : QuaternionT ℝ) ![62499 / 62501, 500 / 62501, 0, 0]) := by
    rw [SquaredNorm_sum4 _ _ ha hb, hd]; norm_num
  rw [Interpolate_near _ _ 0 harc, Normalize4_real_eq _ hpos]
  have hn := Real.sqrt_pos.2 hpos
  have h1 : (500 / 62501 : ℝ) / Real.sqrt (Point4T.SquaredNorm
      (sum4 (![1, 0, 0, 0] : QuaternionT ℝ) ![62499 / 62501, 500 / 62501, 0, 0])) ≠ 0 :=
    div_ne_zero (by norm_num) hn.ne.symm
  refine ⟨_, rfl, ?_, ?_⟩
  · simpa [sum4] using h1
  · intro h
    have h2 := congrFun h 1
    apply h1
    simpa [sum4] using h2

theorem Normalize4_ops (ops : MathOps ℝ) (hSqrt : ops.Sqrt = Real.sqrt) (c : Point4T ℝ) :
    Point4T.Normalize ops c = Point4T.Normalize realMath c := by
  simp only [Point4T.Normalize, Point4T.Norm, hSqrt, realMath_Sqrt]

theorem doubleMath_Acos_neg_one :
    doubleMath.Acos (-1) = 884279719003555 / 281474976710656 := by
  simp [doubleMath]

theorem doubleMath_Acos_bounds :
    1 / 100 < doubleMath.Acos (-1) ∧ doubleMath.Acos (-1) < Real.pi := by
  rw [doubleMath_Acos_neg_one]
  refine ⟨by norm_num, lt_trans ?_ Real.pi_gt_d20⟩
  norm_num

/-- The antipodal pair at `t = 1/2`, with `acos (-1)` the double below π:
the two sine weights are equal, the weighted sum cancels to zero, the
correction adds `t (1 - t) = 1/4` to `V(0)`, and `Interpolate` returns
`(1, 0, 0, 0)`. -/
theorem Interpolate_antipodal_half :
    QuaternionT.Interpolate doubleMath ![1, 0, 0, 0] ![-1, 0, 0, 0] (1 / 2) =
      some ![1, 0, 0, 0] := by
  have hd : dot4 (![1, 0, 0, 0] : QuaternionT ℝ) ![-1, 0, 0, 0] = -1 := by simp [dot4]
  have hb := doubleMath_Acos_bounds
  have hpos : 0 < Real.sin (doubleMath.Acos (-1)) :=
    Real.sin_pos_of_pos_of_lt_pi (by linarith [hb.1]) hb.2
  have hS : doubleMath.Sin = Real.sin := rfl
  rw [Interpolate_eq, hd, if_pos hb.1, hS, sdiv_of_ne _ _ hpos.ne.symm,
    sdiv_of_ne _ _ hpos.ne.symm]
  simp only [Option.some_bind]
  rw [Normalize4_ops doubleMath rfl]
  have hhalf : doubleMath.Acos (-1) * (1 - 1 / 2) = doubleMath.Acos (-1) * (1 / 2) := by ring
  have hc : antipodalFix (-1) (1 / 2)
      (sum4 (QuaternionT.scale ![1, 0, 0, 0]
          (Real.sin (doubleMath.Acos (-1) * (1 - 1 / 2)) / Real.sin (doubleMath.Acos (-1))))
        (QuaternionT.scale ![-1, 0, 0, 0]
          (Real.sin (doubleMath.Acos (-1) * (1 / 2)) / Real.sin (doubleMath.Acos (-1)))))
      = ![1 / 4, 0, 0, 0] := by
    rw [hhalf]
    unfold antipodalFix
    rw [if_pos (by norm_num)]
    funext i
    fin_cases i <;> simp [sum4, QuaternionT.scale, Function.update] <;> norm_num
  rw [hc, Normalize4_of_sq _ (1 / 4) (by norm_num) (by norm_num [Point4T.SquaredNorm])]
  congr 1
  funext i
  fin_cases i <;> simp

/-- With the exact arc cosine, `acos (-1) = π`: for the unit quaternions
`a = (1, 0, 0, 0)` and `b = (-1, 0, 0, 0)` the sine weights divide by
`sin (π) = 0` and `Interpolate` has no exact value (at `t = 0`, `t = 1/2` and
`t = 1` alike).  The bound `acos (-1) < π` of `Interpolate_unit_antipodal`
cannot be dropped. -/
theorem Interpolate_antipodal_undefined :
    Point4T.SquaredNorm (![1, 0, 0, 0] : QuaternionT ℝ) = 1 ∧
    Point4T.SquaredNorm (![-1, 0, 0, 0] : QuaternionT ℝ) = 1 ∧
    (![-1, 0, 0, 0] : QuaternionT ℝ) = -![1, 0, 0, 0] ∧
    QuaternionT.Interpolate realMath ![1, 0, 0, 0] ![-1, 0, 0, 0] 0 = none ∧
    QuaternionT.Interpolate realMath ![1, 0, 0, 0] ![-1, 0, 0, 0] (1 / 2) = none ∧
    QuaternionT.Interpolate realMath ![1, 0, 0, 0] ![-1, 0, 0, 0] 1 = none := by
  have hd : dot4 (![1, 0, 0, 0] : QuaternionT ℝ) ![-1, 0, 0, 0] = -1 := by simp [dot4]
  have hpi := Real.pi_gt_three
  have key : ∀ t : ℝ,
      QuaternionT.Interpolate realMath ![1, 0, 0, 0] ![-1, 0, 0, 0] t = none := by
    intro t
    rw [Interpolate_eq, hd, realMath_Acos, realMath_Sin, Real.arccos_neg_one,
      if_pos (by linarith), Real.sin_pi, sdiv_zero_right]
    rfl
  refine ⟨by norm_num [Point4T.SquaredNorm], by norm_num [Point4T.SquaredNorm], ?_,
    key 0, key (1 / 2), key 1⟩
  funext i
  fin_cases i <;> simp

/-! ### The factorisation at an arbitrary scalar type -/

section GenericLU

variable {S : Type} [LinearOrderedField S]

theorem innerSum_set_of_ne_gen (a : Matrix44T S) (i i' j : Fin 4) (v : S) (hne : i' ≠ i) (hj : j ≤ i') :
    LinearSolveT.innerSum (a.set i' j v) i j j = LinearSolveT.innerSum a i j j := by
  fin_cases j <;> fin_cases i' <;> fin_cases i <;>
    first
    | (exfalso; revert hj; decide)
    | (exfalso; revert hne; decide)
    | simp [LinearSolveT.innerSum, idx_0_0, idx_0_1, idx_0_2, idx_0_3, Matrix44T.set, Matrix44T.ElementAt]

theorem lowerStep_fold_fst_gen (sc : Fin 4 → S) (j : Fin 4) :
    ∀ (l : List (Fin 4)) (s : Matrix44T S × S × Fin 4),
      (l.foldl (LinearSolveT.lowerStep sc j) s).1 = l.foldl (fun a i => a.set i j (LinearSolveT.innerSum a i j j)) s.1 := by
  intro l
  induction l with
  | nil => intro s; rfl
  | cons i l ih => intro s; simp only [List.foldl_cons]; rw [ih]; rfl

theorem lowerStep_fold_snd_gen (a : Matrix44T S) (sc : Fin 4 → S) (j : Fin 4) :
    ∀ (l : List (Fin 4)) (s : Matrix44T S × S × Fin 4), l.Nodup → (∀ i ∈ l, j ≤ i) →
      (∀ i ∈ l, LinearSolveT.innerSum s.1 i j j = LinearSolveT.innerSum a i j j) →
      (l.foldl (LinearSolveT.lowerStep sc j) s).2 =
        l.foldl (pivotPureT (fun i => sc i * |LinearSolveT.innerSum a i j j|)) s.2 := by
  intro l
  induction l with
  | nil => intro s _ _ _; rfl
  | cons i l ih =>
    intro s hnd hge hs
    simp only [List.foldl_cons]
    have hi := hs i (List.mem_cons_self _ _)
    rw [ih (LinearSolveT.lowerStep sc j s i) (List.nodup_cons.mp hnd).2
      (fun k hk => hge k (List.mem_cons_of_mem _ hk))]
    · simp only [LinearSolveT.lowerStep, pivotPureT, hi]
    · intro k hk
      have hne : i ≠ k := fun h => (List.nodup_cons.mp hnd).1 (h ▸ hk)
      simp only [LinearSolveT.lowerStep]
      rw [innerSum_set_of_ne_gen _ _ _ _ _ hne (hge i (List.mem_cons_self _ _))]
      exact hs k (List.mem_cons_of_mem _ hk)

theorem pivotPure_fold_gen (T : Fin 4 → S) :
    ∀ (l : List (Fin 4)) (s : S × Fin 4),
      s.1 ≤ (l.foldl (pivotPureT T) s).1 ∧
      (∀ i ∈ l, T i ≤ (l.foldl (pivotPureT T) s).1) ∧
      (l.foldl (pivotPureT T) s = s ∨
        ((l.foldl (pivotPureT T) s).2 ∈ l ∧
          (l.foldl (pivotPureT T) s).1 = T (l.foldl (pivotPureT T) s).2)) := by
  intro l
  induction l with
  | nil => intro s; simp
  | cons i l ih =>
    intro s
    simp only [List.foldl_cons]
    obtain ⟨h1, h2, h3⟩ := ih (pivotPureT T s i)
    have hs1 : s.1 ≤ (pivotPureT T s i).1 := by
      simp only [pivotPureT]; split_ifs with h
      · exact h
      · exact le_refl _
    have hs2 : T i ≤ (pivotPureT T s i).1 := by
      simp only [pivotPureT]; split_ifs with h
      · exact le_refl _
      · exact le_of_lt (not_le.mp h)
    refine ⟨le_trans hs1 h1, ?_, ?_⟩
    · intro k hk
      rcases List.mem_cons.mp hk with rfl | hk
      · exact le_trans hs2 h1
      · exact h2 k hk
    · rcases h3 with h3 | ⟨h3, h4⟩
      · rw [h3]
        by_cases h : T i ≥ s.1
        · right
          simp [pivotPureT, h]
        · left
          simp [pivotPureT, h]
      · right
        exact ⟨List.mem_cons_of_mem _ h3, h4⟩

theorem scaled_zero_gen {c s : S} (hc : 0 < c) (h : c * |s| ≤ 0) : s = 0 := by
  have h1 : |s| ≤ 0 := by
    by_contra hn
    push_neg at hn
    have := mul_pos hc hn
    linarith
  exact abs_nonpos_iff.mp h1

theorem lowerLoop_fst_gen (a : Matrix44T S) (sc : Fin 4 → S) (im j r c : Fin 4) :
    (LinearSolveT.lowerLoop a sc im j).1 r c = if c = j ∧ j ≤ r then LinearSolveT.innerSum a r j j else a r c := by
  simp only [LinearSolveT.lowerLoop, lowerStep_fold_fst_gen]
  fin_cases j <;> fin_cases r <;> fin_cases c <;>
    simp [LinearSolveT.innerSum, idx_0_0, idx_0_1, idx_0_2, idx_0_3, idx_0_4, idx_1_4, idx_2_4, idx_3_4,
      Matrix44T.set, Matrix44T.ElementAt]

/-- The pivot row chosen by `LinearSolveT.lowerLoop` lies at or below the diagonal and
carries the largest scaled magnitude of the column. -/
theorem lowerLoop_snd_gen (a : Matrix44T S) (sc : Fin 4 → S) (im j : Fin 4) (hsc : ∀ i, 0 < sc i) :
    j ≤ (LinearSolveT.lowerLoop a sc im j).2 ∧
    ∀ r, j ≤ r → sc r * |LinearSolveT.innerSum a r j j| ≤
      sc (LinearSolveT.lowerLoop a sc im j).2 * |LinearSolveT.innerSum a (LinearSolveT.lowerLoop a sc im j).2 j j| := by
  have hfold := lowerStep_fold_snd_gen a sc j (idx j 4) (a, 0, im) (idx_nodup _ _)
    (fun i hi => Fin.le_def.mpr (mem_idx.mp hi).1) (fun i _ => rfl)
  have hT : ∀ i, 0 ≤ sc i * |LinearSolveT.innerSum a i j j| := fun i =>
    mul_nonneg (hsc i).le (abs_nonneg _)
  have hcons : idx j 4 = j :: idx (j.val + 1) 4 := by
    fin_cases j <;> decide
  simp only [LinearSolveT.lowerLoop]
  rw [hfold]
  rw [hcons] at *
  simp only [List.foldl_cons]
  have hstep : pivotPureT (fun i => sc i * |LinearSolveT.innerSum a i j j|) ((0 : S), im) j =
      (sc j * |LinearSolveT.innerSum a j j j|, j) := by
    simp [pivotPureT, hT j]
  rw [hstep]
  obtain ⟨h1, h2, h3⟩ := pivotPure_fold_gen (fun i => sc i * |LinearSolveT.innerSum a i j j|)
    (idx (j.val + 1) 4) (sc j * |LinearSolveT.innerSum a j j j|, j)
  rcases h3 with h3 | ⟨h3, h4⟩
  · rw [h3] at h2 ⊢
    refine ⟨le_refl _, ?_⟩
    intro r hr
    rcases eq_or_lt_of_le hr with rfl | hlt
    · exact le_refl _
    · exact h2 r (mem_idx.mpr ⟨hlt, r.isLt⟩)
  · refine ⟨?_, ?_⟩
    · have := (mem_idx.mp h3).1
      exact Fin.le_def.mpr (by omega)
    · intro r hr
      rw [← h4]
      rcases eq_or_lt_of_le hr with rfl | hlt
      · exact h1
      · exact h2 r (mem_idx.mpr ⟨hlt, r.isLt⟩)

theorem swapRows_apply_gen (a : Matrix44T S) (p q r c : Fin 4) :
    LinearSolveT.swapRows a p q r c = a (Equiv.swap q p r) c := by
  simp only [LinearSolveT.swapRows, idx_0_4, List.foldl, Matrix44T.set, Matrix44T.ElementAt]
  fin_cases c <;> simp [Equiv.swap_apply_def] <;> split_ifs <;> simp_all

theorem upperLoop_apply_gen (a : Matrix44T S) (j r c : Fin 4) :
    LinearSolveT.upperLoop a j r c =
      if c = j ∧ r < j then
        (if r = 0 then a 0 j
         else if r = 1 then a 1 j - a 1 0 * a 0 j
         else a 2 j - a 2 0 * a 0 j - a 2 1 * (a 1 j - a 1 0 * a 0 j))
      else a r c := by
  fin_cases j <;> fin_cases r <;> fin_cases c <;>
    simp [LinearSolveT.upperLoop, LinearSolveT.innerSum, idx_0_0, idx_0_1, idx_0_2, idx_0_3, Matrix44T.set, Matrix44T.ElementAt]

theorem scaleColumn_apply_gen (a : Matrix44T S) (j r c : Fin 4) :
    LinearSolveT.scaleColumn a j r c = if c = j ∧ j < r then a r j * (1 / a j j) else a r c := by
  fin_cases j <;> fin_cases r <;> fin_cases c <;>
    simp [LinearSolveT.scaleColumn, idx_1_4, idx_2_4, idx_3_4, idx_4_4, Matrix44T.set, Matrix44T.ElementAt]

theorem scaleColumn_three_gen (a : Matrix44T S) : LinearSolveT.scaleColumn a 3 = a := by
  simp [LinearSolveT.scaleColumn, show ((3 : Fin 4).val + 1) = 4 from rfl, idx_4_4]

theorem decomposeColumn_eq_gen (s : DecompStateT S) (j : Fin 4) :
    LinearSolveT.decomposeColumn s j =
      { a := LinearSolveT.scaleColumn (if pivotedT s j j j = 0 then (pivotedT s j).set j j LinearSolveT.TINY else pivotedT s j) j,
        index := Function.update s.index j (pivotRowT s j),
        d := if j = pivotRowT s j then s.d else -s.d,
        scaling := if j = pivotRowT s j then s.scaling
          else Function.update s.scaling (pivotRowT s j) (s.scaling j),
        imax := pivotRowT s j } := by
  have hsw : ∀ (a2 : Matrix44T S) (im : Fin 4), LinearSolveT.swapRows a2 im j = fun r c => a2 (Equiv.swap j im r) c := by
    intro a2 im
    funext r c
    rw [swapRows_apply_gen]
  unfold pivotedT pivotRowT LinearSolveT.decomposeColumn
  dsimp only
  generalize LinearSolveT.lowerLoop (LinearSolveT.upperLoop s.a j) s.scaling s.imax j = r
  obtain ⟨a2, im⟩ := r
  dsimp only
  by_cases h1 : j = im
  · subst h1
    by_cases h3 : j = 3
    · subst h3
      by_cases h2 : a2 3 3 = 0 <;>
        simp [h2, Matrix44T.ElementAt, scaleColumn_three_gen]
    · by_cases h2 : a2 j j = 0 <;>
        simp [h2, h3, Matrix44T.ElementAt]
  · by_cases h3 : j = 3
    · subst h3
      by_cases h2 : a2 im 3 = 0 <;>
        simp [h1, h2, hsw, Matrix44T.ElementAt, scaleColumn_three_gen]
    · by_cases h2 : a2 im j = 0 <;>
        simp [h1, h2, h3, hsw, Matrix44T.ElementAt]

theorem decomposeColumn_index_gen (s : DecompStateT S) (j : Fin 4) :
    (LinearSolveT.decomposeColumn s j).index = Function.update s.index j (pivotRowT s j) := by
  rw [decomposeColumn_eq_gen]

theorem decomposeColumn_d_gen (s : DecompStateT S) (j : Fin 4) :
    (LinearSolveT.decomposeColumn s j).d = if j = pivotRowT s j then s.d else -s.d := by
  rw [decomposeColumn_eq_gen]

theorem decomposeColumn_scaling_gen (s : DecompStateT S) (j : Fin 4) (hsc : ∀ i, 0 < s.scaling i) :
    ∀ i, 0 < (LinearSolveT.decomposeColumn s j).scaling i := by
  intro i
  rw [decomposeColumn_eq_gen]
  simp only
  split_ifs
  · exact hsc i
  · simp only [Function.update_apply]
    split_ifs <;> exact hsc _

theorem pivoted_apply_gen (s : DecompStateT S) (j r c : Fin 4) :
    pivotedT s j r c =
      if c = j ∧ j ≤ Equiv.swap j (pivotRowT s j) r then
        LinearSolveT.innerSum (LinearSolveT.upperLoop s.a j) (Equiv.swap j (pivotRowT s j) r) j j
      else LinearSolveT.upperLoop s.a j (Equiv.swap j (pivotRowT s j) r) c := by
  simp only [pivotedT, lowerLoop_fst_gen]

theorem pivotRow_spec_gen (s : DecompStateT S) (j : Fin 4) (hsc : ∀ i, 0 < s.scaling i) :
    j ≤ pivotRowT s j ∧
    (LinearSolveT.innerSum (LinearSolveT.upperLoop s.a j) (pivotRowT s j) j j = 0 →
      ∀ r, j ≤ r → LinearSolveT.innerSum (LinearSolveT.upperLoop s.a j) r j j = 0) := by
  obtain ⟨hge, hmax⟩ := lowerLoop_snd_gen (LinearSolveT.upperLoop s.a j) s.scaling s.imax j hsc
  refine ⟨hge, ?_⟩
  intro h0 r hr
  have := hmax r hr
  rw [show (LinearSolveT.lowerLoop (LinearSolveT.upperLoop s.a j) s.scaling s.imax j).2 = pivotRowT s j from rfl, h0] at this
  simp only [abs_zero, mul_zero] at this
  exact scaled_zero_gen (hsc r) this

theorem decomposeColumn_a_gen (s : DecompStateT S) (j r c : Fin 4) :
    (LinearSolveT.decomposeColumn s j).a r c =
      if c = j ∧ r = j then (if pivotedT s j j j = 0 then LinearSolveT.TINY else pivotedT s j j j)
      else if c = j ∧ j < r then
        pivotedT s j r j * (1 / (if pivotedT s j j j = 0 then LinearSolveT.TINY else pivotedT s j j j))
      else pivotedT s j r c := by
  rw [decomposeColumn_eq_gen]
  simp only [scaleColumn_apply_gen]
  by_cases h0 : pivotedT s j j j = 0
  · simp only [h0, if_true, Matrix44T.set]
    by_cases hc : c = j
    · subst hc
      by_cases hr : r = c
      · subst hr; simp
      · by_cases hlt : c < r <;> simp [hr, hlt]
    · simp [hc]
  · simp only [h0, if_false]
    by_cases hc : c = j
    · subst hc
      by_cases hr : r = c
      · subst hr; simp
      · by_cases hlt : c < r <;> simp [hr, hlt]
    · simp [hc]

theorem stage_inv_right_gen (s : DecompStateT S) (j : Fin 4) (A' : Matrix44T S)
    (h2 : ∀ i c : Fin 4, j.val ≤ c.val → s.a i c = A' i c) (i c : Fin 4) (hc : j.val + 1 ≤ c.val) :
    (LinearSolveT.decomposeColumn s j).a i c = A' (Equiv.swap j (pivotRowT s j) i) c := by
  have hcj : c ≠ j := by
    intro h; subst h; omega
  simp only [decomposeColumn_a_gen, pivoted_apply_gen, upperLoop_apply_gen, hcj, false_and, if_false]
  refine h2 _ c ?_
  omega

theorem stage_inv_diag_gen (s : DecompStateT S) (j : Fin 4) (g : Fin 4 → S) (hge : j ≤ pivotRowT s j)
    (h3 : ∀ k : Fin 4, k.val < j.val → s.a k k = if g k = 0 then LinearSolveT.TINY else g k)
    (k : Fin 4) (hk : k.val < j.val + 1) :
    (LinearSolveT.decomposeColumn s j).a k k =
      if Function.update g j (LinearSolveT.innerSum (LinearSolveT.upperLoop s.a j) (pivotRowT s j) j j) k = 0 then LinearSolveT.TINY
      else Function.update g j (LinearSolveT.innerSum (LinearSolveT.upperLoop s.a j) (pivotRowT s j) j j) k := by
  by_cases hkj : k = j
  · subst hkj
    rw [decomposeColumn_a_gen, pivoted_apply_gen]
    simp [hge]
  · have hlt : k.val < j.val := by
      have : k.val ≠ j.val := fun h => hkj (Fin.ext h)
      omega
    have hkim : k ≠ pivotRowT s j := by
      intro h
      have := Fin.le_def.mp hge
      rw [← h] at this
      omega
    simp only [decomposeColumn_a_gen, pivoted_apply_gen, upperLoop_apply_gen, hkj, false_and, and_false,
      if_false, Function.update_noteq hkj, Equiv.swap_apply_of_ne_of_ne hkj hkim, ne_eq,
      not_false_eq_true]
    exact h3 k hlt

/-- Entries of the matrix after column `j` outside column `j`: the row
interchange only. -/
theorem decomposeColumn_a_of_ne_gen (s : DecompStateT S) (j r c : Fin 4) (hc : c ≠ j) :
    (LinearSolveT.decomposeColumn s j).a r c = s.a (Equiv.swap j (pivotRowT s j) r) c := by
  simp only [decomposeColumn_a_gen, pivoted_apply_gen, upperLoop_apply_gen]
  simp [hc]

/-- Entries of column `j` above the diagonal after column `j`. -/
theorem decomposeColumn_a_upper_gen (s : DecompStateT S) (j r : Fin 4)
    (hge : j ≤ pivotRowT s j) (hr : r < j) :
    (LinearSolveT.decomposeColumn s j).a r j = LinearSolveT.upperLoop s.a j r j := by
  simp only [decomposeColumn_a_gen, pivoted_apply_gen, swap_of_lt hge hr]
  simp [ne_of_lt hr, not_lt.2 hr.le, not_le.2 hr]

/-- At a row `x` at or below the diagonal the accumulation of column `j`
reads row `x` of the matrix itself and the finished upper entries of the
column. -/
theorem innerSum_upperLoop_of_ge_gen (a : Matrix44T S) (j x : Fin 4) (hx : j ≤ x) :
    LinearSolveT.innerSum (LinearSolveT.upperLoop a j) x j j =
      (idx 0 j).foldl (fun sum k => sum - a x k * LinearSolveT.upperLoop a j k j) (a x j) := by
  unfold LinearSolveT.innerSum
  have h0 : (LinearSolveT.upperLoop a j).ElementAt x j = a x j := by
    rw [Matrix44T.ElementAt, upperLoop_apply_gen, if_neg]
    exact fun h => absurd h.2 (not_lt.2 hx)
  rw [h0]
  refine List.foldl_ext _ _ _ (fun sum k hk => ?_)
  have hkj : k < j := Fin.lt_def.2 (mem_idx.1 hk).2
  have h1 : (LinearSolveT.upperLoop a j).ElementAt x k = a x k := by
    rw [Matrix44T.ElementAt, upperLoop_apply_gen, if_neg]
    exact fun h => absurd h.1 (ne_of_lt hkj)
  rw [h1]
  rfl

/-- Entries of column `j` below the diagonal after column `j`. -/
theorem decomposeColumn_a_lower_gen (s : DecompStateT S) (j r : Fin 4)
    (hge : j ≤ pivotRowT s j) (hr : j < r) :
    (LinearSolveT.decomposeColumn s j).a r j =
      LinearSolveT.innerSum (LinearSolveT.upperLoop s.a j) (Equiv.swap j (pivotRowT s j) r) j j *
        (1 / (if LinearSolveT.innerSum (LinearSolveT.upperLoop s.a j) (pivotRowT s j) j j = 0
              then LinearSolveT.TINY
              else LinearSolveT.innerSum (LinearSolveT.upperLoop s.a j) (pivotRowT s j) j j)) := by
  simp only [decomposeColumn_a_gen, pivoted_apply_gen, Equiv.swap_apply_left]
  simp [ne_of_gt hr, hr, swap_of_ge hge hr.le, hge]

/-- The columns before `j`: the factorisation of the row-interchanged input
is the row-interchanged factorisation. -/
theorem stage_inv_left_lt_gen (s : DecompStateT S) (j : Fin 4) (A' : Matrix44T S) (g : Fin 4 → S)
    (x : S) (hge : j ≤ pivotRowT s j)
    (h1 : ∀ i c : Fin 4, c.val < j.val → A' i c = (LmatT s.a * UmatT s.a g) i c) (i c : Fin 4)
    (hc : c < j) :
    A' (Equiv.swap j (pivotRowT s j) i) c =
      (LmatT (LinearSolveT.decomposeColumn s j).a *
        UmatT (LinearSolveT.decomposeColumn s j).a (Function.update g j x)) i c := by
  rw [h1 _ _ hc, Matrix.mul_apply, Matrix.mul_apply]
  refine Finset.sum_congr rfl (fun k _ => ?_)
  have hcj : c ≠ j := ne_of_lt hc
  have hU : UmatT (LinearSolveT.decomposeColumn s j).a (Function.update g j x) k c
      = UmatT s.a g k c := by
    unfold UmatT
    by_cases hk : k < c
    · rw [if_pos hk, if_pos hk, decomposeColumn_a_of_ne_gen _ _ _ _ hcj,
        swap_of_lt hge (lt_trans hk hc)]
    · rw [if_neg hk, if_neg hk]
      by_cases hkc : k = c
      · rw [if_pos hkc, if_pos hkc, Function.update_noteq (by rw [hkc]; exact hcj)]
      · rw [if_neg hkc, if_neg hkc]
  rw [hU]
  by_cases hk : c < k
  · have h0 : UmatT s.a g k c = 0 := by
      unfold UmatT
      rw [if_neg (not_lt.2 hk.le), if_neg (ne_of_gt hk)]
    rw [h0, mul_zero, mul_zero]
  · have hkj : k < j := lt_of_le_of_lt (not_lt.1 hk) hc
    congr 1
    unfold LmatT
    by_cases hi : i < j
    · rw [swap_of_lt hge hi]
      by_cases hki : k < i
      · rw [if_pos hki, if_pos hki, decomposeColumn_a_of_ne_gen _ _ _ _ (ne_of_lt hkj),
          swap_of_lt hge hi]
      · rw [if_neg hki, if_neg hki]
    · have hji : j ≤ i := not_lt.1 hi
      have hki : k < i := lt_of_lt_of_le hkj hji
      have hks : k < Equiv.swap j (pivotRowT s j) i := lt_of_lt_of_le hkj (swap_of_ge hge hji)
      rw [if_pos hki, if_pos hks, decomposeColumn_a_of_ne_gen _ _ _ _ (ne_of_lt hkj)]

set_option maxHeartbeats 2000000 in
/-- Column `j` itself. -/
theorem stage_inv_left_eq_gen (s : DecompStateT S) (j : Fin 4) (A' : Matrix44T S) (g : Fin 4 → S)
    (hsc : ∀ i, 0 < s.scaling i)
    (h2 : ∀ i c : Fin 4, j.val ≤ c.val → s.a i c = A' i c) (i : Fin 4) :
    A' (Equiv.swap j (pivotRowT s j) i) j =
      (LmatT (LinearSolveT.decomposeColumn s j).a *
        UmatT (LinearSolveT.decomposeColumn s j).a
          (Function.update g j
            (LinearSolveT.innerSum (LinearSolveT.upperLoop s.a j) (pivotRowT s j) j j))) i j := by
  obtain ⟨hge, hzero⟩ := pivotRow_spec_gen s j hsc
  have hp : ∀ r, j ≤ r →
      LinearSolveT.innerSum (LinearSolveT.upperLoop s.a j) (Equiv.swap j (pivotRowT s j) r) j j *
        (1 / (if LinearSolveT.innerSum (LinearSolveT.upperLoop s.a j) (pivotRowT s j) j j = 0
              then LinearSolveT.TINY
              else LinearSolveT.innerSum (LinearSolveT.upperLoop s.a j) (pivotRowT s j) j j)) *
        LinearSolveT.innerSum (LinearSolveT.upperLoop s.a j) (pivotRowT s j) j j
      = LinearSolveT.innerSum (LinearSolveT.upperLoop s.a j)
          (Equiv.swap j (pivotRowT s j) r) j j := by
    intro r hr
    by_cases hp0 : LinearSolveT.innerSum (LinearSolveT.upperLoop s.a j) (pivotRowT s j) j j = 0
    · rw [hzero hp0 _ (swap_of_ge hge hr)]; simp
    · rw [if_neg hp0]; field_simp
  have e1 := decomposeColumn_a_of_ne_gen s j
  have e3 := fun r => decomposeColumn_a_lower_gen s j r hge
  have e4 := fun r => decomposeColumn_a_upper_gen s j r hge
  have hfix : ∀ r, r < j → Equiv.swap j (pivotRowT s j) r = r := fun r hr => swap_of_lt hge hr
  have hjim : Equiv.swap j (pivotRowT s j) j = pivotRowT s j := Equiv.swap_apply_left _ _
  have hwim := innerSum_upperLoop_of_ge_gen s.a j (pivotRowT s j) hge
  have hw : ∀ r, j ≤ r →
      LinearSolveT.innerSum (LinearSolveT.upperLoop s.a j) (Equiv.swap j (pivotRowT s j) r) j j =
        (idx 0 j).foldl (fun sum k => sum - s.a (Equiv.swap j (pivotRowT s j) r) k *
          LinearSolveT.upperLoop s.a j k j) (s.a (Equiv.swap j (pivotRowT s j) r) j) :=
    fun r hr => innerSum_upperLoop_of_ge_gen s.a j _ (swap_of_ge hge hr)
  have e3w : ∀ r, j < r → (LinearSolveT.decomposeColumn s j).a r j =
      (idx 0 j).foldl (fun sum k => sum - s.a (Equiv.swap j (pivotRowT s j) r) k *
          LinearSolveT.upperLoop s.a j k j) (s.a (Equiv.swap j (pivotRowT s j) r) j) *
        (1 / (if (idx 0 j).foldl (fun sum k => sum - s.a (pivotRowT s j) k *
                LinearSolveT.upperLoop s.a j k j) (s.a (pivotRowT s j) j) = 0
              then LinearSolveT.TINY
              else (idx 0 j).foldl (fun sum k => sum - s.a (pivotRowT s j) k *
                LinearSolveT.upperLoop s.a j k j) (s.a (pivotRowT s j) j))) := by
    intro r hr
    rw [e3 r hr, hw r hr.le, hwim]
  have hpw : ∀ r, j ≤ r →
      (idx 0 j).foldl (fun sum k => sum - s.a (Equiv.swap j (pivotRowT s j) r) k *
          LinearSolveT.upperLoop s.a j k j) (s.a (Equiv.swap j (pivotRowT s j) r) j) *
        (1 / (if (idx 0 j).foldl (fun sum k => sum - s.a (pivotRowT s j) k *
                LinearSolveT.upperLoop s.a j k j) (s.a (pivotRowT s j) j) = 0
              then LinearSolveT.TINY
              else (idx 0 j).foldl (fun sum k => sum - s.a (pivotRowT s j) k *
                LinearSolveT.upperLoop s.a j k j) (s.a (pivotRowT s j) j))) *
        (idx 0 j).foldl (fun sum k => sum - s.a (pivotRowT s j) k *
                LinearSolveT.upperLoop s.a j k j) (s.a (pivotRowT s j) j)
      = (idx 0 j).foldl (fun sum k => sum - s.a (Equiv.swap j (pivotRowT s j) r) k *
          LinearSolveT.upperLoop s.a j k j) (s.a (Equiv.swap j (pivotRowT s j) r) j) := by
    intro r hr
    have := hp r hr
    rw [hw r hr, hwim] at this
    exact this
  rw [← h2 _ _ (le_refl _), hwim]
  rw [Matrix.mul_apply, Fin.sum_univ_four]
  unfold LmatT UmatT
  clear hp hzero h2 e3 hw hwim
  generalize (LinearSolveT.decomposeColumn s j).a = M' at *
  generalize pivotRowT s j = im at *
  generalize hρ : (Equiv.swap j im : Fin 4 → Fin 4) = ρ at *
  have hp0 := hpw 0
  have hp1 := hpw 1
  have hp2 := hpw 2
  have hp3 := hpw 3
  clear hpw hρ
  fin_cases j <;> beta_reduce at * <;> simp only [Fin.reduceFinMk] at * <;>
  fin_cases i <;> beta_reduce at * <;> simp only [Fin.reduceFinMk] at * <;>
  simp [e1, e3w, e4, hfix, hjim, idx_0_0, idx_0_1, idx_0_2, idx_0_3,
    upperLoop_apply_gen, val_three] at hp0 hp1 hp2 hp3 ⊢ <;>
  first
  | ring1
  | linear_combination (-1 : S) * hp0
  | linear_combination (-1 : S) * hp1
  | linear_combination (-1 : S) * hp2
  | linear_combination (-1 : S) * hp3

theorem stage_inv_left_gen (s : DecompStateT S) (j : Fin 4) (A' : Matrix44T S) (g : Fin 4 → S)
    (hsc : ∀ i, 0 < s.scaling i) (hinv : LUInvT j.val A' s.a g) (i c : Fin 4)
    (hc : c.val < j.val + 1) :
    A' (Equiv.swap j (pivotRowT s j) i) c =
      (LmatT (LinearSolveT.decomposeColumn s j).a *
        UmatT (LinearSolveT.decomposeColumn s j).a
          (Function.update g j (LinearSolveT.innerSum (LinearSolveT.upperLoop s.a j) (pivotRowT s j) j j))) i c := by
  obtain ⟨hge, _⟩ := pivotRow_spec_gen s j hsc
  obtain ⟨h1, h2, _⟩ := hinv
  by_cases hcj : c = j
  · subst hcj
    exact stage_inv_left_eq_gen s c A' g hsc h2 i
  · have hlt : c < j := by
      have : c.val ≠ j.val := fun h => hcj (Fin.ext h)
      exact Fin.lt_def.2 (by omega)
    exact stage_inv_left_lt_gen s j A' g _ hge h1 i c hlt

theorem stage_inv_gen (s : DecompStateT S) (j : Fin 4) (A' : Matrix44T S) (g : Fin 4 → S)
    (hsc : ∀ i, 0 < s.scaling i) (hinv : LUInvT j.val A' s.a g) :
    LUInvT (j.val + 1) (fun r c => A' (Equiv.swap j (pivotRowT s j) r) c) (LinearSolveT.decomposeColumn s j).a
      (Function.update g j (LinearSolveT.innerSum (LinearSolveT.upperLoop s.a j) (pivotRowT s j) j j)) :=
  ⟨fun i c hc => stage_inv_left_gen s j A' g hsc hinv i c hc,
   fun i c hc => stage_inv_right_gen s j A' hinv.2.1 i c hc,
   fun k hk => stage_inv_diag_gen s j g (pivotRow_spec_gen s j hsc).1 hinv.2.2 k hk⟩

theorem rowLargest_spec_gen (a : Matrix44T S) (i : Fin 4) :
    0 ≤ LinearSolveT.rowLargest a i ∧ ∀ j, |a i j| ≤ LinearSolveT.rowLargest a i := by
  have h0 := abs_nonneg (a i 0)
  have h1 := abs_nonneg (a i 1)
  have h2 := abs_nonneg (a i 2)
  have h3 := abs_nonneg (a i 3)
  simp only [LinearSolveT.rowLargest, idx_0_4, List.foldl, Matrix44T.ElementAt]
  refine ⟨?_, ?_⟩
  · split_ifs <;> linarith
  · intro j
    fin_cases j <;> simp only [Fin.reduceFinMk] <;> split_ifs <;> linarith

theorem rowLargest_eq_zero_gen (a : Matrix44T S) (i : Fin 4) (h : LinearSolveT.rowLargest a i = 0) (j : Fin 4) :
    a i j = 0 := by
  have := (rowLargest_spec_gen a i).2 j
  rw [h] at this
  exact abs_nonpos_iff.mp this

theorem scanRows_eq_gen (a : Matrix44T S) (sc0 : Fin 4 → S) :
    LinearSolveT.scanRows a sc0 =
      if LinearSolveT.rowLargest a 0 = 0 ∨ LinearSolveT.rowLargest a 1 = 0 ∨ LinearSolveT.rowLargest a 2 = 0 ∨ LinearSolveT.rowLargest a 3 = 0
      then none else some (fun i => 1 / LinearSolveT.rowLargest a i) := by
  have hfun : Function.update (Function.update (Function.update (Function.update sc0
      0 (1 / LinearSolveT.rowLargest a 0)) 1 (1 / LinearSolveT.rowLargest a 1)) 2 (1 / LinearSolveT.rowLargest a 2))
      3 (1 / LinearSolveT.rowLargest a 3) = fun i => 1 / LinearSolveT.rowLargest a i := by
    funext i
    fin_cases i <;> simp [Function.update]
  by_cases h0 : LinearSolveT.rowLargest a 0 = 0
  · simp [LinearSolveT.scanRows, idx_0_4, List.foldlM, h0]
  · by_cases h1 : LinearSolveT.rowLargest a 1 = 0
    · simp [LinearSolveT.scanRows, idx_0_4, List.foldlM, h0, h1]
    · by_cases h2 : LinearSolveT.rowLargest a 2 = 0
      · simp [LinearSolveT.scanRows, idx_0_4, List.foldlM, h0, h1, h2]
      · by_cases h3 : LinearSolveT.rowLargest a 3 = 0
        · simp [LinearSolveT.scanRows, idx_0_4, List.foldlM, h0, h1, h2, h3]
        · simp only [LinearSolveT.scanRows, idx_0_4, List.foldlM, Fin.zero_eta, Fin.mk_one, Fin.reduceFinMk,
            h0, h1, h2, h3, if_false, or_self, Option.some_bind, Option.pure_def,
            Option.bind_eq_bind]
          rw [hfun]

theorem scanRows_of_det_ne_zero_gen (a : Matrix44T S) (sc0 : Fin 4 → S) (h : a.det ≠ 0) :
    LinearSolveT.scanRows a sc0 = some (fun i => 1 / LinearSolveT.rowLargest a i) ∧ ∀ i, 0 < 1 / LinearSolveT.rowLargest a i := by
  have hne : ∀ i, LinearSolveT.rowLargest a i ≠ 0 := by
    intro i h0
    exact h (Matrix.det_eq_zero_of_row_eq_zero i (rowLargest_eq_zero_gen a i h0))
  refine ⟨?_, ?_⟩
  · rw [scanRows_eq_gen]
    simp [hne]
  · intro i
    have := (rowLargest_spec_gen a i).1
    have := lt_of_le_of_ne this (Ne.symm (hne i))
    positivity

theorem scanRows_zero_row_gen (a : Matrix44T S) (sc0 : Fin 4 → S) (i : Fin 4) (h : ∀ j, a i j = 0) :
    LinearSolveT.scanRows a sc0 = none := by
  have hz : LinearSolveT.rowLargest a i = 0 := by
    simp [LinearSolveT.rowLargest, idx_0_4, Matrix44T.ElementAt, h]
  rw [scanRows_eq_gen]
  fin_cases i <;> simp_all

theorem LUInv_init_gen (A : Matrix44T S) (g : Fin 4 → S) : LUInvT 0 A A g :=
  ⟨fun _ _ h => absurd h (Nat.not_lt_zero _), fun _ _ _ => rfl, fun _ h => absurd h (Nat.not_lt_zero _)⟩

theorem stage_inv_ex_gen (s : DecompStateT S) (j : Fin 4) (A' : Matrix44T S)
    (hsc : ∀ i, 0 < s.scaling i) (hinv : ∃ g, LUInvT j.val A' s.a g) :
    ∃ g, LUInvT (j.val + 1) (fun r c => A' (Equiv.swap j (pivotRowT s j) r) c)
      (LinearSolveT.decomposeColumn s j).a g := by
  obtain ⟨g, hg⟩ := hinv
  exact ⟨_, stage_inv_gen s j A' g hsc hg⟩

/-- What the column loop of `LinearSolveT.Decompose` establishes, whatever the pivots:
the row-permuted input is the product of the unit lower-triangular and the
upper-triangular factor, the latter with the pivots as computed (`g`), the
stored diagonal being `g` with zeros replaced by `LinearSolveT.TINY`. -/
theorem columnLoop_spec_gen (s0 : DecompStateT S) (hsc0 : ∀ i, 0 < s0.scaling i) (hd0 : s0.d = 1) :
    ∃ g : Fin 4 → S,
      (∀ i c, s0.a (permOf ((idx 0 4).foldl LinearSolveT.decomposeColumn s0).index i) c =
        (LmatT ((idx 0 4).foldl LinearSolveT.decomposeColumn s0).a *
          UmatT ((idx 0 4).foldl LinearSolveT.decomposeColumn s0).a g) i c) ∧
      (∀ k, ((idx 0 4).foldl LinearSolveT.decomposeColumn s0).a k k = if g k = 0 then LinearSolveT.TINY else g k) ∧
      ((idx 0 4).foldl LinearSolveT.decomposeColumn s0).d =
        ((Equiv.Perm.sign (permOf ((idx 0 4).foldl LinearSolveT.decomposeColumn s0).index) : ℤ) : S) ∧
      (∀ i, i ≤ ((idx 0 4).foldl LinearSolveT.decomposeColumn s0).index i) := by
  have hfold : (idx 0 4).foldl LinearSolveT.decomposeColumn s0 =
      LinearSolveT.decomposeColumn (LinearSolveT.decomposeColumn (LinearSolveT.decomposeColumn (LinearSolveT.decomposeColumn s0 0) 1) 2) 3 := by
    rw [idx_0_4]; rfl
  rw [hfold]
  generalize ha0 : s0.a = A
  generalize hs1 : LinearSolveT.decomposeColumn s0 0 = s1
  generalize hs2 : LinearSolveT.decomposeColumn s1 1 = s2
  generalize hs3 : LinearSolveT.decomposeColumn s2 2 = s3
  generalize hs4 : LinearSolveT.decomposeColumn s3 3 = s4
  have hsc1 : ∀ i, 0 < s1.scaling i := by rw [← hs1]; exact decomposeColumn_scaling_gen s0 0 hsc0
  have hsc2 : ∀ i, 0 < s2.scaling i := by rw [← hs2]; exact decomposeColumn_scaling_gen s1 1 hsc1
  have hsc3 : ∀ i, 0 < s3.scaling i := by rw [← hs3]; exact decomposeColumn_scaling_gen s2 2 hsc2
  have I0 : ∃ g, LUInvT (0 : Fin 4).val A s0.a g := by
    rw [ha0]; exact ⟨fun _ => 0, LUInv_init_gen A _⟩
  clear ha0
  have I1 := stage_inv_ex_gen s0 0 A hsc0 I0
  rw [hs1] at I1
  have I2 := stage_inv_ex_gen s1 1 _ hsc1 I1
  rw [hs2] at I2
  have I3 := stage_inv_ex_gen s2 2 _ hsc2 I2
  rw [hs3] at I3
  have I4 := stage_inv_ex_gen s3 3 _ hsc3 I3
  rw [hs4] at I4
  obtain ⟨g, I4⟩ := I4
  have hx1 := decomposeColumn_index_gen s0 0
  have hx2 := decomposeColumn_index_gen s1 1
  have hx3 := decomposeColumn_index_gen s2 2
  have hx4 := decomposeColumn_index_gen s3 3
  have hd1 := decomposeColumn_d_gen s0 0
  have hd2 := decomposeColumn_d_gen s1 1
  have hd3 := decomposeColumn_d_gen s2 2
  have hd4 := decomposeColumn_d_gen s3 3
  rw [hs1] at hx1 hd1
  rw [hs2] at hx2 hd2
  rw [hs3] at hx3 hd3
  rw [hs4] at hx4 hd4
  have hi0 : s4.index 0 = pivotRowT s0 0 := by rw [hx4, hx3, hx2, hx1]; simp [Function.update]
  have hi1 : s4.index 1 = pivotRowT s1 1 := by rw [hx4, hx3, hx2]; simp [Function.update]
  have hi2 : s4.index 2 = pivotRowT s2 2 := by rw [hx4, hx3]; simp [Function.update]
  have hi3 : s4.index 3 = pivotRowT s3 3 := by rw [hx4]; simp [Function.update]
  have hd : s4.d = (if (3 : Fin 4) = pivotRowT s3 3 then 1 else -1) *
      ((if (2 : Fin 4) = pivotRowT s2 2 then 1 else -1) *
        ((if (1 : Fin 4) = pivotRowT s1 1 then 1 else -1) *
          (if (0 : Fin 4) = pivotRowT s0 0 then 1 else -1))) := by
    rw [hd4, hd3, hd2, hd1, hd0]
    split_ifs <;> simp
  have hA : ∀ i c, A (permOf s4.index i) c = (LmatT s4.a * UmatT s4.a g) i c := by
    intro i c
    rw [← I4.1 i c (by have := c.isLt; show c.val < 3 + 1; omega)]
    simp only [permOf, hi0, hi1, hi2, hi3, Equiv.Perm.mul_apply]
  have hB : ∀ k, s4.a k k = if g k = 0 then LinearSolveT.TINY else g k := fun k =>
    I4.2.2 k (by have := k.isLt; show k.val < 3 + 1; omega)
  have hC : s4.d = ((Equiv.Perm.sign (permOf s4.index) : ℤ) : S) := by
    rw [hd]
    simp only [permOf, hi0, hi1, hi2, hi3, Equiv.Perm.sign_mul, Equiv.Perm.sign_swap']
    split_ifs <;> simp
  have hD : ∀ i, i ≤ s4.index i := by
    intro i
    fin_cases i
    · simp only [Fin.zero_eta, hi0]; exact (pivotRow_spec_gen s0 0 hsc0).1
    · simp only [Fin.mk_one, hi1]; exact (pivotRow_spec_gen s1 1 hsc1).1
    · simp only [Fin.reduceFinMk, hi2]; exact (pivotRow_spec_gen s2 2 hsc2).1
    · simp only [Fin.reduceFinMk, hi3]; exact (pivotRow_spec_gen s3 3 hsc3).1
  exact ⟨g, hA, hB, hC, hD⟩

theorem det_Lmat_gen (M : Matrix44T S) : (LmatT M).det = 1 := by
  rw [Matrix.det_of_lowerTriangular]
  · simp [LmatT]
  · intro i j hij
    have hlt : i < j := hij
    simp [LmatT, not_lt.mpr hlt.le, (ne_of_lt hlt).symm]

theorem det_Umat_gen (M : Matrix44T S) (g : Fin 4 → S) : (UmatT M g).det = g 0 * g 1 * g 2 * g 3 := by
  rw [Matrix.det_of_upperTriangular]
  · simp [UmatT, Fin.prod_univ_four]
  · intro i j hij
    have hlt : j < i := hij
    simp [UmatT, not_lt.mpr hlt.le, (ne_of_lt hlt).symm]

theorem Determinant_eq_gen (ls : LinearSolveT S) :
    ls.Determinant = ls.d * ls.a 0 0 * ls.a 1 1 * ls.a 2 2 * ls.a 3 3 := by
  simp [LinearSolveT.Determinant, idx_0_4, Matrix44T.ElementAt]

theorem construct_of_scan_gen (A : Matrix44T S) (sc : Fin 4 → S)
    (h : LinearSolveT.scanRows A (fun _ => 0) = some sc) :
    LinearSolveT.construct A =
      { a := ((idx 0 4).foldl LinearSolveT.decomposeColumn
          { a := A, index := fun _ => 0, d := 1, scaling := sc, imax := 0 }).a,
        index := ((idx 0 4).foldl LinearSolveT.decomposeColumn
          { a := A, index := fun _ => 0, d := 1, scaling := sc, imax := 0 }).index,
        d := ((idx 0 4).foldl LinearSolveT.decomposeColumn
          { a := A, index := fun _ => 0, d := 1, scaling := sc, imax := 0 }).d } := by
  unfold LinearSolveT.construct LinearSolveT.Decompose
  simp only [h]
  rfl

theorem construct_of_scan_none_gen (A : Matrix44T S) (h : LinearSolveT.scanRows A (fun _ => 0) = none) :
    LinearSolveT.construct A = { a := fun _ _ => 0, index := fun i => i, d := 1 } := by
  have hidx : Function.update (Function.update (Function.update (Function.update
      (fun _ => (0 : Fin 4)) 0 0) 1 1) 2 2) 3 3 = fun i => i := by
    funext i
    fin_cases i <;> simp [Function.update]
  unfold LinearSolveT.construct LinearSolveT.Decompose
  simp only [h, idx_0_4, List.foldl, Bool.not_false, if_true, Matrix44T.SetZero]
  simp only [Fin.zero_eta, Fin.mk_one, Fin.reduceFinMk]
  rw [hidx]
  rfl

/-- The factorisation `LinearSolveT.Decompose` leaves behind for a non-singular input: no
pivot is zero, and the row-permuted input is the product of the stored
factors. -/
theorem construct_spec_gen (A : Matrix44T S) (hdet : A.det ≠ 0) :
    (∀ i, i ≤ (LinearSolveT.construct A).index i) ∧
    (∀ k, (LinearSolveT.construct A).a k k ≠ 0) ∧
    A.submatrix (permOf (LinearSolveT.construct A).index) id =
      LmatT (LinearSolveT.construct A).a * UmatT (LinearSolveT.construct A).a (fun k => (LinearSolveT.construct A).a k k) ∧
    (LinearSolveT.construct A).d = ((Equiv.Perm.sign (permOf (LinearSolveT.construct A).index) : ℤ) : S) := by
  obtain ⟨hscan, hpos⟩ := scanRows_of_det_ne_zero_gen A (fun _ => 0) hdet
  rw [construct_of_scan_gen A _ hscan]
  obtain ⟨g, hA, hB, hC, hD⟩ := columnLoop_spec_gen
    { a := A, index := fun _ => 0, d := 1, scaling := fun i => 1 / LinearSolveT.rowLargest A i, imax := 0 }
    hpos rfl
  generalize (idx 0 4).foldl LinearSolveT.decomposeColumn
    { a := A, index := fun _ => 0, d := 1, scaling := fun i => 1 / LinearSolveT.rowLargest A i, imax := 0 }
    = s at *
  simp only at hA ⊢
  have hmat : A.submatrix (permOf s.index) id = LmatT s.a * UmatT s.a g := by
    funext i c
    exact hA i c
  have hdetg : g 0 * g 1 * g 2 * g 3 ≠ 0 := by
    have h1 := congrArg Matrix.det hmat
    rw [Matrix.det_permute, Matrix.det_mul, det_Lmat_gen, det_Umat_gen, one_mul] at h1
    rw [← h1]
    refine mul_ne_zero ?_ hdet
    rcases Int.units_eq_one_or (Equiv.Perm.sign (permOf s.index)) with h | h <;> simp [h]
  have hg : ∀ k, g k ≠ 0 := by
    intro k h0
    apply hdetg
    fin_cases k <;> simp_all
  have hgk : g = fun k => s.a k k := by
    funext k
    rw [hB k, if_neg (hg k)]
  refine ⟨hD, ?_, ?_, hC⟩
  · intro k
    rw [hB k, if_neg (hg k)]
    exact hg k
  · rw [← hgk]
    exact hmat

/-- For non-singular input `LinearSolveT S::LinearSolveT.Determinant` is the determinant. -/
theorem construct_Determinant_gen (A : Matrix44T S) (hdet : A.det ≠ 0) :
    (LinearSolveT.construct A).Determinant = A.det := by
  obtain ⟨_, _, hmat, hd⟩ := construct_spec_gen A hdet
  have h1 := congrArg Matrix.det hmat
  rw [Matrix.det_permute, Matrix.det_mul, det_Lmat_gen, det_Umat_gen, one_mul] at h1
  rw [Determinant_eq_gen, hd]
  have hsq : (((Equiv.Perm.sign (permOf (LinearSolveT.construct A).index) : ℤ) : S)) *
      (((Equiv.Perm.sign (permOf (LinearSolveT.construct A).index) : ℤ) : S)) = 1 := by
    rcases Int.units_eq_one_or (Equiv.Perm.sign (permOf (LinearSolveT.construct A).index)) with h | h <;>
      simp [h]
  calc ((Equiv.Perm.sign (permOf (LinearSolveT.construct A).index) : ℤ) : S) * (LinearSolveT.construct A).a 0 0 *
        (LinearSolveT.construct A).a 1 1 * (LinearSolveT.construct A).a 2 2 * (LinearSolveT.construct A).a 3 3
      = ((Equiv.Perm.sign (permOf (LinearSolveT.construct A).index) : ℤ) : S) *
          ((LinearSolveT.construct A).a 0 0 * (LinearSolveT.construct A).a 1 1 * (LinearSolveT.construct A).a 2 2 *
            (LinearSolveT.construct A).a 3 3) := by ring
    _ = ((Equiv.Perm.sign (permOf (LinearSolveT.construct A).index) : ℤ) : S) *
          (((Equiv.Perm.sign (permOf (LinearSolveT.construct A).index) : ℤ) : S) * A.det) := by rw [← h1]
    _ = A.det := by rw [← mul_assoc, hsq, one_mul]

end GenericLU

/-! ### The affine `Decompose` -/

section AffineDecompose

variable {S : Type} [LinearOrderedField S]

/-- For non-singular input `Matrix44::Determinant` is the determinant, at
every scalar type. -/
theorem Determinant_of_det_ne_gen (M : Matrix44T S) (h : M.det ≠ 0) :
    Matrix44T.Determinant M = M.det :=
  construct_Determinant_gen M h

/-- The determinant of a matrix whose last row is `[0, 0, 0, w]` is `w` times
that of its upper-left 3x3 block. -/
theorem det_last_row (M : Matrix44T S) (h0 : M 3 0 = 0) (h1 : M 3 1 = 0) (h2 : M 3 2 = 0) :
    M.det = M 3 3 * (M 0 0 * (M 1 1 * M 2 2 - M 1 2 * M 2 1)
      - M 0 1 * (M 1 0 * M 2 2 - M 1 2 * M 2 0) + M 0 2 * (M 1 0 * M 2 1 - M 1 1 * M 2 0)) := by
  have e2 : (Fin.castSucc (2 : Fin 3) : Fin 4) = 2 := rfl
  rw [Matrix.det_succ_row M 3]
  simp [Fin.sum_univ_four, h0, h1, h2, Matrix.det_fin_three, Fin.succAbove, e2,
    -mul_eq_mul_left_iff]
  ring

/-- The determinant of a matrix whose last row is `[0, 0, 0, 1]` is that of
its upper-left 3x3 block. -/
theorem det_affine (M : Matrix44T S)
    (h0 : M 3 0 = 0) (h1 : M 3 1 = 0) (h2 : M 3 2 = 0) (h3 : M 3 3 = 1) :
    M.det = M 0 0 * (M 1 1 * M 2 2 - M 1 2 * M 2 1) - M 0 1 * (M 1 0 * M 2 2 - M 1 2 * M 2 0)
      + M 0 2 * (M 1 0 * M 2 1 - M 1 1 * M 2 0) := by
  rw [det_last_row M h0 h1 h2, h3, one_mul]

theorem SetTranslate_eq (m : Matrix44T S) (tx ty tz : S) :
    Matrix44T.SetTranslate m tx ty tz = !![1, 0, 0, tx; 0, 1, 0, ty; 0, 0, 1, tz; 0, 0, 0, 1] := by
  ext i j
  fin_cases i <;> fin_cases j <;>
    simp [Matrix44T.SetTranslate, Matrix44T.SetIdentity, Matrix44T.SetDiagonal,
      Matrix44T.SetZero, Matrix44T.set, Matrix.vecHead, Matrix.vecTail]

theorem SetScale_eq (m : Matrix44T S) (sx sy sz : S) :
    Matrix44T.SetScale m sx sy sz = !![sx, 0, 0, 0; 0, sy, 0, 0; 0, 0, sz, 0; 0, 0, 0, 1] := by
  ext i j
  fin_cases i <;> fin_cases j <;>
    simp [Matrix44T.SetScale, Matrix44T.SetZero, Matrix44T.set, Matrix.vecHead, Matrix.vecTail]

/-- C19: when the last row of `M` is not exactly `[0, 0, 0, 1]`, or the
absolute value of `M.Determinant ()` is below `1e-10`, `Decompose` returns
false and `M`, `ScaleV`, `ShearV`, `RotV`, `TranV` are unchanged. -/
theorem Decompose_entry_checks (ops : MathOps S) (M : Matrix44T S)
    (ScaleV ShearV RotV TranV : Point3T S)
    (h : ¬ (M 3 0 = 0 ∧ M 3 1 = 0 ∧ M 3 2 = 0 ∧ M 3 3 = 1) ∨
      |Matrix44T.Determinant M| < 1 / 10 ^ 10) :
    Matrix44T.Decompose ops M ScaleV ShearV RotV TranV =
      some ⟨false, M, ScaleV, ShearV, RotV, TranV⟩ := by
  unfold Matrix44T.Decompose
  rcases h with h | h
  · rw [if_pos h]
  · by_cases hr : ¬ (M 3 0 = 0 ∧ M 3 1 = 0 ∧ M 3 2 = 0 ∧ M 3 3 = 1)
    · rw [if_pos hr]
    · rw [if_neg hr, if_pos h]

end AffineDecompose

theorem Decompose_entry_checks_witness :
    (Matrix44T.Decompose realMath (0 : Matrix44T ℝ) ![5, 6, 7] ![8, 9, 10] ![11, 12, 13]
        ![14, 15, 16] =
      some ⟨false, 0, ![5, 6, 7], ![8, 9, 10], ![11, 12, 13], ![14, 15, 16]⟩) ∧
    |Matrix44T.Determinant
        (!![1 / 10 ^ 4, 0, 0, 0; 0, 1 / 10 ^ 4, 0, 0; 0, 0, 1 / 10 ^ 4, 0; 0, 0, 0, 1] :
          Matrix44T ℝ)| < 1 / 10 ^ 10 ∧
    (Matrix44T.Decompose realMath
        (!![1 / 10 ^ 4, 0, 0, 0; 0, 1 / 10 ^ 4, 0, 0; 0, 0, 1 / 10 ^ 4, 0; 0, 0, 0, 1] :
          Matrix44T ℝ) ![5, 6, 7] ![8, 9, 10] ![11, 12, 13] ![14, 15, 16] =
      some ⟨false, !![1 / 10 ^ 4, 0, 0, 0; 0, 1 / 10 ^ 4, 0, 0; 0, 0, 1 / 10 ^ 4, 0; 0, 0, 0, 1],
        ![5, 6, 7], ![8, 9, 10], ![11, 12, 13], ![14, 15, 16]⟩) := by
  have hdet : (!![1 / 10 ^ 4, 0, 0, 0; 0, 1 / 10 ^ 4, 0, 0; 0, 0, 1 / 10 ^ 4, 0; 0, 0, 0, 1] :
      Matrix44T ℝ).det = 1 / 10 ^ 12 := by
    rw [det_affine _ (by simp [Matrix.vecHead, Matrix.vecTail])
      (by simp [Matrix.vecHead, Matrix.vecTail]) (by simp [Matrix.vecHead, Matrix.vecTail])
      (by simp [Matrix.vecHead, Matrix.vecTail])]
    norm_num [Matrix.vecHead, Matrix.vecTail]
  have hD : |Matrix44T.Determinant
      (!![1 / 10 ^ 4, 0, 0, 0; 0, 1 / 10 ^ 4, 0, 0; 0, 0, 1 / 10 ^ 4, 0; 0, 0, 0, 1] :
        Matrix44T ℝ)| < 1 / 10 ^ 10 := by
    rw [Determinant_of_det_ne_gen _ (by rw [hdet]; norm_num), hdet, abs_of_pos (by norm_num)]
    norm_num
  exact ⟨Decompose_entry_checks realMath 0 _ _ _ _ (Or.inl (by simp)), hD,
    Decompose_entry_checks realMath _ _ _ _ _ (Or.inr hD)⟩

theorem update3 {S : Type} (v : Point3T S) (a b c : S) :
    Function.update (Function.update (Function.update v 0 a) 1 b) 2 c = ![a, b, c] := by
  funext i
  fin_cases i <;> simp [Function.update]

theorem writeColumns_eq {S : Type} [LinearOrderedField S] (M : Matrix44T S)
    (R0 R1 R2 : Point3T S) :
    Matrix44T.writeColumns M R0 R1 R2 =
      !![R0 0, R1 0, R2 0, M 0 3; R0 1, R1 1, R2 1, M 1 3; R0 2, R1 2, R2 2, M 2 3;
         M 3 0, M 3 1, M 3 2, M 3 3] := by
  ext i j
  fin_cases i <;> fin_cases j <;> simp [Matrix44T.writeColumns]

theorem recoverScaleShear_translation (tx ty tz : ℝ) (ScaleV ShearV : Point3T ℝ) :
    Matrix44T.recoverScaleShear realMath
        (!![1, 0, 0, tx; 0, 1, 0, ty; 0, 0, 1, tz; 0, 0, 0, 1] : Matrix44T ℝ) ScaleV ShearV =
      some (!![1, 0, 0, tx; 0, 1, 0, ty; 0, 0, 1, tz; 0, 0, 0, 1], ![1, 1, 1], ![0, 0, 0]) := by
  unfold Matrix44T.recoverScaleShear
  simp [Matrix44T.GetColumn3, Matrix44T.ElementAt, Point3T.Normalize, Point3T.Norm, Point3T.dot,
    Point3T.div, Point3T.divScalar, sdiv, Point3T.sub, Point3T.scale, realMath_Sqrt,
    Matrix.vecHead, Matrix.vecTail]
  refine ⟨?_, update3 _ _ _ _, update3 _ _ _ _⟩
  rw [writeColumns_eq]
  simp [Matrix.vecHead, Matrix.vecTail]

theorem eulerAngles_zero (M : Matrix44T ℝ) (h02 : M 0 2 = 0) (h12 : M 1 2 = 0) (h01 : M 0 1 = 0)
    (h22 : 0 ≤ M 2 2) (h00 : 0 ≤ M 0 0) :
    Matrix44T.eulerAngles realMath M = (0, 0, 0) := by
  unfold Matrix44T.eulerAngles
  simp only [h02, h12, h01, realMath_Asin, realMath_Cos, Real.arcsin_zero, Real.cos_zero,
    neg_zero, zero_div, div_one, abs_one]
  rw [if_pos (by norm_num), if_neg (not_lt.2 h22), if_neg (not_lt.2 h00)]

/-- `Decompose` on a translation matrix given entry by entry. -/
theorem Decompose_translation_run (tx ty tz : ℝ) (ScaleV ShearV RotV TranV : Point3T ℝ) :
    Matrix44T.Decompose realMath
        (!![1, 0, 0, tx; 0, 1, 0, ty; 0, 0, 1, tz; 0, 0, 0, 1] : Matrix44T ℝ)
        ScaleV ShearV RotV TranV =
      some ⟨true, !![1, 0, 0, tx; 0, 1, 0, ty; 0, 0, 1, tz; 0, 0, 0, 1], ![1, 1, 1], ![0, 0, 0],
        ![0, 0, 0], ![tx, ty, tz]⟩ := by
  have hdet : (!![1, 0, 0, tx; 0, 1, 0, ty; 0, 0, 1, tz; 0, 0, 0, 1] : Matrix44T ℝ).det = 1 := by
    rw [det_affine _ (by simp [Matrix.vecHead, Matrix.vecTail])
      (by simp [Matrix.vecHead, Matrix.vecTail]) (by simp [Matrix.vecHead, Matrix.vecTail])
      (by simp [Matrix.vecHead, Matrix.vecTail])]
    norm_num [Matrix.vecHead, Matrix.vecTail]
  have hD : Matrix44T.Determinant
      (!![1, 0, 0, tx; 0, 1, 0, ty; 0, 0, 1, tz; 0, 0, 0, 1] : Matrix44T ℝ) = 1 := by
    rw [Determinant_of_det_ne_gen _ (by rw [hdet]; norm_num), hdet]
  have heul : Matrix44T.eulerAngles realMath
      (!![1, 0, 0, tx; 0, 1, 0, ty; 0, 0, 1, tz; 0, 0, 0, 1] : Matrix44T ℝ) = (0, 0, 0) :=
    eulerAngles_zero _ (by simp [Matrix.vecHead, Matrix.vecTail])
      (by simp [Matrix.vecHead, Matrix.vecTail]) (by simp [Matrix.vecHead, Matrix.vecTail])
      (by simp [Matrix.vecHead, Matrix.vecTail]) (by simp [Matrix.vecHead, Matrix.vecTail])
  unfold Matrix44T.Decompose
  rw [if_neg (by simp [Matrix.vecHead, Matrix.vecTail]), hD, if_neg (by norm_num)]
  simp only [recoverScaleShear_translation, Option.bind_eq_bind, Option.some_bind, hD]
  rw [if_neg (by norm_num), if_neg (by norm_num), if_neg (by norm_num), heul]
  simp [realMath_ToDeg, Matrix44T.GetColumn3, Matrix44T.ElementAt, Matrix.vecHead, Matrix.vecTail]

/-- C18: for every translation `(tx, ty, tz)`, `Decompose` applied to the
matrix built by `SetTranslate (tx, ty, tz)` returns true with
`ScaleV = (1, 1, 1)`, `ShearV = (0, 0, 0)`, `RotV = (0, 0, 0)` and
`TranV = (tx, ty, tz)`, and leaves the matrix as it was. -/
theorem Decompose_translation (tx ty tz : ℝ) (m0 : Matrix44T ℝ)
    (ScaleV ShearV RotV TranV : Point3T ℝ) :
    Matrix44T.Decompose realMath (Matrix44T.SetTranslate m0 tx ty tz) ScaleV ShearV RotV TranV =
      some ⟨true, Matrix44T.SetTranslate m0 tx ty tz, ![1, 1, 1], ![0, 0, 0], ![0, 0, 0],
        ![tx, ty, tz]⟩ := by
  rw [SetTranslate_eq]
  exact Decompose_translation_run tx ty tz ScaleV ShearV RotV TranV

theorem recoverScaleShear_mirror (ScaleV ShearV : Point3T ℝ) :
    Matrix44T.recoverScaleShear realMath
        (!![-1, 0, 0, 1; 0, 1, 0, 2; 0, 0, 1, 3; 0, 0, 0, 1] : Matrix44T ℝ) ScaleV ShearV =
      some (!![-1, 0, 0, 1; 0, 1, 0, 2; 0, 0, 1, 3; 0, 0, 0, 1], ![1, 1, 1], ![0, 0, 0]) := by
  unfold Matrix44T.recoverScaleShear
  simp [Matrix44T.GetColumn3, Matrix44T.ElementAt, Point3T.Normalize, Point3T.Norm, Point3T.dot,
    Point3T.div, Point3T.divScalar, sdiv, Point3T.sub, Point3T.scale, realMath_Sqrt,
    Matrix.vecHead, Matrix.vecTail]
  refine ⟨?_, update3 _ _ _ _, update3 _ _ _ _⟩
  rw [writeColumns_eq]
  simp [Matrix.vecHead, Matrix.vecTail]

theorem scaleAssign_mirror :
    Matrix44T.scaleAssign (!![-1, 0, 0, 1; 0, 1, 0, 2; 0, 0, 1, 3; 0, 0, 0, 1] : Matrix44T ℝ) (-1)
      = !![1, 0, 0, -1; 0, -1, 0, -2; 0, 0, -1, -3; 0, 0, 0, -1] := by
  ext i j
  fin_cases i <;> fin_cases j <;> simp [Matrix44T.scaleAssign, Matrix.vecHead, Matrix.vecTail]

theorem eulerAngles_mirror :
    Matrix44T.eulerAngles realMath
        (!![1, 0, 0, -1; 0, -1, 0, -2; 0, 0, -1, -3; 0, 0, 0, -1] : Matrix44T ℝ) =
      (Real.pi, 0, 0) := by
  unfold Matrix44T.eulerAngles
  simp [realMath_Asin, realMath_Cos, realMath_PI, Matrix.vecHead, Matrix.vecTail]

/-- C20: on the mirror input `[[-1,0,0,1],[0,1,0,2],[0,0,1,3],[0,0,0,1]]`
(determinant -1) `Decompose` returns true with `TranV = (1, 2, 3)`, but the
sign flip `M *= -1` negates all sixteen entries: `M` is left with last row
`[0, 0, 0, -1]`, fourth column `(-1, -2, -3)` and determinant -1. -/
theorem Decompose_mirror_flips_whole_matrix (ScaleV ShearV RotV TranV : Point3T ℝ) :
    ∃ r, Matrix44T.Decompose realMath
        (!![-1, 0, 0, 1; 0, 1, 0, 2; 0, 0, 1, 3; 0, 0, 0, 1] : Matrix44T ℝ)
        ScaleV ShearV RotV TranV = some r ∧
      r.ret = true ∧ r.TranV = ![1, 2, 3] ∧ r.ScaleV = ![-1, -1, -1] ∧
      r.RotV = ![180, 0, 0] ∧
      r.M = !![1, 0, 0, -1; 0, -1, 0, -2; 0, 0, -1, -3; 0, 0, 0, -1] ∧
      r.M 3 3 = -1 ∧ Matrix44T.GetColumn3 r.M 3 = ![-1, -2, -3] ∧ r.M.det = -1 ∧
      Matrix44T.Determinant r.M = -1 := by
  have hdet : (!![-1, 0, 0, 1; 0, 1, 0, 2; 0, 0, 1, 3; 0, 0, 0, 1] : Matrix44T ℝ).det = -1 := by
    rw [det_affine _ (by simp [Matrix.vecHead, Matrix.vecTail])
      (by simp [Matrix.vecHead, Matrix.vecTail]) (by simp [Matrix.vecHead, Matrix.vecTail])
      (by simp [Matrix.vecHead, Matrix.vecTail])]
    norm_num [Matrix.vecHead, Matrix.vecTail]
  have hD : Matrix44T.Determinant
      (!![-1, 0, 0, 1; 0, 1, 0, 2; 0, 0, 1, 3; 0, 0, 0, 1] : Matrix44T ℝ) = -1 := by
    rw [Determinant_of_det_ne_gen _ (by rw [hdet]; norm_num), hdet]
  have hdet2 : (!![1, 0, 0, -1; 0, -1, 0, -2; 0, 0, -1, -3; 0, 0, 0, -1] : Matrix44T ℝ).det
      = -1 := by
    rw [det_last_row _ (by simp [Matrix.vecHead, Matrix.vecTail])
      (by simp [Matrix.vecHead, Matrix.vecTail]) (by simp [Matrix.vecHead, Matrix.vecTail])]
    norm_num [Matrix.vecHead, Matrix.vecTail]
  have hD2 : Matrix44T.Determinant
      (!![1, 0, 0, -1; 0, -1, 0, -2; 0, 0, -1, -3; 0, 0, 0, -1] : Matrix44T ℝ) = -1 := by
    rw [Determinant_of_det_ne_gen _ (by rw [hdet2]; norm_num), hdet2]
  have hrun : Matrix44T.Decompose realMath
      (!![-1, 0, 0, 1; 0, 1, 0, 2; 0, 0, 1, 3; 0, 0, 0, 1] : Matrix44T ℝ)
      ScaleV ShearV RotV TranV =
      some ⟨true, !![1, 0, 0, -1; 0, -1, 0, -2; 0, 0, -1, -3; 0, 0, 0, -1], ![-1, -1, -1],
        ![0, 0, 0], ![180, 0, 0], ![1, 2, 3]⟩ := by
    unfold Matrix44T.Decompose
    rw [if_neg (by simp [Matrix.vecHead, Matrix.vecTail]), hD, if_neg (by norm_num)]
    simp only [recoverScaleShear_mirror, Option.bind_eq_bind, Option.some_bind, hD]
    rw [if_neg (by norm_num), if_pos (by norm_num), if_pos (by norm_num), scaleAssign_mirror,
      eulerAngles_mirror]
    have hpi : realMath.ToDeg Real.pi = 180 := by
      rw [realMath_ToDeg]
      field_simp
    have h0 : realMath.ToDeg 0 = 0 := by simp [realMath_ToDeg]
    simp only [hpi, h0]
    simp [Matrix44T.GetColumn3, Matrix44T.ElementAt, Point3T.scale,
      Matrix.vecHead, Matrix.vecTail]
  refine ⟨_, hrun, rfl, rfl, rfl, rfl, rfl, ?_, ?_, hdet2, hD2⟩
  · simp [Matrix.vecHead, Matrix.vecTail]
  · simp [Matrix44T.GetColumn3, Matrix44T.ElementAt, Matrix.vecHead, Matrix.vecTail]

/-! ### Orthonormal frames -/

section Frames

variable {S : Type} [LinearOrderedField S]

theorem eq_zero_of_sq_sum_zero (x y z : S) (h : x ^ 2 + y ^ 2 + z ^ 2 = 0) :
    x = 0 ∧ y = 0 ∧ z = 0 := by
  have hx : x ^ 2 ≤ 0 := by nlinarith [sq_nonneg y, sq_nonneg z]
  have hy : y ^ 2 ≤ 0 := by nlinarith [sq_nonneg x, sq_nonneg z]
  have hz : z ^ 2 ≤ 0 := by nlinarith [sq_nonneg x, sq_nonneg y]
  exact ⟨pow_eq_zero_iff two_ne_zero |>.1 (le_antisymm hx (sq_nonneg x)),
    pow_eq_zero_iff two_ne_zero |>.1 (le_antisymm hy (sq_nonneg y)),
    pow_eq_zero_iff two_ne_zero |>.1 (le_antisymm hz (sq_nonneg z))⟩

/-- A unit vector `u` whose triple product with the orthogonal unit vectors
`v`, `w` is 1 is their cross product. -/
theorem cross_of_triple (u0 u1 u2 v0 v1 v2 w0 w1 w2 : S)
    (huu : u0 * u0 + u1 * u1 + u2 * u2 = 1) (hvv : v0 * v0 + v1 * v1 + v2 * v2 = 1)
    (hww : w0 * w0 + w1 * w1 + w2 * w2 = 1) (hvw : v0 * w0 + v1 * w1 + v2 * w2 = 0)
    (hdet : u0 * (v1 * w2 - v2 * w1) + u1 * (v2 * w0 - v0 * w2) + u2 * (v0 * w1 - v1 * w0) = 1) :
    u0 = v1 * w2 - v2 * w1 ∧ u1 = v2 * w0 - v0 * w2 ∧ u2 = v0 * w1 - v1 * w0 := by
  have hS : (u0 - (v1 * w2 - v2 * w1)) ^ 2 + (u1 - (v2 * w0 - v0 * w2)) ^ 2
      + (u2 - (v0 * w1 - v1 * w0)) ^ 2 = 0 := by
    linear_combination huu - 2 * hdet + (w0 * w0 + w1 * w1 + w2 * w2) * hvv + hww
      - (v0 * w0 + v1 * w1 + v2 * w2) * hvw
  obtain ⟨h0, h1, h2⟩ := eq_zero_of_sq_sum_zero _ _ _ hS
  exact ⟨sub_eq_zero.1 h0, sub_eq_zero.1 h1, sub_eq_zero.1 h2⟩

/-- The squared determinant of a matrix with orthonormal columns is 1. -/
theorem det_sq_of_orthonormal (a b c d e f g h i : S)
    (h00 : a * a + d * d + g * g = 1) (h11 : b * b + e * e + h * h = 1)
    (h22 : c * c + f * f + i * i = 1) (h01 : a * b + d * e + g * h = 0)
    (h02 : a * c + d * f + g * i = 0) (h12 : b * c + e * f + h * i = 0) :
    (a * (e * i - f * h) - b * (d * i - f * g) + c * (d * h - e * g)) ^ 2 = 1 := by
  have hmul : (!![a, b, c; d, e, f; g, h, i] : Matrix (Fin 3) (Fin 3) S).transpose
      * !![a, b, c; d, e, f; g, h, i] = 1 := by
    ext r s
    fin_cases r <;> fin_cases s <;>
      simp [Matrix.mul_apply, Fin.sum_univ_three, Matrix.vecHead, Matrix.vecTail] <;>
      first
      | linear_combination h00 | linear_combination h11 | linear_combination h22
      | linear_combination h01 | linear_combination h02 | linear_combination h12
  have hd := congrArg Matrix.det hmul
  rw [Matrix.det_mul, Matrix.det_transpose, Matrix.det_one, Matrix.det_fin_three] at hd
  simp [Matrix.vecHead, Matrix.vecTail] at hd
  linear_combination hd

/-- A matrix with orthonormal columns and determinant 1 is its own cofactor
matrix; in particular its first row has length 1. -/
theorem frame_relations (a b c d e f g h i : S)
    (h00 : a * a + d * d + g * g = 1) (h11 : b * b + e * e + h * h = 1)
    (h22 : c * c + f * f + i * i = 1) (h01 : a * b + d * e + g * h = 0)
    (h02 : a * c + d * f + g * i = 0) (h12 : b * c + e * f + h * i = 0)
    (hdet : a * (e * i - f * h) - b * (d * i - f * g) + c * (d * h - e * g) = 1) :
    a * a + b * b + c * c = 1 ∧
    d = h * c - b * i ∧ h = c * d - a * f ∧ e = i * a - g * c ∧ g = b * f - c * e := by
  obtain ⟨u0, u1, u2⟩ := cross_of_triple a d g b e h c f i h00 h11 h22 h12
    (by linear_combination hdet)
  obtain ⟨v0, v1, v2⟩ := cross_of_triple b e h c f i a d g h11 h22 h00
    (by linear_combination h02) (by linear_combination hdet)
  obtain ⟨w0, w1, w2⟩ := cross_of_triple c f i a d g b e h h22 h00 h11 h01
    (by linear_combination hdet)
  refine ⟨?_, by linear_combination u1, by linear_combination v2, by linear_combination v1,
    by linear_combination u2⟩
  linear_combination a * u0 + b * v0 + c * w0 + hdet

end Frames

/-! ### The Gram-Schmidt pass of `Decompose` -/

theorem update6 {S : Type} (v : Point3T S) (a a2 b b2 c c2 : S) :
    Function.update (Function.update (Function.update (Function.update (Function.update
      (Function.update v 0 a) 0 a2) 1 b) 1 b2) 2 c) 2 c2 = ![a2, b2, c2] := by
  funext i
  fin_cases i <;> simp [Function.update]

/-- The second step of `Decompose` with its intermediate values named. -/
theorem recoverScaleShear_eq {S : Type} [LinearOrderedField S] (ops : MathOps S)
    (M : Matrix44T S) (ScaleV ShearV : Point3T S) :
    Matrix44T.recoverScaleShear ops M ScaleV ShearV =
      (Point3T.Normalize ops (M.GetColumn3 0)).bind fun R0 =>
        (Point3T.div (Point3T.sub (M.GetColumn3 1)
            (Point3T.scale R0 (Point3T.dot R0 (M.GetColumn3 1))))
          (Point3T.Norm ops (Point3T.sub (M.GetColumn3 1)
            (Point3T.scale R0 (Point3T.dot R0 (M.GetColumn3 1)))))).bind fun R1 =>
        (sdiv (Point3T.dot R0 (M.GetColumn3 1))
          (Point3T.Norm ops (Point3T.sub (M.GetColumn3 1)
            (Point3T.scale R0 (Point3T.dot R0 (M.GetColumn3 1)))))).bind fun sh0 =>
        (sdiv (Point3T.dot R0 (M.GetColumn3 2))
          (Point3T.Norm ops (Point3T.sub
            (Point3T.sub (M.GetColumn3 2) (Point3T.scale R0 (Point3T.dot R0 (M.GetColumn3 2))))
            (Point3T.scale R1 (Point3T.dot
              (Point3T.sub (M.GetColumn3 2) (Point3T.scale R0 (Point3T.dot R0 (M.GetColumn3 2))))
              R1))))).bind fun sh1 =>
        (Point3T.div (Point3T.sub
            (Point3T.sub (M.GetColumn3 2) (Point3T.scale R0 (Point3T.dot R0 (M.GetColumn3 2))))
            (Point3T.scale R1 (Point3T.dot
              (Point3T.sub (M.GetColumn3 2) (Point3T.scale R0 (Point3T.dot R0 (M.GetColumn3 2))))
              R1)))
          (Point3T.Norm ops (Point3T.sub
            (Point3T.sub (M.GetColumn3 2) (Point3T.scale R0 (Point3T.dot R0 (M.GetColumn3 2))))
            (Point3T.scale R1 (Point3T.dot
              (Point3T.sub (M.GetColumn3 2) (Point3T.scale R0 (Point3T.dot R0 (M.GetColumn3 2))))
              R1))))).bind fun R2 =>
        (sdiv (Point3T.dot R1 (M.GetColumn3 2))
          (Point3T.Norm ops (Point3T.sub
            (Point3T.sub (M.GetColumn3 2) (Point3T.scale R0 (Point3T.dot R0 (M.GetColumn3 2))))
            (Point3T.scale R1 (Point3T.dot
              (Point3T.sub (M.GetColumn3 2) (Point3T.scale R0 (Point3T.dot R0 (M.GetColumn3 2))))
              R1))))).bind fun sh2 =>
        some (Matrix44T.writeColumns M R0 R1 R2,
          ![Point3T.Norm ops (M.GetColumn3 0),
            Point3T.Norm ops (Point3T.sub (M.GetColumn3 1)
              (Point3T.scale R0 (Point3T.dot R0 (M.GetColumn3 1)))),
            Point3T.Norm ops (Point3T.sub
              (Point3T.sub (M.GetColumn3 2) (Point3T.scale R0 (Point3T.dot R0 (M.GetColumn3 2))))
              (Point3T.scale R1 (Point3T.dot
                (Point3T.sub (M.GetColumn3 2)
                  (Point3T.scale R0 (Point3T.dot R0 (M.GetColumn3 2))))
                R1)))],
          ![sh0, sh1, sh2]) := by
  unfold Matrix44T.recoverScaleShear
  simp only [Option.bind_eq_bind, Option.pure_def, Function.update_same, update3, update6,
    ne_eq, Fin.reduceEq, not_false_eq_true, Function.update_noteq]

section VectorAlgebra

variable {S : Type} [LinearOrderedField S]

theorem dot_comm3 (a b : Point3T S) : Point3T.dot a b = Point3T.dot b a := by
  unfold Point3T.dot; ring

theorem dot_sub_right (a b c : Point3T S) :
    Point3T.dot a (Point3T.sub b c) = Point3T.dot a b - Point3T.dot a c := by
  simp [Point3T.dot, Point3T.sub]; ring

theorem dot_sub_left (a b c : Point3T S) :
    Point3T.dot (Point3T.sub a b) c = Point3T.dot a c - Point3T.dot b c := by
  simp [Point3T.dot, Point3T.sub]; ring

theorem dot_scale_right (a b : Point3T S) (s : S) :
    Point3T.dot a (Point3T.scale b s) = s * Point3T.dot a b := by
  simp [Point3T.dot, Point3T.scale]; ring

theorem dot_scale_left (a b : Point3T S) (s : S) :
    Point3T.dot (Point3T.scale a s) b = s * Point3T.dot a b := by
  simp [Point3T.dot, Point3T.scale]; ring

theorem dot_divScalar_right (a b : Point3T S) (s : S) :
    Point3T.dot a (Point3T.divScalar b s) = Point3T.dot a b / s := by
  simp [Point3T.dot, Point3T.divScalar]; ring

theorem dot_divScalar_left (a b : Point3T S) (s : S) :
    Point3T.dot (Point3T.divScalar a s) b = Point3T.dot a b / s := by
  simp [Point3T.dot, Point3T.divScalar]; ring

theorem dot_self_nonneg3 (a : Point3T S) : 0 ≤ Point3T.dot a a := by
  unfold Point3T.dot
  nlinarith [mul_self_nonneg (a 0), mul_self_nonneg (a 1), mul_self_nonneg (a 2)]

theorem scale_divScalar (a : Point3T S) (s : S) (hs : s ≠ 0) :
    Point3T.scale (Point3T.divScalar a s) s = a := by
  funext k
  fin_cases k <;> simp [Point3T.scale, Point3T.divScalar, hs]

theorem div3_eq_some {a R : Point3T S} {s : S} (h : Point3T.div a s = some R) :
    s ≠ 0 ∧ R = Point3T.divScalar a s := by
  unfold Point3T.div at h
  split_ifs at h with h0
  exact ⟨h0, (Option.some.inj h).symm⟩

theorem sdiv_eq_some {a b x : S} (h : sdiv a b = some x) : b ≠ 0 ∧ x = a / b := by
  unfold sdiv at h
  split_ifs at h with h0
  exact ⟨h0, (Option.some.inj h).symm⟩

end VectorAlgebra

/-- What a successful Gram-Schmidt pass of `Decompose` returns, in exact real
arithmetic: an orthonormal triple `R0`, `R1`, `R2` written into the columns of
`M`, and scales and shears that express the original columns in it. -/
theorem recoverScaleShear_spec (M M1 : Matrix44T ℝ) (Sc Sh ScV ShV : Point3T ℝ)
    (h : Matrix44T.recoverScaleShear realMath M Sc Sh = some (M1, ScV, ShV)) :
    ∃ R0 R1 R2 : Point3T ℝ, ∃ n0 n1 n2 sh0 sh1 sh2 : ℝ,
      M1 = Matrix44T.writeColumns M R0 R1 R2 ∧ ScV = ![n0, n1, n2] ∧ ShV = ![sh0, sh1, sh2] ∧
      Point3T.dot R0 R0 = 1 ∧ Point3T.dot R1 R1 = 1 ∧ Point3T.dot R2 R2 = 1 ∧
      Point3T.dot R0 R1 = 0 ∧ Point3T.dot R0 R2 = 0 ∧ Point3T.dot R1 R2 = 0 ∧
      M.GetColumn3 0 = Point3T.scale R0 n0 ∧
      M.GetColumn3 1 = Point3T.add (Point3T.scale R0 (sh0 * n1)) (Point3T.scale R1 n1) ∧
      M.GetColumn3 2 = Point3T.add (Point3T.add (Point3T.scale R0 (sh1 * n2))
        (Point3T.scale R1 (sh2 * n2))) (Point3T.scale R2 n2) := by
  rw [recoverScaleShear_eq] at h
  simp only [Option.bind_eq_some] at h
  obtain ⟨R0, hR0, R1, hR1, sh0, hsh0, sh1, hsh1, R2, hR2, sh2, hsh2, hres⟩ := h
  simp only [Option.some.injEq, Prod.mk.injEq] at hres
  obtain ⟨hM1, hScV, hShV⟩ := hres
  generalize M.GetColumn3 0 = c0 at *
  generalize M.GetColumn3 1 = c1 at *
  generalize M.GetColumn3 2 = c2 at *
  -- first column
  obtain ⟨hn0, hR0e⟩ := div3_eq_some hR0
  have hn0sq : Point3T.Norm realMath c0 * Point3T.Norm realMath c0 = Point3T.dot c0 c0 :=
    Real.mul_self_sqrt (dot_self_nonneg3 c0)
  generalize Point3T.Norm realMath c0 = n0 at *
  have h00 : Point3T.dot R0 R0 = 1 := by
    rw [hR0e, dot_divScalar_left, dot_divScalar_right, ← hn0sq]
    field_simp
  have hc0 : c0 = Point3T.scale R0 n0 := by rw [hR0e, scale_divScalar _ _ hn0]
  clear hR0 hR0e hn0sq
  -- second column
  generalize hs0 : Point3T.dot R0 c1 = s0 at *
  have h0p : Point3T.dot R0 (Point3T.sub c1 (Point3T.scale R0 s0)) = 0 := by
    rw [dot_sub_right, dot_scale_right, h00, hs0]; ring
  have hpp := Real.mul_self_sqrt (dot_self_nonneg3 (Point3T.sub c1 (Point3T.scale R0 s0)))
  have hc1' : c1 = Point3T.add (Point3T.scale R0 s0) (Point3T.sub c1 (Point3T.scale R0 s0)) := by
    funext k
    fin_cases k <;> simp [Point3T.add, Point3T.sub, Point3T.scale]
  generalize Point3T.sub c1 (Point3T.scale R0 s0) = P1 at *
  change Point3T.Norm realMath P1 * Point3T.Norm realMath P1 = _ at hpp
  generalize Point3T.Norm realMath P1 = n1 at *
  obtain ⟨hn1, hR1e⟩ := div3_eq_some hR1
  obtain ⟨_, hsh0e⟩ := sdiv_eq_some hsh0
  have h01 : Point3T.dot R0 R1 = 0 := by
    rw [hR1e, dot_divScalar_right, h0p, zero_div]
  have h11 : Point3T.dot R1 R1 = 1 := by
    rw [hR1e, dot_divScalar_left, dot_divScalar_right, ← hpp]
    field_simp
  have hc1 : c1 = Point3T.add (Point3T.scale R0 (sh0 * n1)) (Point3T.scale R1 n1) := by
    rw [hsh0e, hR1e, scale_divScalar _ _ hn1, div_mul_cancel₀ _ hn1]
    exact hc1'
  clear hR1 hsh0 hc1' hpp h0p hR1e hsh0e
  -- third column
  generalize hs1 : Point3T.dot R0 c2 = s1 at *
  generalize hs2 : Point3T.dot R1 c2 = s2 at *
  have ht : Point3T.dot (Point3T.sub c2 (Point3T.scale R0 s1)) R1 = s2 := by
    rw [dot_sub_left, dot_scale_left, h01, dot_comm3, hs2]; ring
  rw [ht] at hsh1 hR2 hsh2 hScV
  have h0q : Point3T.dot R0
      (Point3T.sub (Point3T.sub c2 (Point3T.scale R0 s1)) (Point3T.scale R1 s2)) = 0 := by
    rw [dot_sub_right, dot_sub_right, dot_scale_right, dot_scale_right, h00, h01, hs1]; ring
  have h1q : Point3T.dot R1
      (Point3T.sub (Point3T.sub c2 (Point3T.scale R0 s1)) (Point3T.scale R1 s2)) = 0 := by
    rw [dot_sub_right, dot_sub_right, dot_scale_right, dot_scale_right, h11, dot_comm3 R1 R0,
      h01, hs2]; ring
  have hqq := Real.mul_self_sqrt (dot_self_nonneg3
    (Point3T.sub (Point3T.sub c2 (Point3T.scale R0 s1)) (Point3T.scale R1 s2)))
  have hc2' : c2 = Point3T.add (Point3T.add (Point3T.scale R0 s1) (Point3T.scale R1 s2))
      (Point3T.sub (Point3T.sub c2 (Point3T.scale R0 s1)) (Point3T.scale R1 s2)) := by
    funext k
    fin_cases k <;> simp [Point3T.add, Point3T.sub, Point3T.scale]
  generalize Point3T.sub (Point3T.sub c2 (Point3T.scale R0 s1)) (Point3T.scale R1 s2) = P2 at *
  change Point3T.Norm realMath P2 * Point3T.Norm realMath P2 = _ at hqq
  generalize Point3T.Norm realMath P2 = n2 at *
  obtain ⟨hn2, hR2e⟩ := div3_eq_some hR2
  obtain ⟨_, hsh1e⟩ := sdiv_eq_some hsh1
  obtain ⟨_, hsh2e⟩ := sdiv_eq_some hsh2
  have h02 : Point3T.dot R0 R2 = 0 := by
    rw [hR2e, dot_divScalar_right, h0q, zero_div]
  have h12 : Point3T.dot R1 R2 = 0 := by
    rw [hR2e, dot_divScalar_right, h1q, zero_div]
  have h22 : Point3T.dot R2 R2 = 1 := by
    rw [hR2e, dot_divScalar_left, dot_divScalar_right, ← hqq]
    field_simp
  have hc2 : c2 = Point3T.add (Point3T.add (Point3T.scale R0 (sh1 * n2))
      (Point3T.scale R1 (sh2 * n2))) (Point3T.scale R2 n2) := by
    rw [hsh1e, hsh2e, hR2e, scale_divScalar _ _ hn2, div_mul_cancel₀ _ hn2,
      div_mul_cancel₀ _ hn2]
    exact hc2'
  exact ⟨R0, R1, R2, n0, n1, n2, sh0, sh1, sh2, hM1.symm, hScV.symm, hShV.symm, h00, h11, h22,
    h01, h02, h12, hc0, hc1, hc2⟩

/-! ### Rebuilding the matrix from the outputs of `Decompose` -/

section Products

variable {S : Type} [LinearOrderedField S]

theorem Matrix44T_mul_eq (a m : Matrix44T S) : Matrix44T.mul a m = a * m := by
  funext i j
  simp [Matrix44T.mul, idx_0_4, Matrix.mul_apply, Fin.sum_univ_four, Matrix44T.ElementAt]

theorem SetShearXY_eq (m : Matrix44T S) (sh : S) :
    Matrix44T.SetShearXY m sh = !![1, sh, 0, 0; 0, 1, 0, 0; 0, 0, 1, 0; 0, 0, 0, 1] := by
  ext i j
  fin_cases i <;> fin_cases j <;>
    simp [Matrix44T.SetShearXY, Matrix44T.SetIdentity, Matrix44T.SetDiagonal,
      Matrix44T.SetZero, Matrix44T.set, Matrix.vecHead, Matrix.vecTail]

theorem SetShearXZ_eq (m : Matrix44T S) (sh : S) :
    Matrix44T.SetShearXZ m sh = !![1, 0, sh, 0; 0, 1, 0, 0; 0, 0, 1, 0; 0, 0, 0, 1] := by
  ext i j
  fin_cases i <;> fin_cases j <;>
    simp [Matrix44T.SetShearXZ, Matrix44T.SetIdentity, Matrix44T.SetDiagonal,
      Matrix44T.SetZero, Matrix44T.set, Matrix.vecHead, Matrix.vecTail]

theorem SetShearYZ_eq (m : Matrix44T S) (sh : S) :
    Matrix44T.SetShearYZ m sh = !![1, 0, 0, 0; 0, 1, sh, 0; 0, 0, 1, 0; 0, 0, 0, 1] := by
  ext i j
  fin_cases i <;> fin_cases j <;>
    simp [Matrix44T.SetShearYZ, Matrix44T.SetIdentity, Matrix44T.SetDiagonal,
      Matrix44T.SetZero, Matrix44T.set, Matrix.vecHead, Matrix.vecTail]

/-- The product of two matrices given entry by entry. -/
theorem mul44 (a00 a01 a02 a03 a10 a11 a12 a13 a20 a21 a22 a23 a30 a31 a32 a33
    b00 b01 b02 b03 b10 b11 b12 b13 b20 b21 b22 b23 b30 b31 b32 b33 : S) :
    (!![a00, a01, a02, a03; a10, a11, a12, a13; a20, a21, a22, a23; a30, a31, a32, a33] :
        Matrix44T S)
      * !![b00, b01, b02, b03; b10, b11, b12, b13; b20, b21, b22, b23; b30, b31, b32, b33] =
    !![a00 * b00 + a01 * b10 + a02 * b20 + a03 * b30,
        a00 * b01 + a01 * b11 + a02 * b21 + a03 * b31,
        a00 * b02 + a01 * b12 + a02 * b22 + a03 * b32,
        a00 * b03 + a01 * b13 + a02 * b23 + a03 * b33;
       a10 * b00 + a11 * b10 + a12 * b20 + a13 * b30,
        a10 * b01 + a11 * b11 + a12 * b21 + a13 * b31,
        a10 * b02 + a11 * b12 + a12 * b22 + a13 * b32,
        a10 * b03 + a11 * b13 + a12 * b23 + a13 * b33;
       a20 * b00 + a21 * b10 + a22 * b20 + a23 * b30,
        a20 * b01 + a21 * b11 + a22 * b21 + a23 * b31,
        a20 * b02 + a21 * b12 + a22 * b22 + a23 * b32,
        a20 * b03 + a21 * b13 + a22 * b23 + a23 * b33;
       a30 * b00 + a31 * b10 + a32 * b20 + a33 * b30,
        a30 * b01 + a31 * b11 + a32 * b21 + a33 * b31,
        a30 * b02 + a31 * b12 + a32 * b22 + a33 * b32,
        a30 * b03 + a31 * b13 + a32 * b23 + a33 * b33] := by
  ext i j
  fin_cases i <;> fin_cases j <;>
    simp only [Matrix.mul_apply, Fin.sum_univ_four, Matrix.of_apply, Matrix.cons_val',
      Matrix.cons_val_zero, Matrix.cons_val_one, Matrix.cons_val_two, Matrix.cons_val_three,
      Matrix.head_cons, Matrix.tail_cons, Matrix.empty_val', Matrix.cons_val_fin_one,
      Fin.zero_eta, Fin.mk_one, Fin.reduceFinMk] <;> rfl

/-- The product `Rtx * Rty * Rtz` of the three axis rotations. -/
theorem rotation_product (ca sa cb sb cg sg : S) :
    (!![1, 0, 0, 0; 0, ca, -sa, 0; 0, sa, ca, 0; 0, 0, 0, 1] : Matrix44T S)
      * !![cb, 0, sb, 0; 0, 1, 0, 0; -sb, 0, cb, 0; 0, 0, 0, 1]
      * !![cg, -sg, 0, 0; sg, cg, 0, 0; 0, 0, 1, 0; 0, 0, 0, 1] =
    !![cb * cg, -(cb * sg), sb, 0;
       ca * sg + sa * sb * cg, ca * cg - sa * sb * sg, -(sa * cb), 0;
       sa * sg - ca * sb * cg, sa * cg + ca * sb * sg, ca * cb, 0;
       0, 0, 0, 1] := by
  rw [mul44, mul44]
  simp only [mul_zero, zero_mul, add_zero, zero_add, mul_one, one_mul]
  ext i j
  fin_cases i <;> fin_cases j <;>
    simp only [Matrix.of_apply, Matrix.cons_val',
      Matrix.cons_val_zero, Matrix.cons_val_one, Matrix.cons_val_two, Matrix.cons_val_three,
      Matrix.head_cons, Matrix.tail_cons, Matrix.empty_val', Matrix.cons_val_fin_one,
      Fin.zero_eta, Fin.mk_one, Fin.reduceFinMk] <;> ring

/-- The product `Syz * Sxz * Sxy * Scl` of the shears and the scale. -/
theorem shear_scale_product (sxy sxz syz s0 s1 s2 : S) :
    (!![1, 0, 0, 0; 0, 1, syz, 0; 0, 0, 1, 0; 0, 0, 0, 1] : Matrix44T S)
      * !![1, 0, sxz, 0; 0, 1, 0, 0; 0, 0, 1, 0; 0, 0, 0, 1]
      * !![1, sxy, 0, 0; 0, 1, 0, 0; 0, 0, 1, 0; 0, 0, 0, 1]
      * !![s0, 0, 0, 0; 0, s1, 0, 0; 0, 0, s2, 0; 0, 0, 0, 1] =
    !![s0, sxy * s1, sxz * s2, 0; 0, s1, syz * s2, 0; 0, 0, s2, 0; 0, 0, 0, 1] := by
  rw [mul44, mul44, mul44]
  simp only [mul_zero, zero_mul, add_zero, zero_add, mul_one, one_mul]

/-- The product of a translation, a rotation block and an upper-triangular
block. -/
theorem affine_product (t0 t1 t2 a b c d e f g h i u00 u01 u02 u11 u12 u22 : S) :
    (!![1, 0, 0, t0; 0, 1, 0, t1; 0, 0, 1, t2; 0, 0, 0, 1] : Matrix44T S)
      * !![a, b, c, 0; d, e, f, 0; g, h, i, 0; 0, 0, 0, 1]
      * !![u00, u01, u02, 0; 0, u11, u12, 0; 0, 0, u22, 0; 0, 0, 0, 1] =
    !![a * u00, a * u01 + b * u11, a * u02 + b * u12 + c * u22, t0;
       d * u00, d * u01 + e * u11, d * u02 + e * u12 + f * u22, t1;
       g * u00, g * u01 + h * u11, g * u02 + h * u12 + i * u22, t2;
       0, 0, 0, 1] := by
  rw [mul44, mul44]
  simp only [mul_zero, zero_mul, add_zero, zero_add, mul_one, one_mul]

end Products

theorem sqrt_one_vec : Real.sqrt (1 * 1 + 0 * 0 + 0 * 0) = 1 := by norm_num

theorem SetRotate_x (m : Matrix44T ℝ) (phi : ℝ) :
    Matrix44T.SetRotate realMath m phi ![1, 0, 0] =
      some !![1, 0, 0, 0; 0, Real.cos phi, -Real.sin phi, 0; 0, Real.sin phi, Real.cos phi, 0;
        0, 0, 0, 1] := by
  simp [Matrix44T.SetRotate, Point3T.Normalize, Point3T.Norm, Point3T.dot, Point3T.div,
    Point3T.divScalar, realMath_Sqrt, realMath_Sin, realMath_Cos, Matrix.vecHead, Matrix.vecTail]

theorem SetRotate_y (m : Matrix44T ℝ) (phi : ℝ) :
    Matrix44T.SetRotate realMath m phi ![0, 1, 0] =
      some !![Real.cos phi, 0, Real.sin phi, 0; 0, 1, 0, 0; -Real.sin phi, 0, Real.cos phi, 0;
        0, 0, 0, 1] := by
  simp [Matrix44T.SetRotate, Point3T.Normalize, Point3T.Norm, Point3T.dot, Point3T.div,
    Point3T.divScalar, realMath_Sqrt, realMath_Sin, realMath_Cos, Matrix.vecHead, Matrix.vecTail]

theorem SetRotate_z (m : Matrix44T ℝ) (phi : ℝ) :
    Matrix44T.SetRotate realMath m phi ![0, 0, 1] =
      some !![Real.cos phi, -Real.sin phi, 0, 0; Real.sin phi, Real.cos phi, 0, 0; 0, 0, 1, 0;
        0, 0, 0, 1] := by
  simp [Matrix44T.SetRotate, Point3T.Normalize, Point3T.Norm, Point3T.dot, Point3T.div,
    Point3T.divScalar, realMath_Sqrt, realMath_Sin, realMath_Cos, Matrix.vecHead, Matrix.vecTail]

theorem ToRad_ToDeg (x : ℝ) : realMath.ToRad (realMath.ToDeg x) = x := by
  rw [realMath_ToDeg, realMath_ToRad]
  field_simp

/-- The angle `Decompose` extracts from a sine `-x / cb` and the sign of the
cosine `y / cb` has exactly that sine and that cosine. -/
theorem euler_angle_aux (x y cb : ℝ) (hcb : 0 < cb) (h : x * x + y * y = cb * cb) :
    Real.sin (if y / cb < 0 then Real.pi - Real.arcsin (-x / cb) else Real.arcsin (-x / cb))
      = -x / cb ∧
    Real.cos (if y / cb < 0 then Real.pi - Real.arcsin (-x / cb) else Real.arcsin (-x / cb))
      = y / cb := by
  have hsum : (-x / cb) * (-x / cb) + (y / cb) * (y / cb) = 1 := by
    field_simp
    linear_combination h
  have habs : |(-x / cb)| ≤ 1 := by
    rw [abs_le_one_iff_mul_self_le_one]
    nlinarith [mul_self_nonneg (y / cb)]
  obtain ⟨h1, h2⟩ := abs_le.1 habs
  have hsin : Real.sin (Real.arcsin (-x / cb)) = -x / cb := Real.sin_arcsin h1 h2
  have hcos : Real.cos (Real.arcsin (-x / cb)) = |y / cb| := by
    rw [Real.cos_arcsin, ← Real.sqrt_sq_eq_abs]
    congr 1
    linear_combination -hsum
  split_ifs with hneg
  · rw [Real.sin_pi_sub, Real.cos_pi_sub, hsin, hcos, abs_of_neg hneg]
    exact ⟨rfl, by ring⟩
  · rw [hsin, hcos, abs_of_nonneg (not_lt.1 hneg)]
    exact ⟨rfl, rfl⟩

/-- The Euler angles `Decompose` extracts from a proper rotation matrix on
the non-gimbal branch rebuild that rotation: with the angles `(alpha, beta,
gamma)` returned by `eulerAngles`, the product of the rotations about x, y
and z is the matrix itself. -/
theorem eulerAngles_rebuild (M : Matrix44T ℝ)
    (h00 : M 0 0 * M 0 0 + M 1 0 * M 1 0 + M 2 0 * M 2 0 = 1)
    (h11 : M 0 1 * M 0 1 + M 1 1 * M 1 1 + M 2 1 * M 2 1 = 1)
    (h22 : M 0 2 * M 0 2 + M 1 2 * M 1 2 + M 2 2 * M 2 2 = 1)
    (h01 : M 0 0 * M 0 1 + M 1 0 * M 1 1 + M 2 0 * M 2 1 = 0)
    (h02 : M 0 0 * M 0 2 + M 1 0 * M 1 2 + M 2 0 * M 2 2 = 0)
    (h12 : M 0 1 * M 0 2 + M 1 1 * M 1 2 + M 2 1 * M 2 2 = 0)
    (hdet : M 0 0 * (M 1 1 * M 2 2 - M 1 2 * M 2 1) - M 0 1 * (M 1 0 * M 2 2 - M 1 2 * M 2 0)
      + M 0 2 * (M 1 0 * M 2 1 - M 1 1 * M 2 0) = 1)
    (hbeta : 1 / 10 ^ 5 < |realMath.Cos (realMath.Asin (M 0 2))|) :
    (!![1, 0, 0, 0;
        0, Real.cos (Matrix44T.eulerAngles realMath M).1,
          -Real.sin (Matrix44T.eulerAngles realMath M).1, 0;
        0, Real.sin (Matrix44T.eulerAngles realMath M).1,
          Real.cos (Matrix44T.eulerAngles realMath M).1, 0;
        0, 0, 0, 1] : Matrix44T ℝ)
      * !![Real.cos (Matrix44T.eulerAngles realMath M).2.1, 0,
            Real.sin (Matrix44T.eulerAngles realMath M).2.1, 0;
           0, 1, 0, 0;
           -Real.sin (Matrix44T.eulerAngles realMath M).2.1, 0,
            Real.cos (Matrix44T.eulerAngles realMath M).2.1, 0;
           0, 0, 0, 1]
      * !![Real.cos (Matrix44T.eulerAngles realMath M).2.2,
            -Real.sin (Matrix44T.eulerAngles realMath M).2.2, 0, 0;
           Real.sin (Matrix44T.eulerAngles realMath M).2.2,
            Real.cos (Matrix44T.eulerAngles realMath M).2.2, 0, 0;
           0, 0, 1, 0;
           0, 0, 0, 1] =
    !![M 0 0, M 0 1, M 0 2, 0; M 1 0, M 1 1, M 1 2, 0; M 2 0, M 2 1, M 2 2, 0; 0, 0, 0, 1] := by
  obtain ⟨hrow, hd, hh, he, hg⟩ := frame_relations (M 0 0) (M 0 1) (M 0 2) (M 1 0) (M 1 1)
    (M 1 2) (M 2 0) (M 2 1) (M 2 2) h00 h11 h22 h01 h02 h12 hdet
  have hc1 : M 0 2 * M 0 2 ≤ 1 := by nlinarith [mul_self_nonneg (M 1 2), mul_self_nonneg (M 2 2)]
  have hcabs : |M 0 2| ≤ 1 := abs_le_one_iff_mul_self_le_one.2 hc1
  obtain ⟨hlo, hhi⟩ := abs_le.1 hcabs
  have hsb : Real.sin (Real.arcsin (M 0 2)) = M 0 2 := Real.sin_arcsin hlo hhi
  have hcbnn : 0 ≤ Real.cos (Real.arcsin (M 0 2)) := Real.cos_arcsin_nonneg _
  have hcbsq : Real.cos (Real.arcsin (M 0 2)) * Real.cos (Real.arcsin (M 0 2))
      = 1 - M 0 2 * M 0 2 := by
    have := Real.sin_sq_add_cos_sq (Real.arcsin (M 0 2))
    rw [hsb] at this
    linear_combination this
  rw [realMath_Asin, realMath_Cos] at hbeta
  have hcbpos : 0 < Real.cos (Real.arcsin (M 0 2)) := by
    rcases hcbnn.eq_or_lt with h0 | h0
    · rw [← h0, abs_zero] at hbeta
      norm_num at hbeta
    · exact h0
  have hE : Matrix44T.eulerAngles realMath M =
      (if M 2 2 / Real.cos (Real.arcsin (M 0 2)) < 0
        then Real.pi - Real.arcsin (-(M 1 2) / Real.cos (Real.arcsin (M 0 2)))
        else Real.arcsin (-(M 1 2) / Real.cos (Real.arcsin (M 0 2))),
       Real.arcsin (M 0 2),
       if M 0 0 / Real.cos (Real.arcsin (M 0 2)) < 0
        then Real.pi - Real.arcsin (-(M 0 1) / Real.cos (Real.arcsin (M 0 2)))
        else Real.arcsin (-(M 0 1) / Real.cos (Real.arcsin (M 0 2)))) := by
    unfold Matrix44T.eulerAngles
    simp only [realMath_Asin, realMath_Cos, realMath_PI]
    rw [if_pos hbeta]
  obtain ⟨hsa, hca⟩ := euler_angle_aux (M 1 2) (M 2 2) _ hcbpos
    (by rw [hcbsq]; linear_combination h22)
  obtain ⟨hsg, hcg⟩ := euler_angle_aux (M 0 1) (M 0 0) _ hcbpos
    (by rw [hcbsq]; linear_combination hrow)
  rw [hE]
  simp only []
  rw [hsa, hca, hsg, hcg, hsb, rotation_product]
  generalize Real.cos (Real.arcsin (M 0 2)) = cb at *
  have hcb0 : cb ≠ 0 := hcbpos.ne.symm
  ext i j
  fin_cases i <;> fin_cases j <;>
    simp only [Matrix.of_apply, Matrix.cons_val',
      Matrix.cons_val_zero, Matrix.cons_val_one, Matrix.cons_val_two, Matrix.cons_val_three,
      Matrix.head_cons, Matrix.tail_cons, Matrix.empty_val', Matrix.cons_val_fin_one,
      Fin.zero_eta, Fin.mk_one, Fin.reduceFinMk]
  all_goals first
    | rfl
    | (field_simp; done)
    | (field_simp; ring1)
    | (field_simp
       linear_combination (-cb ^ 2) * hd + (-cb ^ 2 * M 0 2) * hh + (-cb ^ 2 * M 1 0) * hcbsq)
    | (field_simp
       linear_combination (-1 : ℝ) * he + M 0 2 * hg + (-M 1 1) * hcbsq)
    | (field_simp
       linear_combination (-1 : ℝ) * hg + M 0 2 * he + (-M 2 0) * hcbsq)
    | (field_simp
       linear_combination (-cb ^ 2) * hh + (-cb ^ 2 * M 0 2) * hd + (-cb ^ 2 * M 2 1) * hcbsq)

/-- The scale and shear recovery on a sample matrix with scale `(2, 3, 1)`,
shear `XY = 1 / 3` and translation `(5, 6, 7)`. -/
theorem recoverScaleShear_sample (ScaleV ShearV : Point3T ℝ) :
    Matrix44T.recoverScaleShear realMath
        (!![2, 1, 0, 5; 0, 3, 0, 6; 0, 0, 1, 7; 0, 0, 0, 1] : Matrix44T ℝ) ScaleV ShearV =
      some (!![1, 0, 0, 5; 0, 1, 0, 6; 0, 0, 1, 7; 0, 0, 0, 1], ![2, 3, 1], ![1 / 3, 0, 0]) := by
  rw [recoverScaleShear_eq]
  have hn0 : Point3T.Norm realMath ![(2 : ℝ), 0, 0] = 2 := by
    simp [Point3T.Norm, Point3T.dot, realMath_Sqrt]
  have hc0 : Matrix44T.GetColumn3 (!![2, 1, 0, 5; 0, 3, 0, 6; 0, 0, 1, 7; 0, 0, 0, 1] :
      Matrix44T ℝ) 0 = ![2, 0, 0] := by
    simp [Matrix44T.GetColumn3, Matrix44T.ElementAt, Matrix.vecHead, Matrix.vecTail]
  have hc1 : Matrix44T.GetColumn3 (!![2, 1, 0, 5; 0, 3, 0, 6; 0, 0, 1, 7; 0, 0, 0, 1] :
      Matrix44T ℝ) 1 = ![1, 3, 0] := by
    simp [Matrix44T.GetColumn3, Matrix44T.ElementAt, Matrix.vecHead, Matrix.vecTail]
  have hc2 : Matrix44T.GetColumn3 (!![2, 1, 0, 5; 0, 3, 0, 6; 0, 0, 1, 7; 0, 0, 0, 1] :
      Matrix44T ℝ) 2 = ![0, 0, 1] := by
    simp [Matrix44T.GetColumn3, Matrix44T.ElementAt, Matrix.vecHead, Matrix.vecTail]
  have hR0 : Point3T.Normalize realMath ![(2 : ℝ), 0, 0] = some ![1, 0, 0] := by
    simp [Point3T.Normalize, Point3T.div, hn0, Point3T.divScalar]
  have hP1 : Point3T.sub ![(1 : ℝ), 3, 0] (Point3T.scale ![1, 0, 0] 1) = ![0, 3, 0] := by
    simp [Point3T.sub, Point3T.scale]
  have hn1 : Point3T.Norm realMath ![(0 : ℝ), 3, 0] = 3 := by
    simp [Point3T.Norm, Point3T.dot, realMath_Sqrt]
  have hs0 : Point3T.dot ![(1 : ℝ), 0, 0] ![1, 3, 0] = 1 := by simp [Point3T.dot]
  have hR1 : Point3T.div ![(0 : ℝ), 3, 0] 3 = some ![0, 1, 0] := by
    simp [Point3T.div, Point3T.divScalar]
  have hQ : Point3T.sub ![(0 : ℝ), 0, 1] (Point3T.scale ![1, 0, 0] 0) = ![0, 0, 1] := by
    simp [Point3T.sub, Point3T.scale]
  have hP2 : Point3T.sub ![(0 : ℝ), 0, 1] (Point3T.scale ![0, 1, 0] 0) = ![0, 0, 1] := by
    simp [Point3T.sub, Point3T.scale]
  have hs3 : Point3T.dot ![(0 : ℝ), 0, 1] ![0, 1, 0] = 0 := by simp [Point3T.dot]
  have hn2 : Point3T.Norm realMath ![(0 : ℝ), 0, 1] = 1 := by
    simp [Point3T.Norm, Point3T.dot, realMath_Sqrt]
  have hs1 : Point3T.dot ![(1 : ℝ), 0, 0] ![0, 0, 1] = 0 := by simp [Point3T.dot]
  have hs2 : Point3T.dot ![(0 : ℝ), 1, 0] ![0, 0, 1] = 0 := by simp [Point3T.dot]
  have hR2 : Point3T.div ![(0 : ℝ), 0, 1] 1 = some ![0, 0, 1] := by
    simp [Point3T.div, Point3T.divScalar]
  simp only [hc0, hc1, hc2, hR0, Option.some_bind, hP1, hn1, hs0, hR1, hP2, hn2, hs1, hs2, hR2, hQ, hs3,
    hn0]
  simp [sdiv, writeColumns_eq, Matrix.vecHead, Matrix.vecTail]

/-- `Decompose` on the sample matrix with scale `(2, 3, 1)`, shear
`XY = 1 / 3` and translation `(5, 6, 7)`. -/
theorem Decompose_sample_run (ScaleV ShearV RotV TranV : Point3T ℝ) :
    Matrix44T.Decompose realMath
        (!![2, 1, 0, 5; 0, 3, 0, 6; 0, 0, 1, 7; 0, 0, 0, 1] : Matrix44T ℝ)
        ScaleV ShearV RotV TranV =
      some ⟨true, !![1, 0, 0, 5; 0, 1, 0, 6; 0, 0, 1, 7; 0, 0, 0, 1], ![2, 3, 1], ![1 / 3, 0, 0],
        ![0, 0, 0], ![5, 6, 7]⟩ := by
  have hdet0 : (!![2, 1, 0, 5; 0, 3, 0, 6; 0, 0, 1, 7; 0, 0, 0, 1] : Matrix44T ℝ).det = 6 := by
    rw [det_affine _ (by simp [Matrix.vecHead, Matrix.vecTail])
      (by simp [Matrix.vecHead, Matrix.vecTail]) (by simp [Matrix.vecHead, Matrix.vecTail])
      (by simp [Matrix.vecHead, Matrix.vecTail])]
    norm_num [Matrix.vecHead, Matrix.vecTail]
  have hD0 : Matrix44T.Determinant
      (!![2, 1, 0, 5; 0, 3, 0, 6; 0, 0, 1, 7; 0, 0, 0, 1] : Matrix44T ℝ) = 6 := by
    rw [Determinant_of_det_ne_gen _ (by rw [hdet0]; norm_num), hdet0]
  have hdet : (!![1, 0, 0, 5; 0, 1, 0, 6; 0, 0, 1, 7; 0, 0, 0, 1] : Matrix44T ℝ).det = 1 := by
    rw [det_affine _ (by simp [Matrix.vecHead, Matrix.vecTail])
      (by simp [Matrix.vecHead, Matrix.vecTail]) (by simp [Matrix.vecHead, Matrix.vecTail])
      (by simp [Matrix.vecHead, Matrix.vecTail])]
    norm_num [Matrix.vecHead, Matrix.vecTail]
  have hD : Matrix44T.Determinant
      (!![1, 0, 0, 5; 0, 1, 0, 6; 0, 0, 1, 7; 0, 0, 0, 1] : Matrix44T ℝ) = 1 := by
    rw [Determinant_of_det_ne_gen _ (by rw [hdet]; norm_num), hdet]
  have heul : Matrix44T.eulerAngles realMath
      (!![1, 0, 0, 5; 0, 1, 0, 6; 0, 0, 1, 7; 0, 0, 0, 1] : Matrix44T ℝ) = (0, 0, 0) :=
    eulerAngles_zero _ (by simp [Matrix.vecHead, Matrix.vecTail])
      (by simp [Matrix.vecHead, Matrix.vecTail]) (by simp [Matrix.vecHead, Matrix.vecTail])
      (by simp [Matrix.vecHead, Matrix.vecTail]) (by simp [Matrix.vecHead, Matrix.vecTail])
  unfold Matrix44T.Decompose
  rw [if_neg (by simp [Matrix.vecHead, Matrix.vecTail]), hD0, if_neg (by norm_num)]
  simp only [recoverScaleShear_sample, Option.bind_eq_bind, Option.some_bind, hD]
  rw [if_neg (by norm_num), if_neg (by norm_num), if_neg (by norm_num), heul]
  simp [realMath_ToDeg, Matrix44T.GetColumn3, Matrix44T.ElementAt, Matrix.vecHead, Matrix.vecTail]

/-- What a call of `Decompose` that returns true has computed. -/
theorem Decompose_true_unpack {S : Type} [LinearOrderedField S] (ops : MathOps S)
    (M0 : Matrix44T S) (Sc Sh Rot Tr : Point3T S) (r : Matrix44T.DecomposeResult S)
    (hrun : Matrix44T.Decompose ops M0 Sc Sh Rot Tr = some r) (hret : r.ret = true) :
    (M0 3 0 = 0 ∧ M0 3 1 = 0 ∧ M0 3 2 = 0 ∧ M0 3 3 = 1) ∧
    ¬ |Matrix44T.Determinant M0| < 1 / 10 ^ 10 ∧
    ∃ M1 ScV ShV, Matrix44T.recoverScaleShear ops M0 Sc Sh = some (M1, ScV, ShV) ∧
      ¬ |Matrix44T.Determinant M1| < 1 / 10 ^ 10 ∧
      r.M = (if Matrix44T.Determinant M1 < 0 then Matrix44T.scaleAssign M1 (-1) else M1) ∧
      r.ScaleV = (if Matrix44T.Determinant M1 < 0 then Point3T.scale ScV (-1) else ScV) ∧
      r.ShearV = ShV ∧ r.TranV = M0.GetColumn3 3 ∧
      r.RotV = ![ops.ToDeg (Matrix44T.eulerAngles ops r.M).1,
        ops.ToDeg (Matrix44T.eulerAngles ops r.M).2.1,
        ops.ToDeg (Matrix44T.eulerAngles ops r.M).2.2] := by
  unfold Matrix44T.Decompose at hrun
  by_cases h1 : M0 3 0 = 0 ∧ M0 3 1 = 0 ∧ M0 3 2 = 0 ∧ M0 3 3 = 1
  · rw [if_neg (not_not.2 h1)] at hrun
    by_cases h2 : |Matrix44T.Determinant M0| < 1 / 10 ^ 10
    · rw [if_pos h2] at hrun
      cases hrun
      cases hret
    · rw [if_neg h2] at hrun
      simp only [Option.bind_eq_bind, Option.bind_eq_some] at hrun
      obtain ⟨rs, hrs, hrest⟩ := hrun
      obtain ⟨M1, ScV, ShV⟩ := rs
      simp only [Option.pure_def] at hrest
      by_cases h3 : |Matrix44T.Determinant M1| < 1 / 10 ^ 10
      · rw [if_pos h3] at hrest
        cases hrest
        cases hret
      · rw [if_neg h3] at hrest
        cases hrest
        exact ⟨h1, h2, M1, ScV, ShV, hrs, h3, rfl, rfl, rfl, rfl, rfl⟩
  · rw [if_pos h1] at hrun
    cases hrun
    cases hret

/-- C17: when `Decompose` returns true on `M0` through the non-gimbal branch
(`|cos (beta)| > 1e-5`, `beta = asin (M[0][2])` read from the matrix left in
`M`), the matrices rebuilt from its outputs by `SetTranslate`, `SetRotate`
(degrees converted back to radians, axes x, y, z), `SetShearYZ`,
`SetShearXZ`, `SetShearXY` and `SetScale` exist and the product
`Trn * Rtx * Rty * Rtz * Syz * Sxz * Sxy * Scl` is `M0`.  Such an `M0` has
last row `[0, 0, 0, 1]` and is non-singular. -/
theorem Decompose_rebuild (M0 m : Matrix44T ℝ) (Sc Sh Rot Tr : Point3T ℝ)
    (r : Matrix44T.DecomposeResult ℝ)
    (hrun : Matrix44T.Decompose realMath M0 Sc Sh Rot Tr = some r) (hret : r.ret = true)
    (hbeta : 1 / 10 ^ 5 < |realMath.Cos (realMath.Asin (r.M 0 2))|) :
    ∃ Rtx Rty Rtz : Matrix44T ℝ,
      Matrix44T.SetRotate realMath m (realMath.ToRad (r.RotV 0)) ![1, 0, 0] = some Rtx ∧
      Matrix44T.SetRotate realMath m (realMath.ToRad (r.RotV 1)) ![0, 1, 0] = some Rty ∧
      Matrix44T.SetRotate realMath m (realMath.ToRad (r.RotV 2)) ![0, 0, 1] = some Rtz ∧
      Matrix44T.mul (Matrix44T.mul (Matrix44T.mul (Matrix44T.mul (Matrix44T.mul
        (Matrix44T.mul (Matrix44T.mul
          (Matrix44T.SetTranslate m (r.TranV 0) (r.TranV 1) (r.TranV 2)) Rtx) Rty) Rtz)
          (Matrix44T.SetShearYZ m (r.ShearV 2))) (Matrix44T.SetShearXZ m (r.ShearV 1)))
          (Matrix44T.SetShearXY m (r.ShearV 0)))
          (Matrix44T.SetScale m (r.ScaleV 0) (r.ScaleV 1) (r.ScaleV 2)) = M0 := by
  obtain ⟨hrow, _, M1, ScV, ShV, hgs, hnz, hM, hScale, hShear, hTran, hRot⟩ :=
    Decompose_true_unpack realMath M0 Sc Sh Rot Tr r hrun hret
  obtain ⟨R0, R1, R2, n0, n1, n2, sh0, sh1, sh2, hM1, hScV, hShV, o00, o11, o22, o01, o02, o12,
    hc0, hc1, hc2⟩ := recoverScaleShear_spec M0 M1 Sc Sh ScV ShV hgs
  obtain ⟨hr0, hr1, hr2, hr3⟩ := hrow
  rw [writeColumns_eq, hr0, hr1, hr2, hr3] at hM1
  unfold Point3T.dot at o00 o11 o22 o01 o02 o12
  -- the determinant of the orthonormal frame
  have hdetM1 : M1.det = R0 0 * (R1 1 * R2 2 - R2 1 * R1 2) - R1 0 * (R0 1 * R2 2 - R2 1 * R0 2)
      + R2 0 * (R0 1 * R1 2 - R1 1 * R0 2) := by
    rw [det_affine M1 (by rw [hM1]; rfl) (by rw [hM1]; rfl) (by rw [hM1]; rfl)
      (by rw [hM1]; rfl), hM1]
    rfl
  have hsq := det_sq_of_orthonormal (R0 0) (R1 0) (R2 0) (R0 1) (R1 1) (R2 1) (R0 2) (R1 2)
    (R2 2) o00 o11 o22 o01 o02 o12
  rw [← hdetM1] at hsq
  have hD : Matrix44T.Determinant M1 = M1.det :=
    Determinant_of_det_ne_gen M1 (by intro h0; rw [h0] at hsq; norm_num at hsq)
  rw [hD] at hM hScale
  -- the sign `e` of the frame
  obtain ⟨e, he, hee, hMe, hSe⟩ : ∃ e : ℝ, e = M1.det ∧ e * e = 1 ∧
      (∀ i j, r.M i j = e * M1 i j) ∧ r.ScaleV = ![e * n0, e * n1, e * n2] := by
    have h1 : M1.det = 1 ∨ M1.det = -1 := sq_eq_one_iff.1 hsq
    rcases h1 with h | h
    · refine ⟨1, h.symm, by norm_num, ?_, ?_⟩
      · intro i j
        rw [hM, if_neg (by rw [h]; norm_num), one_mul]
      · rw [hScale, if_neg (by rw [h]; norm_num), hScV]
        funext k
        fin_cases k <;> simp
    · refine ⟨-1, h.symm, by norm_num, ?_, ?_⟩
      · intro i j
        rw [hM, if_pos (by rw [h]; norm_num)]
        simp [Matrix44T.scaleAssign]
      · rw [hScale, if_pos (by rw [h]; norm_num), hScV]
        funext k
        fin_cases k <;> simp [Point3T.scale]
  have hp : R0 0 * (R1 1 * R2 2 - R2 1 * R1 2) - R1 0 * (R0 1 * R2 2 - R2 1 * R0 2)
      + R2 0 * (R0 1 * R1 2 - R1 1 * R0 2) = e := by rw [← hdetM1, he]
  -- the entries of the rotation left in `M`
  have m00 : r.M 0 0 = e * R0 0 := by rw [hMe, hM1]; rfl
  have m01 : r.M 0 1 = e * R1 0 := by rw [hMe, hM1]; rfl
  have m02 : r.M 0 2 = e * R2 0 := by rw [hMe, hM1]; rfl
  have m10 : r.M 1 0 = e * R0 1 := by rw [hMe, hM1]; rfl
  have m11 : r.M 1 1 = e * R1 1 := by rw [hMe, hM1]; rfl
  have m12 : r.M 1 2 = e * R2 1 := by rw [hMe, hM1]; rfl
  have m20 : r.M 2 0 = e * R0 2 := by rw [hMe, hM1]; rfl
  have m21 : r.M 2 1 = e * R1 2 := by rw [hMe, hM1]; rfl
  have m22 : r.M 2 2 = e * R2 2 := by rw [hMe, hM1]; rfl
  have hrot := eulerAngles_rebuild r.M
    (by rw [m00, m10, m20]; linear_combination (e * e) * o00 + hee)
    (by rw [m01, m11, m21]; linear_combination (e * e) * o11 + hee)
    (by rw [m02, m12, m22]; linear_combination (e * e) * o22 + hee)
    (by rw [m00, m10, m20, m01, m11, m21]; linear_combination (e * e) * o01)
    (by rw [m00, m10, m20, m02, m12, m22]; linear_combination (e * e) * o02)
    (by rw [m01, m11, m21, m02, m12, m22]; linear_combination (e * e) * o12)
    (by rw [m00, m10, m20, m01, m11, m21, m02, m12, m22]
        linear_combination (e ^ 3) * hp + (e * e + 1) * hee)
    hbeta
  -- the entries of the input
  have c00 : M0 0 0 = R0 0 * n0 := by
    have := congrFun hc0 0
    simpa [Matrix44T.GetColumn3, Matrix44T.ElementAt, Point3T.scale] using this
  have c10 : M0 1 0 = R0 1 * n0 := by
    have := congrFun hc0 1
    simpa [Matrix44T.GetColumn3, Matrix44T.ElementAt, Point3T.scale] using this
  have c20 : M0 2 0 = R0 2 * n0 := by
    have := congrFun hc0 2
    simpa [Matrix44T.GetColumn3, Matrix44T.ElementAt, Point3T.scale] using this
  have c01 : M0 0 1 = R0 0 * (sh0 * n1) + R1 0 * n1 := by
    have := congrFun hc1 0
    simpa [Matrix44T.GetColumn3, Matrix44T.ElementAt, Point3T.scale, Point3T.add] using this
  have c11 : M0 1 1 = R0 1 * (sh0 * n1) + R1 1 * n1 := by
    have := congrFun hc1 1
    simpa [Matrix44T.GetColumn3, Matrix44T.ElementAt, Point3T.scale, Point3T.add] using this
  have c21 : M0 2 1 = R0 2 * (sh0 * n1) + R1 2 * n1 := by
    have := congrFun hc1 2
    simpa [Matrix44T.GetColumn3, Matrix44T.ElementAt, Point3T.scale, Point3T.add] using this
  have c02 : M0 0 2 = R0 0 * (sh1 * n2) + R1 0 * (sh2 * n2) + R2 0 * n2 := by
    have := congrFun hc2 0
    simpa [Matrix44T.GetColumn3, Matrix44T.ElementAt, Point3T.scale, Point3T.add] using this
  have c12 : M0 1 2 = R0 1 * (sh1 * n2) + R1 1 * (sh2 * n2) + R2 1 * n2 := by
    have := congrFun hc2 1
    simpa [Matrix44T.GetColumn3, Matrix44T.ElementAt, Point3T.scale, Point3T.add] using this
  have c22 : M0 2 2 = R0 2 * (sh1 * n2) + R1 2 * (sh2 * n2) + R2 2 * n2 := by
    have := congrFun hc2 2
    simpa [Matrix44T.GetColumn3, Matrix44T.ElementAt, Point3T.scale, Point3T.add] using this
  -- the outputs
  have hS0 : r.ScaleV 0 = e * n0 := by rw [hSe]; rfl
  have hS1 : r.ScaleV 1 = e * n1 := by rw [hSe]; rfl
  have hS2 : r.ScaleV 2 = e * n2 := by rw [hSe]; rfl
  have hH0 : r.ShearV 0 = sh0 := by rw [hShear, hShV]; rfl
  have hH1 : r.ShearV 1 = sh1 := by rw [hShear, hShV]; rfl
  have hH2 : r.ShearV 2 = sh2 := by rw [hShear, hShV]; rfl
  have hT0 : r.TranV 0 = M0 0 3 := by rw [hTran]; rfl
  have hT1 : r.TranV 1 = M0 1 3 := by rw [hTran]; rfl
  have hT2 : r.TranV 2 = M0 2 3 := by rw [hTran]; rfl
  have hA0 : realMath.ToRad (r.RotV 0) = (Matrix44T.eulerAngles realMath r.M).1 := by
    rw [hRot]; exact ToRad_ToDeg _
  have hA1 : realMath.ToRad (r.RotV 1) = (Matrix44T.eulerAngles realMath r.M).2.1 := by
    rw [hRot]; exact ToRad_ToDeg _
  have hA2 : realMath.ToRad (r.RotV 2) = (Matrix44T.eulerAngles realMath r.M).2.2 := by
    rw [hRot]; exact ToRad_ToDeg _
  have reassoc : ∀ A B C D E F G H : Matrix44T ℝ,
      A * B * C * D * E * F * G * H = A * (B * C * D) * (E * F * G * H) := by
    intros
    simp only [Matrix.mul_assoc]
  rw [hA0, hA1, hA2]
  refine ⟨_, _, _, SetRotate_x m _, SetRotate_y m _, SetRotate_z m _, ?_⟩
  simp only [Matrix44T_mul_eq]
  rw [reassoc, hrot, SetTranslate_eq, SetShearYZ_eq, SetShearXZ_eq, SetShearXY_eq, SetScale_eq,
    shear_scale_product, affine_product]
  rw [m00, m01, m02, m10, m11, m12, m20, m21, m22, hS0, hS1, hS2, hH0, hH1, hH2, hT0, hT1, hT2]
  ext i j
  fin_cases i <;> fin_cases j <;>
    simp only [Matrix.of_apply, Matrix.cons_val',
      Matrix.cons_val_zero, Matrix.cons_val_one, Matrix.cons_val_two, Matrix.cons_val_three,
      Matrix.head_cons, Matrix.tail_cons, Matrix.empty_val', Matrix.cons_val_fin_one,
      Fin.zero_eta, Fin.mk_one, Fin.reduceFinMk]
  all_goals first
    | rfl
    | exact hr0.symm
    | exact hr1.symm
    | exact hr2.symm
    | exact hr3.symm
    | (rw [c00]; linear_combination (R0 0 * n0) * hee)
    | (rw [c01]; linear_combination (R0 0 * (sh0 * n1) + R1 0 * n1) * hee)
    | (rw [c02]; linear_combination (R0 0 * (sh1 * n2) + R1 0 * (sh2 * n2) + R2 0 * n2) * hee)
    | (rw [c10]; linear_combination (R0 1 * n0) * hee)
    | (rw [c11]; linear_combination (R0 1 * (sh0 * n1) + R1 1 * n1) * hee)
    | (rw [c12]; linear_combination (R0 1 * (sh1 * n2) + R1 1 * (sh2 * n2) + R2 1 * n2) * hee)
    | (rw [c20]; linear_combination (R0 2 * n0) * hee)
    | (rw [c21]; linear_combination (R0 2 * (sh0 * n1) + R1 2 * n1) * hee)
    | (rw [c22]; linear_combination (R0 2 * (sh1 * n2) + R1 2 * (sh2 * n2) + R2 2 * n2) * hee)

/-- The hypotheses of `Decompose_rebuild` hold for the matrix with scale
`(2, 3, 1)`, shear `XY = 1 / 3` and translation `(5, 6, 7)`, and the product
rebuilt from the outputs of `Decompose` is that matrix. -/
theorem Decompose_rebuild_witness :
    ∃ r : Matrix44T.DecomposeResult ℝ,
      Matrix44T.Decompose realMath
        (!![2, 1, 0, 5; 0, 3, 0, 6; 0, 0, 1, 7; 0, 0, 0, 1] : Matrix44T ℝ) 0 0 0 0 = some r ∧
      r.ret = true ∧
      1 / 10 ^ 5 < |realMath.Cos (realMath.Asin (r.M 0 2))| ∧
      ∃ Rtx Rty Rtz : Matrix44T ℝ,
        Matrix44T.SetRotate realMath 0 (realMath.ToRad (r.RotV 0)) ![1, 0, 0] = some Rtx ∧
        Matrix44T.SetRotate realMath 0 (realMath.ToRad (r.RotV 1)) ![0, 1, 0] = some Rty ∧
        Matrix44T.SetRotate realMath 0 (realMath.ToRad (r.RotV 2)) ![0, 0, 1] = some Rtz ∧
        Matrix44T.mul (Matrix44T.mul (Matrix44T.mul (Matrix44T.mul (Matrix44T.mul
          (Matrix44T.mul (Matrix44T.mul
            (Matrix44T.SetTranslate 0 (r.TranV 0) (r.TranV 1) (r.TranV 2)) Rtx) Rty) Rtz)
            (Matrix44T.SetShearYZ 0 (r.ShearV 2))) (Matrix44T.SetShearXZ 0 (r.ShearV 1)))
            (Matrix44T.SetShearXY 0 (r.ShearV 0)))
            (Matrix44T.SetScale 0 (r.ScaleV 0) (r.ScaleV 1) (r.ScaleV 2)) =
          !![2, 1, 0, 5; 0, 3, 0, 6; 0, 0, 1, 7; 0, 0, 0, 1] := by
  have hrun := Decompose_sample_run 0 0 0 0
  have hbeta : (1 : ℝ) / 10 ^ 5 < |realMath.Cos (realMath.Asin
      ((!![1, 0, 0, 5; 0, 1, 0, 6; 0, 0, 1, 7; 0, 0, 0, 1] : Matrix44T ℝ) 0 2))| := by
    simp [realMath_Cos, realMath_Asin, Matrix.vecHead, Matrix.vecTail]
    norm_num
  exact ⟨_, hrun, rfl, hbeta, Decompose_rebuild _ 0 0 0 0 0 _ hrun rfl hbeta⟩

/-! ### Rotation by a quaternion, `ToMatrix` and `FromMatrix` -/

/-- C25: for every unit quaternion `q` and every point `p`, `q.Rotate (p)`
(the vector part of `q * (0, p) * conjugate (q)`) is the `Point3` product
`ToMatrix (q) * p`, and the scalar part of `q * (0, p) * conjugate (q)` is 0. -/
theorem Rotate_eq_ToMatrix {S : Type} [LinearOrderedField S] (q : QuaternionT S)
    (p : Point3T S) (hq : Point4T.SquaredNorm q = 1) :
    QuaternionT.Rotate q p = Matrix44T.mulPoint3 (QuaternionT.ToMatrix q) p ∧
    QuaternionT.mul (QuaternionT.mul q ![0, p 0, p 1, p 2]) (QuaternionT.Invert q) 0 = 0 := by
  unfold Point4T.SquaredNorm at hq
  refine ⟨?_, ?_⟩
  · rw [Rotate_apply, mulPoint3_affine _ _ (by simp [QuaternionT.ToMatrix])
      (by simp [QuaternionT.ToMatrix]) (by simp [QuaternionT.ToMatrix])
      (by simp [QuaternionT.ToMatrix])]
    funext i
    fin_cases i
    · simp [QuaternionT.ToMatrix]
      linear_combination (p 0) * hq
    · simp [QuaternionT.ToMatrix]
      linear_combination (p 1) * hq
    · simp [QuaternionT.ToMatrix, Matrix.vecHead, Matrix.vecTail]
      linear_combination (p 2) * hq
  · simp only [QuaternionT_mul_apply, QuaternionT_Invert_apply]
    simp
    ring

/-- The quaternion `(3/5, 4/5, 0, 0)` has norm 1 and rotates `(1, 2, 3)` as
its matrix does. -/
theorem Rotate_eq_ToMatrix_witness :
    Point4T.SquaredNorm (![3 / 5, 4 / 5, 0, 0] : QuaternionT ℚ) = 1 ∧
    QuaternionT.Rotate (![3 / 5, 4 / 5, 0, 0] : QuaternionT ℚ) ![1, 2, 3] =
      Matrix44T.mulPoint3 (QuaternionT.ToMatrix ![3 / 5, 4 / 5, 0, 0]) ![1, 2, 3] :=
  ⟨by norm_num [Point4T.SquaredNorm],
   (Rotate_eq_ToMatrix ![3 / 5, 4 / 5, 0, 0] ![1, 2, 3]
      (by norm_num [Point4T.SquaredNorm])).1⟩

/-- C26: `operator*(Matrix44Diag)` multiplies row `i` by `d[i]`, not column
`j` by `d[j]`: for the matrix whose only non-zero entry is a 1 at `(0, 1)`
and the diagonal `(2, 3, 1, 1)` it gives 2 at `(0, 1)`, where the product with
the dense diagonal matrix computed by `operator*(Matrix44)` has 3. -/
theorem mulDiag_scales_rows :
    (∀ (M : Matrix44T ℚ) (d : Point4T ℚ) (i j : Fin 4),
      Matrix44T.mulDiag M d i j = M i j * d i) ∧
    Matrix44T.mulDiag (!![0, 1, 0, 0; 0, 0, 0, 0; 0, 0, 0, 0; 0, 0, 0, 0] : Matrix44T ℚ)
      ![2, 3, 1, 1] 0 1 = 2 ∧
    Matrix44T.mul (!![0, 1, 0, 0; 0, 0, 0, 0; 0, 0, 0, 0; 0, 0, 0, 0] : Matrix44T ℚ)
      (!![2, 0, 0, 0; 0, 3, 0, 0; 0, 0, 1, 0; 0, 0, 0, 1] : Matrix44T ℚ) 0 1 = 3 := by
  refine ⟨fun M d i j => rfl, ?_, ?_⟩
  · simp [Matrix44T.mulDiag, Matrix44T.ElementAt]
  · simp [Matrix44T.mul, Matrix44T.ElementAt, idx_0_4]

/-- C24: for every unit quaternion `q` with `w ≠ 0`, `FromMatrix` takes its
first branch on `ToMatrix (q)` (`t = 4 w² > 0`) and returns `q` when `w > 0`
and `-q` when `w < 0`. -/
theorem FromMatrix_ToMatrix_first_branch (q : QuaternionT ℝ)
    (hq : Point4T.SquaredNorm q = 1) (hw : q 0 ≠ 0) :
    (QuaternionT.ToMatrix q).V 0 + (QuaternionT.ToMatrix q).V 5 + (QuaternionT.ToMatrix q).V 10
      + 1 = 4 * (q 0 * q 0) ∧
    0 < (QuaternionT.ToMatrix q).V 0 + (QuaternionT.ToMatrix q).V 5
      + (QuaternionT.ToMatrix q).V 10 + 1 ∧
    QuaternionT.FromMatrix realMath (QuaternionT.ToMatrix q) =
      some (if 0 < q 0 then q else -q) := by
  unfold Point4T.SquaredNorm at hq
  have ht : (QuaternionT.ToMatrix q).V 0 + (QuaternionT.ToMatrix q).V 5
      + (QuaternionT.ToMatrix q).V 10 + 1 = 4 * (q 0 * q 0) := by
    simp only [V_0, V_5, V_10]
    simp [QuaternionT.ToMatrix, Matrix.vecHead, Matrix.vecTail]
    linear_combination (-4 : ℝ) * hq
  have hpos : 0 < 4 * (q 0 * q 0) := by
    have := mul_self_pos.2 hw
    linarith
  have hsqrt : Real.sqrt (4 * (q 0 * q 0)) = 2 * |q 0| := by
    rw [show 4 * (q 0 * q 0) = (2 * q 0) ^ 2 by ring, Real.sqrt_sq_eq_abs, abs_mul]
    norm_num
  have habs : |q 0| ≠ 0 := abs_ne_zero.2 hw
  refine ⟨ht, by rw [ht]; exact hpos, ?_⟩
  unfold QuaternionT.FromMatrix
  simp only [ht]
  rw [if_pos hpos]
  simp only [realMath_Sqrt, hsqrt]
  rw [sdiv_of_ne _ _ (by positivity)]
  simp only [Option.bind_eq_bind, Option.some_bind]
  rw [sdiv_of_ne _ _ (by positivity)]
  simp only [Option.some_bind, Option.pure_def, Option.some.injEq, V_1, V_2, V_4, V_6, V_8, V_9]
  by_cases hp : 0 < q 0
  · rw [if_pos hp, abs_of_pos hp]
    funext i
    fin_cases i
    · simp
      field_simp
      ring
    · simp [QuaternionT.ToMatrix, Matrix.vecHead, Matrix.vecTail]
      field_simp
      ring
    · simp [QuaternionT.ToMatrix, Matrix.vecHead, Matrix.vecTail]
      field_simp
      ring
    · simp [QuaternionT.ToMatrix, Matrix.vecHead, Matrix.vecTail]
      field_simp
      ring
  · have hn : q 0 < 0 := lt_of_le_of_ne (not_lt.1 hp) hw
    rw [if_neg hp, abs_of_neg hn]
    funext i
    fin_cases i
    · simp
      field_simp
      ring
    · simp [QuaternionT.ToMatrix, Matrix.vecHead, Matrix.vecTail]
      field_simp
      ring
    · simp [QuaternionT.ToMatrix, Matrix.vecHead, Matrix.vecTail]
      field_simp
      ring
    · simp [QuaternionT.ToMatrix, Matrix.vecHead, Matrix.vecTail]
      field_simp
      ring

/-- The unit quaternion `(-3/5, 4/5, 0, 0)` has `w < 0`; `FromMatrix` of its
matrix is its negative `(3/5, -4/5, 0, 0)`. -/
theorem FromMatrix_ToMatrix_first_branch_witness :
    Point4T.SquaredNorm (![-3 / 5, 4 / 5, 0, 0] : QuaternionT ℝ) = 1 ∧
    (![-3 / 5, 4 / 5, 0, 0] : QuaternionT ℝ) 0 ≠ 0 ∧
    QuaternionT.FromMatrix realMath (QuaternionT.ToMatrix ![-3 / 5, 4 / 5, 0, 0]) =
      some (if 0 < (![-3 / 5, 4 / 5, 0, 0] : QuaternionT ℝ) 0
        then ![-3 / 5, 4 / 5, 0, 0] else -![-3 / 5, 4 / 5, 0, 0]) :=
  ⟨by norm_num [Point4T.SquaredNorm], by norm_num,
   (FromMatrix_ToMatrix_first_branch ![-3 / 5, 4 / 5, 0, 0]
      (by norm_num [Point4T.SquaredNorm]) (by norm_num)).2.2⟩

/-! ### Euler angles -/

theorem realMath_Atan2 (y x : ℝ) : realMath.Atan2 y x = Complex.arg ⟨x, y⟩ := rfl

/-- C21: the angles `(π/2, 0, π/4)` lie in the stated ranges, yet
`ToEulerAngles` applied to `FromEulerAngles (π/2, 0, π/4)` returns
`(π/2, 0, π/2)`: `gamma` is read as `atan2 (m01, m11)`, and `m11` is
`cos α cos γ + sin α sin β sin γ`, not `cos β cos γ`. -/
theorem ToEulerAngles_FromEulerAngles_gamma (m : Matrix44T ℝ) :
    (-Real.pi < Real.pi / 2 ∧ Real.pi / 2 < Real.pi) ∧
    (-(Real.pi / 2) < 0 ∧ (0 : ℝ) < Real.pi / 2) ∧
    (-Real.pi < Real.pi / 4 ∧ Real.pi / 4 < Real.pi) ∧
    Matrix44T.ToEulerAngles realMath
        (Matrix44T.FromEulerAngles realMath m (Real.pi / 2) 0 (Real.pi / 4)) =
      (Real.pi / 2, 0, Real.pi / 2) ∧
    Real.pi / 2 ≠ Real.pi / 4 := by
  have hpi := Real.pi_pos
  have h12 : (Matrix44T.FromEulerAngles realMath m (Real.pi / 2) 0 (Real.pi / 4)) 1 2 = 1 := by
    simp [Matrix44T.FromEulerAngles, Matrix44T.set, Matrix44T.SetZero, realMath_Sin, realMath_Cos]
  have h22 : (Matrix44T.FromEulerAngles realMath m (Real.pi / 2) 0 (Real.pi / 4)) 2 2 = 0 := by
    simp [Matrix44T.FromEulerAngles, Matrix44T.set, Matrix44T.SetZero, realMath_Sin, realMath_Cos]
  have h02 : (Matrix44T.FromEulerAngles realMath m (Real.pi / 2) 0 (Real.pi / 4)) 0 2 = 0 := by
    simp [Matrix44T.FromEulerAngles, Matrix44T.set, Matrix44T.SetZero, realMath_Sin, realMath_Cos]
  have h01 : (Matrix44T.FromEulerAngles realMath m (Real.pi / 2) 0 (Real.pi / 4)) 0 1
      = Real.sqrt 2 / 2 := by
    simp [Matrix44T.FromEulerAngles, Matrix44T.set, Matrix44T.SetZero, realMath_Sin, realMath_Cos]
  have h11 : (Matrix44T.FromEulerAngles realMath m (Real.pi / 2) 0 (Real.pi / 4)) 1 1 = 0 := by
    simp [Matrix44T.FromEulerAngles, Matrix44T.set, Matrix44T.SetZero, realMath_Sin, realMath_Cos]
  have hs2 : 0 < Real.sqrt 2 / 2 := by positivity
  refine ⟨⟨by linarith, by linarith⟩, ⟨by linarith, by linarith⟩, ⟨by linarith, by linarith⟩,
    ?_, by linarith⟩
  unfold Matrix44T.ToEulerAngles
  simp only [Matrix44T.ElementAt, h12, h22, h02, h01, h11, realMath_Atan2, realMath_Asin,
    neg_zero, Real.arcsin_zero]
  rw [Complex.arg_eq_pi_div_two_iff.2 ⟨rfl, by simp⟩,
    Complex.arg_eq_pi_div_two_iff.2 ⟨rfl, hs2⟩]

/-! ### The gimbal-lock branch of `Decompose` -/

theorem recoverScaleShear_cyclic (ScaleV ShearV : Point3T ℝ) :
    Matrix44T.recoverScaleShear realMath
        (!![0, 0, 1, 0; 1, 0, 0, 0; 0, 1, 0, 0; 0, 0, 0, 1] : Matrix44T ℝ) ScaleV ShearV =
      some (!![0, 0, 1, 0; 1, 0, 0, 0; 0, 1, 0, 0; 0, 0, 0, 1], ![1, 1, 1], ![0, 0, 0]) := by
  unfold Matrix44T.recoverScaleShear
  simp [Matrix44T.GetColumn3, Matrix44T.ElementAt, Point3T.Normalize, Point3T.Norm, Point3T.dot,
    Point3T.div, Point3T.divScalar, sdiv, Point3T.sub, Point3T.scale, realMath_Sqrt,
    Matrix.vecHead, Matrix.vecTail]
  refine ⟨?_, update3 _ _ _ _, update3 _ _ _ _⟩
  rw [writeColumns_eq]
  simp [Matrix.vecHead, Matrix.vecTail]

theorem eulerAngles_cyclic :
    Matrix44T.eulerAngles realMath
        (!![0, 0, 1, 0; 1, 0, 0, 0; 0, 1, 0, 0; 0, 0, 0, 1] : Matrix44T ℝ) =
      (-(Real.pi / 2), Real.pi / 2, 0) := by
  unfold Matrix44T.eulerAngles
  have h02 : (!![0, 0, 1, 0; 1, 0, 0, 0; 0, 1, 0, 0; 0, 0, 0, 1] : Matrix44T ℝ) 0 2 = 1 := by
    simp [Matrix.vecHead, Matrix.vecTail]
  have h10 : (!![0, 0, 1, 0; 1, 0, 0, 0; 0, 1, 0, 0; 0, 0, 0, 1] : Matrix44T ℝ) 1 0 = 1 := by
    simp [Matrix.vecHead, Matrix.vecTail]
  have h11 : (!![0, 0, 1, 0; 1, 0, 0, 0; 0, 1, 0, 0; 0, 0, 0, 1] : Matrix44T ℝ) 1 1 = 0 := by
    simp [Matrix.vecHead, Matrix.vecTail]
  simp only [h02, h10, h11, realMath_Asin, realMath_Cos, Real.arcsin_one, Real.cos_pi_div_two,
    Real.arcsin_neg_one, abs_zero]
  rw [if_neg (by norm_num), if_neg (by norm_num)]

/-- `Decompose` on the cyclic permutation matrix, a rotation with
`beta = +90` degrees. -/
theorem Decompose_cyclic_run (ScaleV ShearV RotV TranV : Point3T ℝ) :
    Matrix44T.Decompose realMath
        (!![0, 0, 1, 0; 1, 0, 0, 0; 0, 1, 0, 0; 0, 0, 0, 1] : Matrix44T ℝ)
        ScaleV ShearV RotV TranV =
      some ⟨true, !![0, 0, 1, 0; 1, 0, 0, 0; 0, 1, 0, 0; 0, 0, 0, 1], ![1, 1, 1], ![0, 0, 0],
        ![-90, 90, 0], ![0, 0, 0]⟩ := by
  have hpi : Real.pi ≠ 0 := Real.pi_ne_zero
  have hdet : (!![0, 0, 1, 0; 1, 0, 0, 0; 0, 1, 0, 0; 0, 0, 0, 1] : Matrix44T ℝ).det = 1 := by
    rw [det_affine _ (by simp [Matrix.vecHead, Matrix.vecTail])
      (by simp [Matrix.vecHead, Matrix.vecTail]) (by simp [Matrix.vecHead, Matrix.vecTail])
      (by simp [Matrix.vecHead, Matrix.vecTail])]
    norm_num [Matrix.vecHead, Matrix.vecTail]
  have hD : Matrix44T.Determinant
      (!![0, 0, 1, 0; 1, 0, 0, 0; 0, 1, 0, 0; 0, 0, 0, 1] : Matrix44T ℝ) = 1 := by
    rw [Determinant_of_det_ne_gen _ (by rw [hdet]; norm_num), hdet]
  have hd1 : realMath.ToDeg (-(Real.pi / 2)) = -90 := by
    rw [realMath_ToDeg]
    field_simp
    ring
  have hd2 : realMath.ToDeg (Real.pi / 2) = 90 := by
    rw [realMath_ToDeg]
    field_simp
    ring
  have hd3 : realMath.ToDeg 0 = 0 := by
    rw [realMath_ToDeg]
    simp
  unfold Matrix44T.Decompose
  rw [if_neg (by simp [Matrix.vecHead, Matrix.vecTail]), hD, if_neg (by norm_num)]
  simp only [recoverScaleShear_cyclic, Option.bind_eq_bind, Option.some_bind, hD]
  rw [if_neg (by norm_num), if_neg (by norm_num), if_neg (by norm_num), eulerAngles_cyclic]
  simp only [hd1, hd2, hd3]
  simp [Matrix44T.GetColumn3, Matrix44T.ElementAt, Matrix.vecHead, Matrix.vecTail]

/-- C22: on the cyclic permutation matrix (a rotation with `M[0][2] = 1`,
`beta = +90` degrees, `cos (beta) = 0` exactly) `Decompose` returns true
through the gimbal-lock branch with `RotV = (-90, 90, 0)` and leaves the
matrix as it was, but the product `Rtx * Rty * Rtz` rebuilt from these angles
has `-1` where the matrix left in `M` has `1`. -/
theorem Decompose_gimbal_plus_ninety (ScaleV ShearV RotV TranV : Point3T ℝ)
    (m : Matrix44T ℝ) :
    Matrix44T.Decompose realMath
        (!![0, 0, 1, 0; 1, 0, 0, 0; 0, 1, 0, 0; 0, 0, 0, 1] : Matrix44T ℝ)
        ScaleV ShearV RotV TranV =
      some ⟨true, !![0, 0, 1, 0; 1, 0, 0, 0; 0, 1, 0, 0; 0, 0, 0, 1], ![1, 1, 1], ![0, 0, 0],
        ![-90, 90, 0], ![0, 0, 0]⟩ ∧
    realMath.Cos (realMath.Asin
      ((!![0, 0, 1, 0; 1, 0, 0, 0; 0, 1, 0, 0; 0, 0, 0, 1] : Matrix44T ℝ) 0 2)) = 0 ∧
    ∃ Rtx Rty Rtz : Matrix44T ℝ,
      Matrix44T.SetRotate realMath m (realMath.ToRad (-90)) ![1, 0, 0] = some Rtx ∧
      Matrix44T.SetRotate realMath m (realMath.ToRad 90) ![0, 1, 0] = some Rty ∧
      Matrix44T.SetRotate realMath m (realMath.ToRad 0) ![0, 0, 1] = some Rtz ∧
      Matrix44T.mul (Matrix44T.mul Rtx Rty) Rtz =
        !![0, 0, 1, 0; -1, 0, 0, 0; 0, -1, 0, 0; 0, 0, 0, 1] ∧
      Matrix44T.mul (Matrix44T.mul Rtx Rty) Rtz ≠
        !![0, 0, 1, 0; 1, 0, 0, 0; 0, 1, 0, 0; 0, 0, 0, 1] := by
  have hr1 : realMath.ToRad (-90) = -(Real.pi / 2) := by
    rw [realMath_ToRad]
    ring
  have hr2 : realMath.ToRad 90 = Real.pi / 2 := by
    rw [realMath_ToRad]
    ring
  have hr3 : realMath.ToRad 0 = 0 := by
    rw [realMath_ToRad]
    ring
  have hprod : Matrix44T.mul (Matrix44T.mul
      (!![1, 0, 0, 0; 0, Real.cos (-(Real.pi / 2)), -Real.sin (-(Real.pi / 2)), 0;
        0, Real.sin (-(Real.pi / 2)), Real.cos (-(Real.pi / 2)), 0; 0, 0, 0, 1] : Matrix44T ℝ)
      !![Real.cos (Real.pi / 2), 0, Real.sin (Real.pi / 2), 0; 0, 1, 0, 0;
        -Real.sin (Real.pi / 2), 0, Real.cos (Real.pi / 2), 0; 0, 0, 0, 1])
      !![Real.cos 0, -Real.sin 0, 0, 0; Real.sin 0, Real.cos 0, 0, 0; 0, 0, 1, 0; 0, 0, 0, 1] =
      !![0, 0, 1, 0; -1, 0, 0, 0; 0, -1, 0, 0; 0, 0, 0, 1] := by
    rw [Matrix44T_mul_eq, Matrix44T_mul_eq, mul44, mul44]
    simp only [Real.cos_neg, Real.sin_neg, Real.cos_pi_div_two, Real.sin_pi_div_two,
      Real.cos_zero, Real.sin_zero]
    norm_num
  refine ⟨Decompose_cyclic_run ScaleV ShearV RotV TranV, ?_, _, _, _,
    by rw [hr1]; exact SetRotate_x m _, by rw [hr2]; exact SetRotate_y m _,
    by rw [hr3]; exact SetRotate_z m _, hprod, ?_⟩
  · simp [realMath_Asin, realMath_Cos, Matrix.vecHead, Matrix.vecTail]
  · rw [hprod]
    intro h
    have h10 := congrFun (congrFun h 1) 0
    norm_num [Matrix.vecHead, Matrix.vecTail] at h10

/-! ### Pivots of the factorisation, `Invert` and `Inverse` -/

theorem TINY_ne_zero : TINY ≠ 0 := by
  unfold TINY
  positivity

theorem decomposeColumn_eq_With (s : DecompState) (j : Fin 4) :
    decomposeColumn s j = decomposeColumnWith TINY s j := rfl

theorem construct_eq_constructWith (m : Matrix44) : construct m = constructWith TINY m := rfl

theorem scanRows_of_no_zero_row (a : Matrix44) (sc0 : Fin 4 → ℚ) (h : ∀ i, ∃ j, a i j ≠ 0) :
    scanRows a sc0 = some (fun i => 1 / rowLargest a i) ∧ ∀ i, 0 < 1 / rowLargest a i := by
  have hne : ∀ i, rowLargest a i ≠ 0 := by
    intro i h0
    obtain ⟨j, hj⟩ := h i
    exact hj (rowLargest_eq_zero a i h0 j)
  refine ⟨?_, ?_⟩
  · rw [scanRows_eq]
    simp [hne]
  · intro i
    have := (rowLargest_spec a i).1
    have := lt_of_le_of_ne this (Ne.symm (hne i))
    positivity

/-- After the construction from a matrix with no all-zero row, no diagonal
entry of the factored matrix is zero. -/
theorem construct_diag_ne_zero (A : Matrix44) (h : ∀ i, ∃ j, A i j ≠ 0) (k : Fin 4) :
    (construct A).a k k ≠ 0 := by
  obtain ⟨hscan, hpos⟩ := scanRows_of_no_zero_row A (fun _ => 0) h
  rw [construct_of_scan A _ hscan]
  obtain ⟨g, _, hdiag, _, _⟩ := columnLoop_spec
    { a := A, index := fun _ => 0, d := 1, scaling := fun i => 1 / rowLargest A i, imax := 0 }
    hpos rfl
  simp only
  rw [hdiag k]
  split_ifs with hg
  · exact TINY_ne_zero
  · exact hg

theorem Solve_of_diag_ne_zero (ls : LinearSolve) (hdiag : ∀ i, ls.a i i ≠ 0) (b : Point4) :
    ∃ x, ls.Solve b = some x := by
  obtain ⟨x, hx, _⟩ := backLoop_spec ls (forwardLoop ls b).1 hdiag
  exact ⟨x, hx⟩

theorem sampleSingular_rows : ∀ i, ∃ j, sampleSingular i j ≠ 0 := by
  intro i
  fin_cases i
  · exact ⟨0, by decide!⟩
  · exact ⟨1, by decide!⟩
  · exact ⟨2, by decide!⟩
  · exact ⟨2, by decide!⟩

/-- The column loop shared by `Invert` and `Inverse` overwrites all sixteen
entries: its result does not depend on the matrix it writes into. -/
theorem invertColumns_res_irrelevant (solve : LinearSolve) (res res2 : Matrix44) :
    Matrix44.invertColumns solve res = Matrix44.invertColumns solve res2 := by
  simp only [Matrix44.invertColumns, idx_0_4, List.foldlM]
  simp only [Fin.zero_eta, Fin.mk_one, Fin.reduceFinMk, Option.bind_eq_bind, Option.pure_def,
    List.foldl]
  cases solve.Solve (Function.update (fun _ => 0) 0 1) with
  | none => rfl
  | some x0 =>
    simp only [Option.some_bind]
    cases solve.Solve (Function.update (fun _ => 0) 1 1) with
    | none => rfl
    | some x1 =>
      simp only [Option.some_bind]
      cases solve.Solve (Function.update (fun _ => 0) 2 1) with
      | none => rfl
      | some x2 =>
        simp only [Option.some_bind]
        cases solve.Solve (Function.update (fun _ => 0) 3 1) with
        | none => rfl
        | some x3 =>
          simp only [Option.some_bind]
          congr 1
          funext i j
          fin_cases i <;> fin_cases j <;> simp [Matrix44.set]

/-- C27: for every 4x4 matrix `m` (singular or not), the in-place
`Invert (m)` leaves in `m` what `Inverse (m)` returns for the original
contents, a division by zero in the one being a division by zero in the
other; and for a matrix with no all-zero row both return a matrix. -/
theorem Invert_eq_Inverse (m : Matrix44) :
    Matrix44.Invert m = Matrix44.Inverse m ∧
    ((∀ i, ∃ j, m i j ≠ 0) → ∃ R, Matrix44.Invert m = some R ∧ Matrix44.Inverse m = some R) := by
  have heq : Matrix44.Invert m = Matrix44.Inverse m :=
    invertColumns_res_irrelevant (LinearSolve.construct m) m (fun _ _ => 0)
  refine ⟨heq, fun h => ?_⟩
  have hd := construct_diag_ne_zero m h
  obtain ⟨x0, hx0⟩ := Solve_of_diag_ne_zero _ hd (Function.update (fun _ => 0) 0 1)
  obtain ⟨x1, hx1⟩ := Solve_of_diag_ne_zero _ hd (Function.update (fun _ => 0) 1 1)
  obtain ⟨x2, hx2⟩ := Solve_of_diag_ne_zero _ hd (Function.update (fun _ => 0) 2 1)
  obtain ⟨x3, hx3⟩ := Solve_of_diag_ne_zero _ hd (Function.update (fun _ => 0) 3 1)
  have hsome : ∃ R, Matrix44.Invert m = some R := by
    unfold Matrix44.Invert
    simp only [Matrix44.invertColumns, idx_0_4, List.foldlM]
    simp only [Fin.zero_eta, Fin.mk_one, Fin.reduceFinMk, hx0, hx1, hx2, hx3,
      Option.bind_eq_bind, Option.some_bind, Option.pure_def, List.foldl]
    exact ⟨_, rfl⟩
  obtain ⟨R, hR⟩ := hsome
  exact ⟨R, hR, heq ▸ hR⟩

/-- The singular matrix `sampleSingular` has no all-zero row: `Invert` and
`Inverse` return the same matrix on it. -/
theorem Invert_eq_Inverse_witness :
    (∀ i, ∃ j, sampleSingular i j ≠ 0) ∧
    Matrix44.Invert sampleSingular = Matrix44.Inverse sampleSingular ∧
    ∃ R, Matrix44.Invert sampleSingular = some R ∧ Matrix44.Inverse sampleSingular = some R :=
  ⟨sampleSingular_rows, (Invert_eq_Inverse sampleSingular).1,
   (Invert_eq_Inverse sampleSingular).2 sampleSingular_rows⟩

end GGL
